import Mathlib

/-!
Verification of the codeflow retrieval engine core against its specification.

The TypeScript sources are shallowly embedded in Lean:

* JavaScript `Map`/`Set` objects become association lists (`JsMap`, `JsSet`)
  with insertion-order semantics (set replaces in place, otherwise appends).
* JavaScript numbers become `Rat` (or `Int`/`Nat` where the code only ever
  holds integers).  Transcendental floating-point computations
  (`Math.log`, `Math.sqrt`, cosine similarity, BM25 idf) cannot be embedded
  exactly; the functions that merely *consume* such scores take the scoring
  function as an explicit parameter, and every theorem quantifies over it.
* Mutation of shared heap objects (the retriever tags `metadata.category`
  and writes `node.embedding` on node objects that are also stored in the
  graph's node map) is modelled by explicit state passing: the embedded
  functions return the updated graph next to their ordinary result, and a
  mutation of a node object updates the graph's entry at that node's id
  (in the source both are one JavaScript object).
* `async` functions have no concurrency here (single pipeline run); they are
  embedded as pure functions, with `Except String` for code paths that throw.
-/

/-- Association-list model of a JavaScript `Map` with string keys.
`set` replaces the value of an existing key in place and appends new keys,
matching `Map`'s insertion-order iteration. -/
abbrev JsMap (α : Type) : Type := List (String × α)

/-- `m.get(k)` — the value at `k`, if any (first matching entry). -/
def JsMap.get? {α : Type} : JsMap α → String → Option α
  | [], _ => none
  | p :: rest, k => if p.1 = k then some p.2 else JsMap.get? rest k

/-- `m.has(k)`. -/
def JsMap.hasKey {α : Type} (m : JsMap α) (k : String) : Bool :=
  (JsMap.get? m k).isSome

/-- `m.set(k, v)`: replace in place if the key exists, else append. -/
def JsMap.set {α : Type} (m : JsMap α) (k : String) (v : α) : JsMap α :=
  if JsMap.hasKey m k then
    m.map (fun p => if p.1 = k then (k, v) else p)
  else
    m ++ [(k, v)]

/-- `m.delete(k)`. -/
def JsMap.del {α : Type} : JsMap α → String → JsMap α
  | [], _ => []
  | p :: rest, k => if p.1 = k then JsMap.del rest k else p :: JsMap.del rest k

/-- `Array.from(m.values())`, in insertion order. -/
def JsMap.valuesList {α : Type} (m : JsMap α) : List α := m.map (·.2)

/-- `m.size`. -/
def JsMap.size {α : Type} (m : JsMap α) : Nat := m.length

/-- The keys of the map, in insertion order. -/
def JsMap.keysList {α : Type} (m : JsMap α) : List String := m.map (·.1)

/-- List model of a JavaScript `Set` of strings (insertion order). -/
abbrev JsSet : Type := List String

/-- `s.add(x)`. -/
def JsSet.add (s : JsSet) (x : String) : JsSet :=
  if x ∈ s then s else s ++ [x]

/-- `s.delete(x)`. -/
def JsSet.del : JsSet → String → JsSet
  | [], _ => []
  | y :: rest, x => if y = x then JsSet.del rest x else y :: JsSet.del rest x

theorem JsMap.get?_append_single {α : Type} (m : JsMap α) (k : String) (v : α) (k' : String) :
    JsMap.get? (m ++ [(k, v)]) k' =
      match JsMap.get? m k' with
      | some w => some w
      | none => if k' = k then some v else none := by
  induction m with
  | nil =>
      simp only [List.nil_append, JsMap.get?]
      by_cases h : k = k'
      · subst h; simp
      · rw [if_neg h, if_neg (fun hc => h hc.symm)]
  | cons p rest ih =>
      simp only [List.cons_append, JsMap.get?]
      by_cases h : p.1 = k'
      · rw [if_pos h, if_pos h]
      · rw [if_neg h, if_neg h]
        exact ih

theorem JsMap.get?_map_replace {α : Type} (m : JsMap α) (k : String) (v : α) (k' : String) :
    JsMap.get? (m.map (fun p => if p.1 = k then (k, v) else p)) k' =
      if k' = k then (JsMap.get? m k).map (fun _ => v) else JsMap.get? m k' := by
  induction m with
  | nil => by_cases h : k' = k <;> simp [JsMap.get?, h]
  | cons p rest ih =>
      by_cases hk' : k' = k
      · subst hk'
        by_cases hp : p.1 = k'
        · simp [JsMap.get?, hp]
        · simp [JsMap.get?, hp, ih]
      · by_cases hp : p.1 = k
        · have h1 : ¬ k = k' := fun hc => hk' hc.symm
          have h2 : ¬ p.1 = k' := fun hc => hk' (hp.symm.trans hc).symm
          simp [JsMap.get?, hp, hk', h1, h2, ih]
        · simp [JsMap.get?, hp, hk', ih]

theorem JsMap.get?_set {α : Type} (m : JsMap α) (k : String) (v : α) (k' : String) :
    JsMap.get? (JsMap.set m k v) k' = if k' = k then some v else JsMap.get? m k' := by
  unfold JsMap.set
  by_cases hmem : JsMap.hasKey m k
  · rw [if_pos hmem, JsMap.get?_map_replace]
    by_cases hk' : k' = k
    · rw [if_pos hk', if_pos hk']
      simp only [JsMap.hasKey, Option.isSome] at hmem
      cases hg : JsMap.get? m k with
      | none => rw [hg] at hmem; simp at hmem
      | some w => simp
    · rw [if_neg hk', if_neg hk']
  · rw [if_neg hmem, JsMap.get?_append_single]
    by_cases hk' : k' = k
    · subst hk'
      have hnone : JsMap.get? m k' = none := by
        simp only [JsMap.hasKey, Option.isSome_iff_exists] at hmem
        push_neg at hmem
        cases hg : JsMap.get? m k' with
        | none => rfl
        | some w => exact absurd hg (hmem w)
      simp [hnone]
    · rw [if_neg hk']
      cases hg : JsMap.get? m k' with
      | none => rw [if_neg hk']
      | some w => rw [if_neg hk']

theorem JsMap.get?_del {α : Type} (m : JsMap α) (k : String) (k' : String) :
    JsMap.get? (JsMap.del m k) k' = if k' = k then none else JsMap.get? m k' := by
  induction m with
  | nil => by_cases h : k' = k <;> simp [JsMap.del, JsMap.get?, h]
  | cons p rest ih =>
      simp only [JsMap.del]
      by_cases hp : p.1 = k
      · rw [if_pos hp, ih]
        by_cases hk' : k' = k
        · rw [if_pos hk', if_pos hk']
        · rw [if_neg hk', if_neg hk', JsMap.get?,
            if_neg (hp ▸ fun hc => hk' hc.symm)]
      · rw [if_neg hp]
        simp only [JsMap.get?]
        by_cases hpk' : p.1 = k'
        · rw [if_pos hpk', if_pos hpk',
            if_neg (fun hc : k' = k => hp (hpk'.trans hc))]
        · rw [if_neg hpk', if_neg hpk', ih]

theorem JsSet.mem_del_iff (s : JsSet) (x y : String) :
    y ∈ JsSet.del s x ↔ y ∈ s ∧ y ≠ x := by
  induction s with
  | nil => simp [JsSet.del]
  | cons z rest ih =>
      simp only [JsSet.del]
      by_cases hz : z = x
      · subst hz
        rw [if_pos rfl, ih]
        constructor
        · rintro ⟨hy, hne⟩; exact ⟨List.mem_cons_of_mem _ hy, hne⟩
        · rintro ⟨hy, hne⟩
          rcases List.mem_cons.mp hy with h | h
          · exact absurd h hne
          · exact ⟨h, hne⟩
      · rw [if_neg hz]
        constructor
        · intro hy
          rcases List.mem_cons.mp hy with h | h
          · subst h; exact ⟨List.mem_cons_self _ _, hz⟩
          · rcases ih.mp h with ⟨h1, h2⟩; exact ⟨List.mem_cons_of_mem _ h1, h2⟩
        · rintro ⟨hy, hne⟩
          rcases List.mem_cons.mp hy with h | h
          · subst h; exact List.mem_cons_self _ _
          · exact List.mem_cons_of_mem _ (ih.mpr ⟨h, hne⟩)

theorem JsSet.mem_add (s : JsSet) (x y : String) :
    y ∈ JsSet.add s x ↔ y ∈ s ∨ y = x := by
  unfold JsSet.add
  by_cases hx : x ∈ s
  · rw [if_pos hx]
    constructor
    · exact Or.inl
    · rintro (h | h)
      · exact h
      · exact h.symm ▸ hx
  · rw [if_neg hx]
    simp

/-! ## Graph data model (`src/graph/CodeGraph.ts`) -/

/-- The `metadata: Record<string, unknown>` attribute bag of a node, restricted
to the two keys the embedded code reads or writes: `category` (written by the
dependency-aware retriever) and `exported` (read by `dependencyPriority` and
the sibling expansion). -/
structure NodeMetadata where
  category : Option String := none
  exported : Option Bool := none
  deriving Repr, DecidableEq

/-- A `GraphNode`.  `type` ranges over the string union
`'file' | 'function' | 'class' | 'import'`; `embedding` is the optional dense
vector (entries modelled as rationals). -/
structure GraphNode where
  id : String
  type : String
  name : String
  path : String
  content : String
  startLine : Int
  endLine : Int
  embedding : Option (List Rat) := none
  metadata : NodeMetadata := {}
  deriving Repr, DecidableEq

/-- A `GraphEdge`; `type` ranges over
`'contains' | 'imports' | 'calls' | 'references' | 'extends' | 'implements'`. -/
structure GraphEdge where
  id : String
  from_ : String
  to_ : String
  type : String
  deriving Repr, DecidableEq

/-- The `CodeGraph` class state: node and edge tables plus the two
derived indexes (`path -> node ids`, `fromId -> edge ids`). -/
structure CodeGraph where
  nodes : JsMap GraphNode := []
  edges : JsMap GraphEdge := []
  nodesByPath : JsMap JsSet := []
  edgesByNode : JsMap JsSet := []
  deriving Repr, DecidableEq

/-- `getNode`. -/
def CodeGraph.getNode (g : CodeGraph) (id : String) : Option GraphNode :=
  JsMap.get? g.nodes id

/-- `hasNode`. -/
def CodeGraph.hasNode (g : CodeGraph) (id : String) : Bool :=
  JsMap.hasKey g.nodes id

/-- `getAllNodes`. -/
def CodeGraph.getAllNodes (g : CodeGraph) : List GraphNode :=
  JsMap.valuesList g.nodes

/-- `getAllEdges`. -/
def CodeGraph.getAllEdges (g : CodeGraph) : List GraphEdge :=
  JsMap.valuesList g.edges

/-- `getNodesByPath`: the ids indexed under `path`, resolved against the node
table (missing ids are skipped). -/
def CodeGraph.getNodesByPath (g : CodeGraph) (path : String) : List GraphNode :=
  match JsMap.get? g.nodesByPath path with
  | none => []
  | some ids => ids.filterMap (fun id => JsMap.get? g.nodes id)

/-- `getOutgoingEdges`. -/
def CodeGraph.getOutgoingEdges (g : CodeGraph) (nodeId : String) : List GraphEdge :=
  match JsMap.get? g.edgesByNode nodeId with
  | none => []
  | some ids => ids.filterMap (fun id => JsMap.get? g.edges id)

/-- `private indexNodePath`. -/
def CodeGraph.indexNodePath (g : CodeGraph) (node : GraphNode) : CodeGraph :=
  let s := (JsMap.get? g.nodesByPath node.path).getD []
  { g with nodesByPath := JsMap.set g.nodesByPath node.path (JsSet.add s node.id) }

/-- `private indexEdge`. -/
def CodeGraph.indexEdge (g : CodeGraph) (edge : GraphEdge) : CodeGraph :=
  let s := (JsMap.get? g.edgesByNode edge.from_).getD []
  { g with edgesByNode := JsMap.set g.edgesByNode edge.from_ (JsSet.add s edge.id) }

/-- The `if (existing)` prologue of `upsertNode`: remove the previous node at
this id from the path index (dropping the path key when its set empties). -/
def CodeGraph.deindexPath (g : CodeGraph) (existing : GraphNode) : CodeGraph :=
  match JsMap.get? g.nodesByPath existing.path with
  | none => g
  | some pathSet =>
      let pruned := JsSet.del pathSet existing.id
      if pruned.length = 0 then
        { g with nodesByPath := JsMap.del g.nodesByPath existing.path }
      else
        { g with nodesByPath := JsMap.set g.nodesByPath existing.path pruned }

/-- `upsertNode`: de-index the previous node at this id from its path, then
install the new node and index it. -/
def CodeGraph.upsertNode (g : CodeGraph) (node : GraphNode) : CodeGraph :=
  let g1 :=
    match JsMap.get? g.nodes node.id with
    | none => g
    | some existing => CodeGraph.deindexPath g existing
  let g2 := { g1 with nodes := JsMap.set g1.nodes node.id node }
  CodeGraph.indexNodePath g2 node

/-- The `if (existing)` prologue of `upsertEdge`: drop the previous edge with
this id from its `from` node's index set. -/
def CodeGraph.deindexEdge (g : CodeGraph) (existing : GraphEdge) : CodeGraph :=
  match JsMap.get? g.edgesByNode existing.from_ with
  | none => g
  | some fromSet =>
      { g with edgesByNode := JsMap.set g.edgesByNode existing.from_ (JsSet.del fromSet existing.id) }

/-- `upsertEdge`: throws when either endpoint is absent, otherwise de-indexes
a previous edge with this id and installs the new one. -/
def CodeGraph.upsertEdge (g : CodeGraph) (edge : GraphEdge) : Except String CodeGraph :=
  if ¬ (CodeGraph.hasNode g edge.from_ ∧ CodeGraph.hasNode g edge.to_) then
    .error ("Cannot add edge: missing nodes " ++ edge.from_ ++ " -> " ++ edge.to_)
  else
    let g1 :=
      match JsMap.get? g.edges edge.id with
      | none => g
      | some existing => CodeGraph.deindexEdge g existing
    let g2 := { g1 with edges := JsMap.set g1.edges edge.id edge }
    .ok (CodeGraph.indexEdge g2 edge)

/-- `removeNode`: no-op for an unknown id; otherwise removes the node from the
node table and path index, drops its outgoing edges through the
`edgesByNode` index, and scans the remaining edge table for incoming edges.
The JS `for..of` over `edges.entries()` deletes only entries it has already
visited, so folding over a snapshot of the table is equivalent.
`removeNodeKnown` is the body below the initial existence check. -/
def CodeGraph.removeNodeKnown (g : CodeGraph) (nodeId : String) (node : GraphNode) : CodeGraph :=
  let nodesByPath1 :=
    match JsMap.get? g.nodesByPath node.path with
    | none => g.nodesByPath
    | some pathNodes =>
        let pruned := JsSet.del pathNodes nodeId
        if pruned.length = 0 then JsMap.del g.nodesByPath node.path
        else JsMap.set g.nodesByPath node.path pruned
  let outgoing := (JsMap.get? g.edgesByNode nodeId).getD []
  let edges1 := outgoing.foldl (fun es eid => JsMap.del es eid) g.edges
  let edgesByNode1 := JsMap.del g.edgesByNode nodeId
  let incoming := edges1.filter (fun p => p.2.to_ = nodeId)
  let edges2 := incoming.foldl (fun es p => JsMap.del es p.1) edges1
  let edgesByNode2 := incoming.foldl
    (fun ix p =>
      match JsMap.get? ix p.2.from_ with
      | none => ix
      | some fromEdges => JsMap.set ix p.2.from_ (JsSet.del fromEdges p.1))
    edgesByNode1
  { nodes := JsMap.del g.nodes nodeId
    edges := edges2
    nodesByPath := nodesByPath1
    edgesByNode := edgesByNode2 }

/-- `removeNode`: no-op for an unknown id, otherwise `removeNodeKnown`. -/
def CodeGraph.removeNode (g : CodeGraph) (nodeId : String) : CodeGraph :=
  match JsMap.get? g.nodes nodeId with
  | none => g
  | some node => CodeGraph.removeNodeKnown g nodeId node

/-- `removeNodesByPath`. -/
def CodeGraph.removeNodesByPath (g : CodeGraph) (path : String) : CodeGraph :=
  match JsMap.get? g.nodesByPath path with
  | none => g
  | some nodeIds => nodeIds.foldl (fun acc id => CodeGraph.removeNode acc id) g

/-- `clone`: the clone is an independent value; in this pure embedding it is
the graph itself. -/
def CodeGraph.clone (g : CodeGraph) : CodeGraph := g

/-! ## Overlay (`src/graph/DiffOverlay.ts`) -/

/-- A `DiffOperation` (`type` is `'add' | 'remove' | 'modify'`); the
`timestamp` field is wall-clock time, irrelevant to `apply`, and omitted. -/
structure DiffOperation where
  type : String
  nodeId : Option String := none
  edgeId : Option String := none
  node : Option GraphNode := none
  edge : Option GraphEdge := none
  deriving Repr, DecidableEq

/-- A `DiffOverlay`. -/
structure DiffOverlay where
  id : String
  baseGraphSnapshot : String
  operations : List DiffOperation := []
  modifiedPaths : JsSet := []
  deriving Repr, DecidableEq

/-- One `switch` arm of `DiffOverlay.apply`. -/
def DiffOverlay.applyOp (g : CodeGraph) (op : DiffOperation) : Except String CodeGraph :=
  if op.type = "add" then
    match op.node with
    | some n => .ok (CodeGraph.upsertNode g n)
    | none =>
        match op.edge with
        | some e => CodeGraph.upsertEdge g e
        | none => .ok g
  else if op.type = "remove" then
    match op.nodeId with
    | some i => .ok (CodeGraph.removeNode g i)
    | none => .ok g
  else if op.type = "modify" then
    match op.node with
    | some n => .ok (CodeGraph.upsertNode g n)
    | none => .ok g
  else .ok g

/-- `DiffOverlay.apply`: clone the base graph and replay the operation log in
order.  A throw from `upsertEdge` propagates. -/
def DiffOverlay.apply (ov : DiffOverlay) (baseGraph : CodeGraph) : Except String CodeGraph :=
  ov.operations.foldlM DiffOverlay.applyOp (CodeGraph.clone baseGraph)

/-- `isEmpty`. -/
def DiffOverlay.isEmpty (ov : DiffOverlay) : Bool := ov.operations.length = 0

/-! ## Invariants for `DiffOverlay.apply` (claim C4) -/

/-- Every edge's endpoints reference nodes present in the graph. -/
def CodeGraph.EdgeIntegrity (g : CodeGraph) : Prop :=
  ∀ p ∈ g.edges, CodeGraph.hasNode g p.2.from_ = true ∧ CodeGraph.hasNode g p.2.to_ = true

/-- The edge table maps each id to an edge carrying that id
(maintained because `edges.set(edge.id, edge)` is the only insertion). -/
def CodeGraph.EdgeKeyConsistent (g : CodeGraph) : Prop :=
  ∀ p ∈ g.edges, p.1 = p.2.id

/-- Every stored edge is indexed under its `from` node in `edgesByNode`
(`removeNode` relies on this to drop all outgoing edges). -/
def CodeGraph.EdgeIndexComplete (g : CodeGraph) : Prop :=
  ∀ p ∈ g.edges, p.2.id ∈ ((JsMap.get? g.edgesByNode p.2.from_).getD [])

/-- Keys of the edge table are pairwise distinct. -/
def CodeGraph.EdgesNodupKeys (g : CodeGraph) : Prop :=
  (JsMap.keysList g.edges).Nodup

/-- Well-formedness of a graph state, as maintained by the `CodeGraph`
mutators from the empty graph. -/
def CodeGraph.WF (g : CodeGraph) : Prop :=
  CodeGraph.EdgesNodupKeys g ∧ CodeGraph.EdgeKeyConsistent g ∧
    CodeGraph.EdgeIndexComplete g ∧ CodeGraph.EdgeIntegrity g

instance (g : CodeGraph) : Decidable (CodeGraph.WF g) := by
  unfold CodeGraph.WF CodeGraph.EdgesNodupKeys CodeGraph.EdgeKeyConsistent
    CodeGraph.EdgeIndexComplete CodeGraph.EdgeIntegrity
  infer_instance

/-- Ids removed by an operation log (`remove` operations carrying a node id). -/
def overlayRemovedIds (ops : List DiffOperation) : List String :=
  ops.filterMap (fun op => if op.type = "remove" then op.nodeId else none)

/-- The node id added by a single operation, if any: `add` and `modify`
operations carrying a node both upsert it. -/
def addedIdOfOp (op : DiffOperation) : Option String :=
  if op.type = "add" ∨ op.type = "modify" then op.node.map (·.id) else none

/-- Ids upserted by an operation log. -/
def overlayAddedIds (ops : List DiffOperation) : List String :=
  ops.filterMap addedIdOfOp

/-- No operation removes a node that an earlier operation in the log added. -/
def noRemoveAfterAdd : List DiffOperation → Bool
  | [] => true
  | op :: rest =>
      (match addedIdOfOp op with
       | some i => !(decide (i ∈ overlayRemovedIds rest))
       | none => true) && noRemoveAfterAdd rest

theorem JsMap.del_eq_self_of_get?_none {α : Type} {m : JsMap α} {k : String}
    (h : JsMap.get? m k = none) : JsMap.del m k = m := by
  induction m with
  | nil => rfl
  | cons p rest ih =>
      simp only [JsMap.get?] at h
      by_cases hp : p.1 = k
      · rw [if_pos hp] at h
        exact absurd h (by simp)
      · rw [if_neg hp] at h
        simp only [JsMap.del]
        rw [if_neg hp, ih h]

theorem JsMap.get?_eq_none_iff {α : Type} (m : JsMap α) (k : String) :
    JsMap.get? m k = none ↔ ∀ q ∈ m, q.1 ≠ k := by
  induction m with
  | nil => simp [JsMap.get?]
  | cons p rest ih =>
      simp only [JsMap.get?]
      by_cases hp : p.1 = k
      · rw [if_pos hp]
        constructor
        · intro h; exact absurd h (by simp)
        · intro h; exact absurd hp (h p (List.mem_cons_self _ _))
      · rw [if_neg hp, ih]
        constructor
        · intro h q hq
          rcases List.mem_cons.mp hq with rfl | hq
          · exact hp
          · exact h q hq
        · intro h q hq
          exact h q (List.mem_cons_of_mem _ hq)

theorem JsMap.mem_del {α : Type} {m : JsMap α} {k : String} {q : String × α} :
    q ∈ JsMap.del m k ↔ q ∈ m ∧ q.1 ≠ k := by
  induction m with
  | nil => simp [JsMap.del]
  | cons p rest ih =>
      simp only [JsMap.del]
      by_cases hp : p.1 = k
      · rw [if_pos hp, ih]
        constructor
        · rintro ⟨hq, hne⟩
          exact ⟨List.mem_cons_of_mem _ hq, hne⟩
        · rintro ⟨hq, hne⟩
          rcases List.mem_cons.mp hq with rfl | hq
          · exact absurd hp hne
          · exact ⟨hq, hne⟩
      · rw [if_neg hp]
        constructor
        · intro hq
          rcases List.mem_cons.mp hq with rfl | hq
          · exact ⟨List.mem_cons_self _ _, hp⟩
          · rcases ih.mp hq with ⟨h1, h2⟩
            exact ⟨List.mem_cons_of_mem _ h1, h2⟩
        · rintro ⟨hq, hne⟩
          rcases List.mem_cons.mp hq with rfl | hq
          · exact List.mem_cons_self _ _
          · exact List.mem_cons_of_mem _ (ih.mpr ⟨hq, hne⟩)

theorem JsMap.mem_set {α : Type} {m : JsMap α} {k : String} {v : α} {q : String × α}
    (h : q ∈ JsMap.set m k v) : q = (k, v) ∨ (q ∈ m ∧ q.1 ≠ k) := by
  unfold JsMap.set at h
  by_cases hmem : JsMap.hasKey m k
  · rw [if_pos hmem] at h
    rcases List.mem_map.mp h with ⟨p, hp, hq⟩
    by_cases hpk : p.1 = k
    · rw [if_pos hpk] at hq
      exact Or.inl hq.symm
    · rw [if_neg hpk] at hq
      exact Or.inr ⟨hq ▸ hp, hq ▸ hpk⟩
  · rw [if_neg hmem] at h
    rcases List.mem_append.mp h with h | h
    · right
      refine ⟨h, ?_⟩
      intro hk
      have hnone : JsMap.get? m k = none := by
        simp only [JsMap.hasKey, Option.isSome_iff_exists] at hmem
        push_neg at hmem
        cases hg : JsMap.get? m k with
        | none => rfl
        | some w => exact absurd hg (hmem w)
      exact ((JsMap.get?_eq_none_iff m k).mp hnone q h) hk
    · left
      simpa using h

theorem JsMap.del_sublist {α : Type} (m : JsMap α) (k : String) :
    (JsMap.del m k).Sublist m := by
  induction m with
  | nil => simp [JsMap.del]
  | cons p rest ih =>
      simp only [JsMap.del]
      by_cases hp : p.1 = k
      · rw [if_pos hp]
        exact ih.cons _
      · rw [if_neg hp]
        exact ih.cons₂ _

theorem JsMap.foldl_del_sublist {α : Type} (ks : List String) (m : JsMap α) :
    (ks.foldl (fun es k => JsMap.del es k) m).Sublist m := by
  induction ks generalizing m with
  | nil => simp
  | cons k rest ih =>
      simp only [List.foldl_cons]
      exact (ih (JsMap.del m k)).trans (JsMap.del_sublist m k)

theorem JsMap.get?_foldl_del {α : Type} (ks : List String) (m : JsMap α) (k' : String) :
    JsMap.get? (ks.foldl (fun es k => JsMap.del es k) m) k' =
      if k' ∈ ks then none else JsMap.get? m k' := by
  induction ks generalizing m with
  | nil => simp
  | cons k rest ih =>
      simp only [List.foldl_cons]
      rw [ih, JsMap.get?_del]
      by_cases h1 : k' ∈ rest
      · rw [if_pos h1, if_pos (List.mem_cons_of_mem _ h1)]
      · rw [if_neg h1]
        by_cases h2 : k' = k
        · rw [if_pos h2, if_pos (by simp [h2])]
        · rw [if_neg h2, if_neg (by simp [h1, h2])]

theorem JsMap.nodupKeys_of_sublist {α : Type} {m m' : JsMap α}
    (h : m'.Sublist m) (hm : (JsMap.keysList m).Nodup) : (JsMap.keysList m').Nodup :=
  List.Nodup.sublist (List.Sublist.map _ h) hm

theorem JsMap.mem_of_get?_eq_some {α : Type} {m : JsMap α} {k : String} {v : α}
    (h : JsMap.get? m k = some v) : (k, v) ∈ m := by
  induction m with
  | nil => simp [JsMap.get?] at h
  | cons p rest ih =>
      simp only [JsMap.get?] at h
      by_cases hp : p.1 = k
      · rw [if_pos hp] at h
        have : p = (k, v) := by
          cases p
          simp only [Option.some.injEq] at h
          simp_all
        exact this ▸ List.mem_cons_self _ _
      · rw [if_neg hp] at h
        exact List.mem_cons_of_mem _ (ih h)

theorem JsMap.get?_eq_some_of_mem_nodup {α : Type} {m : JsMap α} {q : String × α}
    (hm : (JsMap.keysList m).Nodup) (h : q ∈ m) : JsMap.get? m q.1 = some q.2 := by
  induction m with
  | nil => simp at h
  | cons p rest ih =>
      simp only [JsMap.keysList, List.map_cons, List.nodup_cons] at hm
      rcases List.mem_cons.mp h with rfl | hq
      · simp [JsMap.get?]
      · have hne : p.1 ≠ q.1 := by
          intro hc
          exact hm.1 (hc ▸ List.mem_map.mpr ⟨q, hq, rfl⟩)
        simp only [JsMap.get?]
        rw [if_neg hne]
        exact ih (by simpa [JsMap.keysList] using hm.2) hq

theorem CodeGraph.deindexPath_nodes (g : CodeGraph) (e : GraphNode) :
    (CodeGraph.deindexPath g e).nodes = g.nodes := by
  unfold CodeGraph.deindexPath
  cases JsMap.get? g.nodesByPath e.path with
  | none => rfl
  | some pathSet =>
      by_cases h : (JsSet.del pathSet e.id).length = 0 <;> simp [h]

theorem CodeGraph.deindexPath_edges (g : CodeGraph) (e : GraphNode) :
    (CodeGraph.deindexPath g e).edges = g.edges := by
  unfold CodeGraph.deindexPath
  cases JsMap.get? g.nodesByPath e.path with
  | none => rfl
  | some pathSet =>
      by_cases h : (JsSet.del pathSet e.id).length = 0 <;> simp [h]

theorem CodeGraph.deindexPath_edgesByNode (g : CodeGraph) (e : GraphNode) :
    (CodeGraph.deindexPath g e).edgesByNode = g.edgesByNode := by
  unfold CodeGraph.deindexPath
  cases JsMap.get? g.nodesByPath e.path with
  | none => rfl
  | some pathSet =>
      by_cases h : (JsSet.del pathSet e.id).length = 0 <;> simp [h]

theorem CodeGraph.upsertNode_nodes (g : CodeGraph) (n : GraphNode) :
    (CodeGraph.upsertNode g n).nodes = JsMap.set g.nodes n.id n := by
  unfold CodeGraph.upsertNode CodeGraph.indexNodePath
  cases JsMap.get? g.nodes n.id with
  | none => rfl
  | some existing =>
      simp only [CodeGraph.deindexPath_nodes]

theorem CodeGraph.upsertNode_edges (g : CodeGraph) (n : GraphNode) :
    (CodeGraph.upsertNode g n).edges = g.edges := by
  unfold CodeGraph.upsertNode CodeGraph.indexNodePath
  cases JsMap.get? g.nodes n.id with
  | none => rfl
  | some existing =>
      simp only [CodeGraph.deindexPath_edges]

theorem CodeGraph.upsertNode_edgesByNode (g : CodeGraph) (n : GraphNode) :
    (CodeGraph.upsertNode g n).edgesByNode = g.edgesByNode := by
  unfold CodeGraph.upsertNode CodeGraph.indexNodePath
  cases JsMap.get? g.nodes n.id with
  | none => rfl
  | some existing =>
      simp only [CodeGraph.deindexPath_edgesByNode]

theorem CodeGraph.hasNode_upsertNode (g : CodeGraph) (n : GraphNode) (x : String) :
    CodeGraph.hasNode (CodeGraph.upsertNode g n) x = true ↔
      x = n.id ∨ CodeGraph.hasNode g x = true := by
  unfold CodeGraph.hasNode JsMap.hasKey
  rw [CodeGraph.upsertNode_nodes, JsMap.get?_set]
  by_cases h : x = n.id <;> simp [h]

theorem CodeGraph.wf_upsertNode (g : CodeGraph) (n : GraphNode) (hwf : CodeGraph.WF g) :
    CodeGraph.WF (CodeGraph.upsertNode g n) := by
  obtain ⟨hnd, hkc, hcomp, hint⟩ := hwf
  refine ⟨?_, ?_, ?_, ?_⟩
  · unfold CodeGraph.EdgesNodupKeys
    rw [CodeGraph.upsertNode_edges]
    exact hnd
  · intro p hp
    rw [CodeGraph.upsertNode_edges] at hp
    exact hkc p hp
  · intro p hp
    rw [CodeGraph.upsertNode_edges] at hp
    rw [CodeGraph.upsertNode_edgesByNode]
    exact hcomp p hp
  · intro p hp
    rw [CodeGraph.upsertNode_edges] at hp
    obtain ⟨h1, h2⟩ := hint p hp
    exact ⟨(CodeGraph.hasNode_upsertNode g n _).mpr (Or.inr h1),
      (CodeGraph.hasNode_upsertNode g n _).mpr (Or.inr h2)⟩

theorem JsMap.keysList_set {α : Type} (m : JsMap α) (k : String) (v : α) :
    JsMap.keysList (JsMap.set m k v) =
      if JsMap.hasKey m k then JsMap.keysList m else JsMap.keysList m ++ [k] := by
  unfold JsMap.set
  by_cases h : JsMap.hasKey m k
  · rw [if_pos h, if_pos h]
    unfold JsMap.keysList
    rw [List.map_map]
    apply List.map_congr_left
    intro p _
    by_cases hp : p.1 = k
    · simp [hp]
    · simp [hp]
  · rw [if_neg h, if_neg h]
    simp [JsMap.keysList]

theorem JsMap.nodupKeys_set {α : Type} {m : JsMap α} (k : String) (v : α)
    (hm : (JsMap.keysList m).Nodup) : (JsMap.keysList (JsMap.set m k v)).Nodup := by
  rw [JsMap.keysList_set]
  by_cases h : JsMap.hasKey m k
  · rw [if_pos h]
    exact hm
  · rw [if_neg h]
    have hk : k ∉ JsMap.keysList m := by
      intro hk
      rcases List.mem_map.mp hk with ⟨p, hp, hpk⟩
      have hnone : JsMap.get? m k = none := by
        simp only [JsMap.hasKey, Option.isSome_iff_exists] at h
        push_neg at h
        cases hg : JsMap.get? m k with
        | none => rfl
        | some w => exact absurd hg (h w)
      exact ((JsMap.get?_eq_none_iff m k).mp hnone p hp) hpk
    simp [List.nodup_append, hm, hk]

theorem CodeGraph.indexEdge_nodes (g : CodeGraph) (e : GraphEdge) :
    (CodeGraph.indexEdge g e).nodes = g.nodes := rfl

theorem CodeGraph.indexEdge_edges (g : CodeGraph) (e : GraphEdge) :
    (CodeGraph.indexEdge g e).edges = g.edges := rfl

theorem CodeGraph.indexEdge_edgesByNode_get? (g : CodeGraph) (e : GraphEdge) (f : String) :
    JsMap.get? (CodeGraph.indexEdge g e).edgesByNode f =
      if f = e.from_ then
        some (JsSet.add ((JsMap.get? g.edgesByNode e.from_).getD []) e.id)
      else JsMap.get? g.edgesByNode f := by
  unfold CodeGraph.indexEdge
  exact JsMap.get?_set _ _ _ _

theorem CodeGraph.deindexEdge_nodes (g : CodeGraph) (eo : GraphEdge) :
    (CodeGraph.deindexEdge g eo).nodes = g.nodes := by
  unfold CodeGraph.deindexEdge
  cases JsMap.get? g.edgesByNode eo.from_ with
  | none => rfl
  | some fromSet => rfl

theorem CodeGraph.deindexEdge_edges (g : CodeGraph) (eo : GraphEdge) :
    (CodeGraph.deindexEdge g eo).edges = g.edges := by
  unfold CodeGraph.deindexEdge
  cases JsMap.get? g.edgesByNode eo.from_ with
  | none => rfl
  | some fromSet => rfl

theorem CodeGraph.deindexEdge_mem_get? (g : CodeGraph) (eo : GraphEdge) (f x : String)
    (hx : x ∈ ((JsMap.get? g.edgesByNode f).getD []))
    (hne : x ≠ eo.id) :
    x ∈ ((JsMap.get? (CodeGraph.deindexEdge g eo).edgesByNode f).getD []) := by
  unfold CodeGraph.deindexEdge
  cases hs : JsMap.get? g.edgesByNode eo.from_ with
  | none => exact hx
  | some fromSet =>
      show x ∈ ((JsMap.get? (JsMap.set g.edgesByNode eo.from_ (JsSet.del fromSet eo.id)) f).getD [])
      rw [JsMap.get?_set]
      by_cases hf : f = eo.from_
      · rw [if_pos hf]
        subst hf
        rw [hs] at hx
        exact (JsSet.mem_del_iff _ _ _).mpr ⟨hx, hne⟩
      · rw [if_neg hf]
        exact hx

/-- Well-formedness is preserved by a successful `upsertEdge`. -/
theorem CodeGraph.wf_upsertEdge (g : CodeGraph) (e : GraphEdge) (g' : CodeGraph)
    (hwf : CodeGraph.WF g) (h : CodeGraph.upsertEdge g e = .ok g') : CodeGraph.WF g' := by
  obtain ⟨hnd, hkc, hcomp, hint⟩ := hwf
  unfold CodeGraph.upsertEdge at h
  by_cases hguard : ¬ (CodeGraph.hasNode g e.from_ = true ∧ CodeGraph.hasNode g e.to_ = true)
  · rw [if_pos hguard] at h
    simp at h
  · rw [if_neg hguard] at h
    push_neg at hguard
    -- name the intermediate graph g1 (with or without the de-index step)
    cases hex : JsMap.get? g.edges e.id with
    | none =>
        rw [hex] at h
        simp only [Except.ok.injEq] at h
        subst h
        have hn1 : (CodeGraph.indexEdge
            { g with edges := JsMap.set g.edges e.id e } e).nodes = g.nodes := rfl
        have he1 : (CodeGraph.indexEdge
            { g with edges := JsMap.set g.edges e.id e } e).edges = JsMap.set g.edges e.id e := rfl
        refine ⟨?_, ?_, ?_, ?_⟩
        · unfold CodeGraph.EdgesNodupKeys
          rw [he1]
          exact JsMap.nodupKeys_set e.id e hnd
        · intro p hp
          rw [he1] at hp
          rcases JsMap.mem_set hp with rfl | ⟨hold, _⟩
          · rfl
          · exact hkc p hold
        · intro p hp
          rw [he1] at hp
          rcases JsMap.mem_set hp with rfl | ⟨hold, hpne⟩
          · show (e.id, e).2.id ∈ _
            rw [CodeGraph.indexEdge_edgesByNode_get?]
            rw [if_pos rfl]
            exact (JsSet.mem_add _ _ _).mpr (Or.inr rfl)
          · have hold2 := hcomp p hold
            rw [CodeGraph.indexEdge_edgesByNode_get?]
            by_cases hf : p.2.from_ = e.from_
            · rw [if_pos hf]
              rw [hf] at hold2
              exact (JsSet.mem_add _ _ _).mpr (Or.inl (by simpa using hold2))
            · rw [if_neg hf]
              exact hold2
        · intro p hp
          rw [he1] at hp
          have hnodes : ∀ x, CodeGraph.hasNode (CodeGraph.indexEdge
              { g with edges := JsMap.set g.edges e.id e } e) x = CodeGraph.hasNode g x := by
            intro x; rfl
          rcases JsMap.mem_set hp with rfl | ⟨hold, _⟩
          · exact ⟨(hnodes _).symm ▸ hguard.1, (hnodes _).symm ▸ hguard.2⟩
          · obtain ⟨h1, h2⟩ := hint p hold
            exact ⟨(hnodes _).symm ▸ h1, (hnodes _).symm ▸ h2⟩
    | some existing =>
        rw [hex] at h
        simp only [Except.ok.injEq] at h
        subst h
        have hexid : e.id = existing.id :=
          hkc (e.id, existing) (JsMap.mem_of_get?_eq_some hex)
        have hedges1 : (CodeGraph.deindexEdge g existing).edges = g.edges :=
          CodeGraph.deindexEdge_edges g existing
        have he1 : (CodeGraph.indexEdge
            { CodeGraph.deindexEdge g existing with edges := JsMap.set (CodeGraph.deindexEdge g existing).edges e.id e } e).edges
              = JsMap.set g.edges e.id e := by
          rw [CodeGraph.indexEdge_edges]
          show JsMap.set (CodeGraph.deindexEdge g existing).edges e.id e = _
          rw [hedges1]
        refine ⟨?_, ?_, ?_, ?_⟩
        · unfold CodeGraph.EdgesNodupKeys
          rw [he1]
          exact JsMap.nodupKeys_set e.id e hnd
        · intro p hp
          rw [he1] at hp
          rcases JsMap.mem_set hp with rfl | ⟨hold, _⟩
          · rfl
          · exact hkc p hold
        · intro p hp
          rw [he1] at hp
          rcases JsMap.mem_set hp with rfl | ⟨hold, hpne⟩
          · show (e.id, e).2.id ∈ _
            rw [CodeGraph.indexEdge_edgesByNode_get?]
            rw [if_pos rfl]
            exact (JsSet.mem_add _ _ _).mpr (Or.inr rfl)
          · have hold2 := hcomp p hold
            have hpid : p.1 = p.2.id := hkc p hold
            have hne2 : p.2.id ≠ existing.id := by
              rw [← hpid, ← hexid]
              exact hpne
            have hstep : p.2.id ∈ ((JsMap.get? (CodeGraph.deindexEdge g existing).edgesByNode p.2.from_).getD []) :=
              CodeGraph.deindexEdge_mem_get? g existing p.2.from_ p.2.id hold2 hne2
            rw [CodeGraph.indexEdge_edgesByNode_get?]
            by_cases hf : p.2.from_ = e.from_
            · rw [if_pos hf]
              rw [hf] at hstep
              exact (JsSet.mem_add _ _ _).mpr (Or.inl (by simpa using hstep))
            · rw [if_neg hf]
              exact hstep
        · intro p hp
          rw [he1] at hp
          have hnodes : ∀ x, CodeGraph.hasNode (CodeGraph.indexEdge
              { CodeGraph.deindexEdge g existing with
                  edges := JsMap.set (CodeGraph.deindexEdge g existing).edges e.id e } e) x
                = CodeGraph.hasNode g x := by
            intro x
            show JsMap.hasKey (CodeGraph.deindexEdge g existing).nodes x = _
            rw [CodeGraph.deindexEdge_nodes]
            rfl
          rcases JsMap.mem_set hp with rfl | ⟨hold, _⟩
          · exact ⟨(hnodes _).symm ▸ hguard.1, (hnodes _).symm ▸ hguard.2⟩
          · obtain ⟨h1, h2⟩ := hint p hold
            exact ⟨(hnodes _).symm ▸ h1, (hnodes _).symm ▸ h2⟩

/-- A successful `upsertEdge` leaves the node table unchanged. -/
theorem CodeGraph.upsertEdge_ok_nodes (g : CodeGraph) (e : GraphEdge) (g' : CodeGraph)
    (h : CodeGraph.upsertEdge g e = .ok g') : g'.nodes = g.nodes := by
  unfold CodeGraph.upsertEdge at h
  by_cases hguard : ¬ (CodeGraph.hasNode g e.from_ = true ∧ CodeGraph.hasNode g e.to_ = true)
  · rw [if_pos hguard] at h
    simp at h
  · rw [if_neg hguard] at h
    cases hex : JsMap.get? g.edges e.id with
    | none =>
        rw [hex] at h
        simp only [Except.ok.injEq] at h
        subst h
        rfl
    | some existing =>
        rw [hex] at h
        simp only [Except.ok.injEq] at h
        subst h
        show (CodeGraph.deindexEdge g existing).nodes = g.nodes
        exact CodeGraph.deindexEdge_nodes g existing

theorem JsMap.mem_get_foldSdel (inc : List (String × GraphEdge)) (ix : JsMap JsSet)
    (f x : String)
    (hx : x ∈ ((JsMap.get? ix f).getD []))
    (hne : ∀ q ∈ inc, q.1 ≠ x) :
    x ∈ ((JsMap.get? (inc.foldl (fun ix p =>
        match JsMap.get? ix p.2.from_ with
        | none => ix
        | some fromEdges => JsMap.set ix p.2.from_ (JsSet.del fromEdges p.1)) ix) f).getD []) := by
  induction inc generalizing ix with
  | nil => exact hx
  | cons q rest ih =>
      simp only [List.foldl_cons]
      apply ih
      · cases hq : JsMap.get? ix q.2.from_ with
        | none => exact hx
        | some s =>
            rw [JsMap.get?_set]
            by_cases hf : f = q.2.from_
            · rw [if_pos hf]
              have hxs : x ∈ s := by
                rw [hf, hq] at hx
                exact hx
              exact (JsSet.mem_del_iff _ _ _).mpr ⟨hxs, (hne q (List.mem_cons_self _ _)).symm⟩
            · rw [if_neg hf]
              exact hx
      · intro q' hq'
        exact hne q' (List.mem_cons_of_mem _ hq')

/-- Well-formedness is preserved by the node-removal body. -/
theorem CodeGraph.wf_removeNodeKnown (g : CodeGraph) (i : String) (node : GraphNode)
    (hwf : CodeGraph.WF g) : CodeGraph.WF (CodeGraph.removeNodeKnown g i node) := by
  obtain ⟨hnd, hkc, hcomp, hint⟩ := hwf
  let out : List String := (JsMap.get? g.edgesByNode i).getD []
  let es1 : JsMap GraphEdge := out.foldl (fun es eid => JsMap.del es eid) g.edges
  let inc : List (String × GraphEdge) := es1.filter (fun p => p.2.to_ = i)
  let es2 : JsMap GraphEdge := inc.foldl (fun es p => JsMap.del es p.1) es1
  let ixn1 : JsMap JsSet := JsMap.del g.edgesByNode i
  let ixn2 : JsMap JsSet := inc.foldl
    (fun ix p =>
      match JsMap.get? ix p.2.from_ with
      | none => ix
      | some fromEdges => JsMap.set ix p.2.from_ (JsSet.del fromEdges p.1)) ixn1
  have hE : (CodeGraph.removeNodeKnown g i node).edges = es2 := rfl
  have hX : (CodeGraph.removeNodeKnown g i node).edgesByNode = ixn2 := rfl
  have hN : (CodeGraph.removeNodeKnown g i node).nodes = JsMap.del g.nodes i := rfl
  have h_es1_sub : es1.Sublist g.edges := JsMap.foldl_del_sublist out g.edges
  have h_es2_eq : es2 = (inc.map (fun p => p.1)).foldl (fun es k => JsMap.del es k) es1 := by
    rw [List.foldl_map]
  have h_es2_sub : es2.Sublist es1 := by
    rw [h_es2_eq]
    exact JsMap.foldl_del_sublist _ _
  have h_nd1 : (JsMap.keysList es1).Nodup := JsMap.nodupKeys_of_sublist h_es1_sub hnd
  have h_nd2 : (JsMap.keysList es2).Nodup := JsMap.nodupKeys_of_sublist h_es2_sub h_nd1
  have h_es1_get : ∀ k, JsMap.get? es1 k = if k ∈ out then none else JsMap.get? g.edges k :=
    fun k => JsMap.get?_foldl_del out g.edges k
  have h_es2_get : ∀ k, JsMap.get? es2 k =
      if k ∈ inc.map (fun p => p.1) then none else JsMap.get? es1 k := by
    intro k
    rw [h_es2_eq]
    exact JsMap.get?_foldl_del _ _ k
  have hmem_facts : ∀ p ∈ es2, p ∈ g.edges ∧ p.1 ∉ inc.map (fun q => q.1) ∧
      p.1 ∉ out ∧ p.2.to_ ≠ i ∧ p.2.from_ ≠ i := by
    intro p hp
    have hp1 : p ∈ es1 := h_es2_sub.subset hp
    have hpg : p ∈ g.edges := h_es1_sub.subset hp1
    have hgetp : JsMap.get? es2 p.1 = some p.2 := JsMap.get?_eq_some_of_mem_nodup h_nd2 hp
    have hnotinc : p.1 ∉ inc.map (fun q => q.1) := by
      intro hc
      have hthis := h_es2_get p.1
      rw [if_pos hc] at hthis
      rw [hthis] at hgetp
      simp at hgetp
    have hget1 : JsMap.get? es1 p.1 = some p.2 := by
      have hthis := h_es2_get p.1
      rw [if_neg hnotinc] at hthis
      rw [hthis] at hgetp
      exact hgetp
    have hnotout : p.1 ∉ out := by
      intro hc
      have hthis := h_es1_get p.1
      rw [if_pos hc] at hthis
      rw [hthis] at hget1
      simp at hget1
    have hto : p.2.to_ ≠ i := by
      intro hc
      have hpinc : p ∈ inc := List.mem_filter.mpr ⟨hp1, by simp [hc]⟩
      exact hnotinc (List.mem_map.mpr ⟨p, hpinc, rfl⟩)
    have hfrom : p.2.from_ ≠ i := by
      intro hc
      have hcm := hcomp p hpg
      rw [hc] at hcm
      apply hnotout
      rw [hkc p hpg]
      exact hcm
    exact ⟨hpg, hnotinc, hnotout, hto, hfrom⟩
  refine ⟨?_, ?_, ?_, ?_⟩
  · unfold CodeGraph.EdgesNodupKeys
    rw [hE]
    exact h_nd2
  · intro p hp
    rw [hE] at hp
    exact hkc p (hmem_facts p hp).1
  · intro p hp
    rw [hE] at hp
    obtain ⟨hpg, hnotinc, hnotout, hto, hfrom⟩ := hmem_facts p hp
    rw [hX]
    have hbase : p.2.id ∈ ((JsMap.get? ixn1 p.2.from_).getD []) := by
      show p.2.id ∈ ((JsMap.get? (JsMap.del g.edgesByNode i) p.2.from_).getD [])
      rw [JsMap.get?_del, if_neg hfrom]
      exact hcomp p hpg
    apply JsMap.mem_get_foldSdel
    · exact hbase
    · intro q hq hc
      apply hnotinc
      rw [← hkc p hpg] at hc
      exact List.mem_map.mpr ⟨q, hq, hc⟩
  · intro p hp
    rw [hE] at hp
    obtain ⟨hpg, _, _, hto, hfrom⟩ := hmem_facts p hp
    obtain ⟨h1, h2⟩ := hint p hpg
    constructor
    · show JsMap.hasKey (JsMap.del g.nodes i) p.2.from_ = true
      unfold JsMap.hasKey
      rw [JsMap.get?_del, if_neg hfrom]
      exact h1
    · show JsMap.hasKey (JsMap.del g.nodes i) p.2.to_ = true
      unfold JsMap.hasKey
      rw [JsMap.get?_del, if_neg hto]
      exact h2

theorem CodeGraph.wf_removeNode (g : CodeGraph) (i : String)
    (hwf : CodeGraph.WF g) : CodeGraph.WF (CodeGraph.removeNode g i) := by
  unfold CodeGraph.removeNode
  cases hg : JsMap.get? g.nodes i with
  | none => exact hwf
  | some node => exact CodeGraph.wf_removeNodeKnown g i node hwf

theorem CodeGraph.removeNode_nodes (g : CodeGraph) (i : String) :
    (CodeGraph.removeNode g i).nodes = JsMap.del g.nodes i := by
  unfold CodeGraph.removeNode
  cases hg : JsMap.get? g.nodes i with
  | none => exact (JsMap.del_eq_self_of_get?_none hg).symm
  | some node => rfl

theorem CodeGraph.hasNode_removeNode (g : CodeGraph) (i x : String) :
    CodeGraph.hasNode (CodeGraph.removeNode g i) x = true ↔
      CodeGraph.hasNode g x = true ∧ x ≠ i := by
  unfold CodeGraph.hasNode JsMap.hasKey
  rw [CodeGraph.removeNode_nodes, JsMap.get?_del]
  by_cases h : x = i <;> simp [h]

theorem applyOp_hasNode (g : CodeGraph) (op : DiffOperation) (g1 : CodeGraph)
    (h : DiffOverlay.applyOp g op = .ok g1) (x : String) :
    CodeGraph.hasNode g1 x = true ↔
      ((CodeGraph.hasNode g x = true ∧ x ∉ overlayRemovedIds [op]) ∨
        x ∈ overlayAddedIds [op]) := by
  unfold DiffOverlay.applyOp at h
  by_cases ht1 : op.type = "add"
  · rw [if_pos ht1] at h
    cases hn : op.node with
    | some n =>
        rw [hn] at h
        simp only [Except.ok.injEq] at h
        subst h
        simp only [overlayRemovedIds, overlayAddedIds, addedIdOfOp, List.filterMap, ht1, hn]
        rw [CodeGraph.hasNode_upsertNode]
        by_cases hx : x = n.id <;> simp [hx]
    | none =>
        rw [hn] at h
        have haz : overlayRemovedIds [op] = [] := by
          simp [overlayRemovedIds, List.filterMap, ht1]
        have hbz : overlayAddedIds [op] = [] := by
          simp [overlayAddedIds, addedIdOfOp, List.filterMap, ht1, hn]
        rw [haz, hbz]
        cases he : op.edge with
        | some e =>
            rw [he] at h
            have hnodes := CodeGraph.upsertEdge_ok_nodes g e g1 h
            unfold CodeGraph.hasNode JsMap.hasKey
            rw [hnodes]
            simp
        | none =>
            rw [he] at h
            simp only [Except.ok.injEq] at h
            subst h
            simp
  · rw [if_neg ht1] at h
    by_cases ht2 : op.type = "remove"
    · rw [if_pos ht2] at h
      have hbz : overlayAddedIds [op] = [] := by
        simp [overlayAddedIds, addedIdOfOp, List.filterMap, ht1, ht2]
      rw [hbz]
      cases hr : op.nodeId with
      | some i =>
          rw [hr] at h
          simp only [Except.ok.injEq] at h
          subst h
          have haz : overlayRemovedIds [op] = [i] := by
            simp [overlayRemovedIds, List.filterMap, ht2, hr]
          rw [haz]
          rw [CodeGraph.hasNode_removeNode]
          simp
      | none =>
          rw [hr] at h
          simp only [Except.ok.injEq] at h
          subst h
          have haz : overlayRemovedIds [op] = [] := by
            simp [overlayRemovedIds, List.filterMap, ht2, hr]
          rw [haz]
          simp
    · rw [if_neg ht2] at h
      have haz : overlayRemovedIds [op] = [] := by
        simp [overlayRemovedIds, List.filterMap, ht2]
      rw [haz]
      by_cases ht3 : op.type = "modify"
      · rw [if_pos ht3] at h
        cases hn : op.node with
        | some n =>
            rw [hn] at h
            simp only [Except.ok.injEq] at h
            subst h
            have hbz : overlayAddedIds [op] = [n.id] := by
              simp [overlayAddedIds, addedIdOfOp, List.filterMap, ht3, hn]
            rw [hbz]
            rw [CodeGraph.hasNode_upsertNode]
            by_cases hx : x = n.id <;> simp [hx]
        | none =>
            rw [hn] at h
            simp only [Except.ok.injEq] at h
            subst h
            have hbz : overlayAddedIds [op] = [] := by
              simp [overlayAddedIds, addedIdOfOp, List.filterMap, ht3, hn]
            rw [hbz]
            simp
      · rw [if_neg ht3] at h
        simp only [Except.ok.injEq] at h
        subst h
        have hbz : overlayAddedIds [op] = [] := by
          simp [overlayAddedIds, addedIdOfOp, List.filterMap, ht1, ht3]
        rw [hbz]
        simp

theorem applyOp_wf (g : CodeGraph) (op : DiffOperation) (g1 : CodeGraph)
    (h : DiffOverlay.applyOp g op = .ok g1) (hwf : CodeGraph.WF g) : CodeGraph.WF g1 := by
  unfold DiffOverlay.applyOp at h
  by_cases ht1 : op.type = "add"
  · rw [if_pos ht1] at h
    cases hn : op.node with
    | some n =>
        rw [hn] at h
        simp only [Except.ok.injEq] at h
        subst h
        exact CodeGraph.wf_upsertNode g n hwf
    | none =>
        rw [hn] at h
        cases he : op.edge with
        | some e =>
            rw [he] at h
            exact CodeGraph.wf_upsertEdge g e g1 hwf h
        | none =>
            rw [he] at h
            simp only [Except.ok.injEq] at h
            subst h
            exact hwf
  · rw [if_neg ht1] at h
    by_cases ht2 : op.type = "remove"
    · rw [if_pos ht2] at h
      cases hr : op.nodeId with
      | some i =>
          rw [hr] at h
          simp only [Except.ok.injEq] at h
          subst h
          exact CodeGraph.wf_removeNode g i hwf
      | none =>
          rw [hr] at h
          simp only [Except.ok.injEq] at h
          subst h
          exact hwf
    · rw [if_neg ht2] at h
      by_cases ht3 : op.type = "modify"
      · rw [if_pos ht3] at h
        cases hn : op.node with
        | some n =>
            rw [hn] at h
            simp only [Except.ok.injEq] at h
            subst h
            exact CodeGraph.wf_upsertNode g n hwf
        | none =>
            rw [hn] at h
            simp only [Except.ok.injEq] at h
            subst h
            exact hwf
      · rw [if_neg ht3] at h
        simp only [Except.ok.injEq] at h
        subst h
        exact hwf

theorem applyOps_wf (ops : List DiffOperation) (g g' : CodeGraph)
    (h : ops.foldlM DiffOverlay.applyOp g = .ok g') (hwf : CodeGraph.WF g) :
    CodeGraph.WF g' := by
  induction ops generalizing g with
  | nil =>
      simp only [List.foldlM_nil] at h
      cases h
      exact hwf
  | cons op rest ih =>
      rw [List.foldlM_cons] at h
      cases hop : DiffOverlay.applyOp g op with
      | error e =>
          rw [hop] at h
          exact Except.noConfusion h
      | ok g1 =>
          rw [hop] at h
          replace h : rest.foldlM DiffOverlay.applyOp g1 = .ok g' := h
          exact ih g1 h (applyOp_wf g op g1 hop hwf)

theorem applyOps_hasNode (ops : List DiffOperation) (g g' : CodeGraph)
    (h : ops.foldlM DiffOverlay.applyOp g = .ok g')
    (hna : noRemoveAfterAdd ops = true) (x : String) :
    CodeGraph.hasNode g' x = true ↔
      ((CodeGraph.hasNode g x = true ∧ x ∉ overlayRemovedIds ops) ∨
        x ∈ overlayAddedIds ops) := by
  induction ops generalizing g with
  | nil =>
      simp only [List.foldlM_nil] at h
      cases h
      simp [overlayRemovedIds, overlayAddedIds]
  | cons op rest ih =>
      rw [List.foldlM_cons] at h
      cases hop : DiffOverlay.applyOp g op with
      | error e =>
          rw [hop] at h
          exact Except.noConfusion h
      | ok g1 =>
          rw [hop] at h
          replace h : rest.foldlM DiffOverlay.applyOp g1 = .ok g' := h
          have hna1 : noRemoveAfterAdd rest = true := by
            simp only [noRemoveAfterAdd, Bool.and_eq_true] at hna
            exact hna.2
          have hnoadd : ∀ j, addedIdOfOp op = some j → j ∉ overlayRemovedIds rest := by
            intro j hj
            simp only [noRemoveAfterAdd, Bool.and_eq_true] at hna
            have := hna.1
            rw [hj] at this
            simpa using this
          have hstep := applyOp_hasNode g op g1 hop x
          have ihg := ih g1 h hna1
          have hremsplit : overlayRemovedIds (op :: rest) =
              overlayRemovedIds [op] ++ overlayRemovedIds rest := by
            simp [overlayRemovedIds, List.filterMap]
            cases hro : (if op.type = "remove" then op.nodeId else none) <;> simp
          have haddsplit : overlayAddedIds (op :: rest) =
              overlayAddedIds [op] ++ overlayAddedIds rest := by
            simp [overlayAddedIds, List.filterMap]
            cases hro : addedIdOfOp op <;> simp
          rw [hremsplit, haddsplit]
          have hAop : ∀ y, y ∈ overlayAddedIds [op] ↔ addedIdOfOp op = some y := by
            intro y
            simp [overlayAddedIds, List.filterMap]
            cases hro : addedIdOfOp op <;> simp
            exact ⟨fun hc => hc.symm, fun hc => hc.symm⟩
          rw [ihg, hstep]
          by_cases hxa : x ∈ overlayAddedIds [op]
          · have hxr : x ∉ overlayRemovedIds rest := hnoadd x ((hAop x).mp hxa)
            simp only [List.mem_append]
            constructor
            · intro hcase
              rcases hcase with ⟨hprev, hnr⟩ | hA
              · rcases hprev with ⟨hg, hr1⟩ | hx1
                · exact Or.inl ⟨hg, by simp [hr1, hnr]⟩
                · exact Or.inr (Or.inl hx1)
              · exact Or.inr (Or.inr hA)
            · intro hcase
              rcases hcase with ⟨hg, hnr⟩ | hA
              · exact Or.inl ⟨Or.inl ⟨hg, fun hc => (by simp [hc] at hnr)⟩, fun hc => (by simp [hc] at hnr)⟩
              · rcases hA with hx1 | hA2
                · exact Or.inl ⟨Or.inr hx1, hxr⟩
                · exact Or.inr hA2
          · simp only [List.mem_append]
            constructor
            · intro hcase
              rcases hcase with ⟨hprev, hnr⟩ | hA
              · rcases hprev with ⟨hg, hr1⟩ | hx1
                · exact Or.inl ⟨hg, by simp [hr1, hnr]⟩
                · exact absurd hx1 hxa
              · exact Or.inr (Or.inr hA)
            · intro hcase
              rcases hcase with ⟨hg, hnr⟩ | hA
              · exact Or.inl ⟨Or.inl ⟨hg, fun hc => (by simp [hc] at hnr)⟩, fun hc => (by simp [hc] at hnr)⟩
              · rcases hA with hx1 | hA2
                · exact absurd hx1 hxa
                · exact Or.inr hA2

/-! ## Claim C4 -/

/-- A sample function node used in the C4 scenarios. -/
def c4NodeA : GraphNode :=
  { id := "a", type := "function", name := "fa", path := "src/a.ts",
    content := "function fa()", startLine := 1, endLine := 2 }

/-- A second sample node. -/
def c4NodeX : GraphNode :=
  { id := "x", type := "function", name := "fx", path := "src/x.ts",
    content := "function fx()", startLine := 1, endLine := 2 }

/-- A base graph holding only node `a`. -/
def c4GraphBase : CodeGraph := CodeGraph.upsertNode {} c4NodeA

/-- An overlay that adds node `x` and then removes it again. -/
def c4Overlay : DiffOverlay :=
  { id := "ov1", baseGraphSnapshot := "",
    operations :=
      [ { type := "add", node := some c4NodeX },
        { type := "remove", nodeId := some "x" } ] }

/-- An overlay that adds node `x` and removes the pre-existing node `a`. -/
def c4WitnessOverlay : DiffOverlay :=
  { id := "ov2", baseGraphSnapshot := "",
    operations :=
      [ { type := "add", node := some c4NodeX },
        { type := "remove", nodeId := some "a" } ] }

/-- C4 counterexample: the claim says `O.apply(G)` contains exactly the nodes
of `G` not removed by `O` plus the nodes added by `O`.  Applying the overlay
`[add x, remove x]` to a graph holding only `a` yields a graph without `x`,
although `x` is a node added by the overlay's operations, so the claimed
node-set equation fails on this input. -/
theorem claim_C4_counterexample :
    (DiffOverlay.apply c4Overlay c4GraphBase).toOption.map
        (fun g' => CodeGraph.hasNode g' "x") = some false ∧
    "x" ∈ overlayAddedIds c4Overlay.operations ∧
    CodeGraph.hasNode c4GraphBase "a" = true := by decide

/-- C4 (amended): for every well-formed graph `G` and overlay `O` whose log
never removes a node that an earlier operation added, the graph returned by
`O.apply(G)` contains a node id exactly when it is an id of `G` not removed
by `O`'s operations or an id upserted (added or modified) by `O`'s
operations; and in the resulting graph every edge's `from` and `to` ids
reference nodes present in the graph. -/
theorem claim_C4_amended (g g' : CodeGraph) (ov : DiffOverlay)
    (hwf : CodeGraph.WF g)
    (hna : noRemoveAfterAdd ov.operations = true)
    (h : DiffOverlay.apply ov g = .ok g') :
    (∀ x, CodeGraph.hasNode g' x = true ↔
        ((CodeGraph.hasNode g x = true ∧ x ∉ overlayRemovedIds ov.operations) ∨
          x ∈ overlayAddedIds ov.operations)) ∧
    CodeGraph.EdgeIntegrity g' := by
  constructor
  · intro x
    exact applyOps_hasNode ov.operations g g' h hna x
  · exact (applyOps_wf ov.operations g g' h hwf).2.2.2

/-- C4 witness: the amended theorem applied to a concrete base graph and
overlay. -/
theorem claim_C4_witness :
    CodeGraph.WF c4GraphBase ∧
    noRemoveAfterAdd c4WitnessOverlay.operations = true ∧
    (DiffOverlay.apply c4WitnessOverlay c4GraphBase).toOption.elim False
      CodeGraph.EdgeIntegrity := by
  refine ⟨by decide, by decide, ?_⟩
  have hS : (DiffOverlay.apply c4WitnessOverlay c4GraphBase).toOption.isSome = true := by
    decide
  cases hap : DiffOverlay.apply c4WitnessOverlay c4GraphBase with
  | error e =>
      rw [hap] at hS
      simp [Except.toOption] at hS
  | ok g' =>
      exact (claim_C4_amended c4GraphBase g' c4WitnessOverlay (by decide) (by decide) hap).2

/-! ## HNSW ANN index (`src/retrieval/AnnIndex.ts`), claim C2 -/

/-- A node of the layered HNSW graph (vector entries as rationals). -/
structure HnswNode where
  id : String
  level : Nat
  vector : List Rat
  neighbors : JsMap JsSet
  deriving Repr, DecidableEq

/-- The mutable state of `HnswAnnIndex`. -/
structure HnswAnnIndex where
  nodes : JsMap HnswNode := []
  vectors : JsMap (List Rat) := []
  vectorDimension : Option Nat := none
  entryPoint : Option String := none
  maxLevel : Nat := 0
  deriving Repr, DecidableEq

/-- The beam-search body of `search` below its guard clauses (greedy descent
through the upper layers and `searchLayer` at level 0, scored by dot
product).  It operates on floating-point vectors and `Float32Array`s, which
have no exact embedding, so it is taken as a parameter; every theorem about
`search` quantifies over it. -/
def HnswSearchCore : Type :=
  HnswAnnIndex → List Rat → Nat → Nat → List (String × Rat)

/-- `HnswAnnIndex.search(query, topK, efSearch)`: the guard clauses of the
source, with the post-guard beam search abstracted as `core`.  Returns the
`AnnResult` list as `(id, score)` pairs or the thrown error message. -/
def HnswAnnIndex.search (core : HnswSearchCore) (idx : HnswAnnIndex)
    (query : List Rat) (topK : Nat) (efSearch : Nat) :
    Except String (List (String × Rat)) :=
  if idx.nodes.length = 0 then
    .ok []
  else
    match idx.vectorDimension with
    | none => .error "ANN index has not been initialised."
    | some dim =>
        if query.length ≠ dim then
          .error ("Query dimension mismatch: expected " ++ toString dim ++
            ", received " ++ toString query.length)
        else
          .ok (core idx query topK efSearch)

/-- A one-vector index of dimension 2 (as left by `add("a", [1, 0])`,
with the level-0 neighbour set empty). -/
def c2MismatchIndex : HnswAnnIndex :=
  { nodes := [("a", { id := "a", level := 0, vector := [1, 0], neighbors := [("0", [])] })],
    vectors := [("a", [1, 0])],
    vectorDimension := some 2,
    entryPoint := some "a",
    maxLevel := 0 }

/-- C2 counterexample: on a non-empty index of dimension 2, a query of length
1 makes `search` throw a dimension-mismatch error instead of returning an
empty list, for any beam-search body (shown here at the constant one). -/
theorem claim_C2_counterexample :
    HnswAnnIndex.search (fun _ _ _ _ => []) c2MismatchIndex [1] 5 64 =
      .error "Query dimension mismatch: expected 2, received 1" := by
  rfl

/-- C2 (amended): for every beam-search body and every index state, `search`
returns `[]` without raising when the index holds no vectors, while on a
non-empty index a query whose length differs from the recorded dimension
makes `search` raise a dimension-mismatch error (never an empty result). -/
theorem claim_C2_amended (core : HnswSearchCore) (idx : HnswAnnIndex)
    (query : List Rat) (topK efSearch : Nat) :
    (idx.nodes.length = 0 →
      HnswAnnIndex.search core idx query topK efSearch = .ok []) ∧
    (∀ dim, idx.nodes.length ≠ 0 → idx.vectorDimension = some dim →
      query.length ≠ dim →
      HnswAnnIndex.search core idx query topK efSearch =
        .error ("Query dimension mismatch: expected " ++ toString dim ++
          ", received " ++ toString query.length)) := by
  constructor
  · intro hempty
    unfold HnswAnnIndex.search
    rw [if_pos hempty]
  · intro dim hne hdim hq
    unfold HnswAnnIndex.search
    rw [if_neg hne, hdim]
    show (if query.length ≠ dim then
        Except.error ("Query dimension mismatch: expected " ++ toString dim ++
          ", received " ++ toString query.length)
      else Except.ok (core idx query topK efSearch)) =
      Except.error ("Query dimension mismatch: expected " ++ toString dim ++
        ", received " ++ toString query.length)
    rw [if_pos hq]

/-- C2 witness: the amended theorem applied at a concrete empty index and at
the concrete mismatching index. -/
theorem claim_C2_witness :
    (HnswAnnIndex.search (fun _ _ _ _ => []) {} [1, 0] 5 64 = .ok []) ∧
    (HnswAnnIndex.search (fun _ _ _ _ => []) c2MismatchIndex [1] 5 64 =
      .error "Query dimension mismatch: expected 2, received 1") := by
  constructor
  · exact (claim_C2_amended (fun _ _ _ _ => []) {} [1, 0] 5 64).1 (by decide)
  · exact (claim_C2_amended (fun _ _ _ _ => []) c2MismatchIndex [1] 5 64).2 2
      (by decide) (by decide) (by decide)

/-! ## Tokenisation (`Bm25Index.tokenize`, `TextSearchEngine.tokenize`),
claim C5 -/

/-- `text.toLowerCase()` (ASCII; the embedded texts are ASCII). -/
def jsToLowerCase (s : String) : String := String.mk (s.data.map Char.toLower)

/-- A character the BM25 splitter `/[^a-z0-9_]+/i` treats as part of a token:
letters (either case, due to the `i` flag), digits, underscore. -/
def isBm25TokenChar (c : Char) : Bool :=
  c.isLower || c.isUpper || c.isDigit || c = '_'

/-- A character the `TextSearchEngine` splitter `/[^a-z0-9]+/` treats as part
of a token: lowercase letters and digits only (no underscore, no `i` flag). -/
def isTextTokenChar (c : Char) : Bool :=
  c.isLower || c.isDigit

/-- JavaScript `String.prototype.split` on a `[^...]+` regex: pieces are the
maximal token-character runs, with an empty piece at a boundary that starts
or ends with separators (a separator run between two token runs contributes
exactly one break). -/
def splitOnSeps (isTok : Char → Bool) : List Char → List String
  | [] => [""]
  | c :: rest =>
      let r := splitOnSeps isTok rest
      if isTok c then
        match r with
        | [] => [String.mk [c]]
        | h :: t => String.mk (c :: h.data) :: t
      else
        match rest with
        | [] => "" :: r
        | c2 :: _ => if isTok c2 then "" :: r else r

/-- `Bm25Index.tokenize`: lowercase, split on `/[^a-z0-9_]+/i`,
`filter(Boolean)`. -/
def Bm25Index.tokenize (text : String) : List String :=
  (splitOnSeps isBm25TokenChar (jsToLowerCase text).data).filter (fun t => t ≠ "")

/-- The `TextSearchEngine` stop-word set. -/
def TextSearchEngine.stopWords : List String :=
  ["the", "is", "at", "which", "on", "a", "an", "and", "or", "but",
   "in", "with", "to", "for", "of", "as", "by", "from", "this", "that"]

/-- `TextSearchEngine.tokenize`: lowercase, split on `/[^a-z0-9]+/`, keep
tokens of length at least `minTokenLength = 2` that are not stop words. -/
def TextSearchEngine.tokenize (text : String) : List String :=
  (splitOnSeps isTextTokenChar (jsToLowerCase text).data).filter
    (fun t => 2 ≤ t.length && !(TextSearchEngine.stopWords.contains t))

theorem splitOnSeps_chars (isTok : Char → Bool) (l : List Char) :
    ∀ p ∈ splitOnSeps isTok l, ∀ c ∈ p.data, isTok c = true := by
  induction l with
  | nil =>
      intro p hp c hc
      simp [splitOnSeps] at hp
      subst hp
      simp [String.data] at hc
  | cons a rest ih =>
      intro p hp c hc
      simp only [splitOnSeps] at hp
      by_cases ha : isTok a
      · rw [if_pos ha] at hp
        cases hr : splitOnSeps isTok rest with
        | nil =>
            rw [hr] at hp
            simp at hp
            subst hp
            simp at hc
            subst hc
            exact ha
        | cons h t =>
            rw [hr] at hp
            rcases List.mem_cons.mp hp with rfl | hpt
            · simp at hc
              rcases hc with rfl | hch
              · exact ha
              · exact ih h (hr ▸ List.mem_cons_self _ _) c hch
            · exact ih p (hr ▸ List.mem_cons_of_mem _ hpt) c hc
      · rw [if_neg ha] at hp
        cases rest with
        | nil =>
            have hp' : p ∈ ("" :: splitOnSeps isTok []) := hp
            rcases List.mem_cons.mp hp' with rfl | hpt
            · simp [String.data] at hc
            · exact ih p hpt c hc
        | cons c2 rest2 =>
            have hp' : p ∈ (if isTok c2 then "" :: splitOnSeps isTok (c2 :: rest2)
                else splitOnSeps isTok (c2 :: rest2)) := hp
            by_cases hc2 : isTok c2
            · rw [if_pos hc2] at hp'
              rcases List.mem_cons.mp hp' with rfl | hpt
              · simp [String.data] at hc
              · exact ih p hpt c hc
            · rw [if_neg hc2] at hp'
              exact ih p hp' c hc

/-- C5 counterexample: `Bm25Index.tokenize` keeps the stop word `the` and the
single-character token `a`, contradicting the claimed stop-word removal and
minimum token length 2.  (`TextSearchEngine.tokenize`, by contrast, drops
both — but also splits at underscores.) -/
theorem claim_C5_counterexample :
    Bm25Index.tokenize "a the" = ["a", "the"] ∧
    "the" ∈ TextSearchEngine.stopWords ∧
    ("a" : String).length = 1 ∧
    TextSearchEngine.tokenize "a the" = [] := by
  refine ⟨by decide, by decide, by decide, by decide⟩

/-- C5 (amended): `Bm25Index.tokenize` lowercases and splits on
non-alphanumeric characters with underscore allowed inside tokens, keeping
every non-empty token — including stop words and single-character tokens
(every produced token is non-empty and consists only of
letter/digit/underscore characters); stop-word removal and the minimum
token length of 2 are applied only by `TextSearchEngine.tokenize`, whose
splitter treats the underscore as a separator. -/
theorem claim_C5_amended (text : String) :
    (∀ t ∈ Bm25Index.tokenize text,
      t ≠ "" ∧ ∀ c ∈ t.data, isBm25TokenChar c = true) ∧
    Bm25Index.tokenize "Foo_bar the a x" = ["foo_bar", "the", "a", "x"] ∧
    TextSearchEngine.tokenize "Foo_bar the a x" = ["foo", "bar"] := by
  refine ⟨?_, by decide, by decide⟩
  intro t ht
  unfold Bm25Index.tokenize at ht
  have hmem := List.mem_filter.mp ht
  refine ⟨by simpa using hmem.2, ?_⟩
  intro c hc
  exact splitOnSeps_chars isBm25TokenChar (jsToLowerCase text).data t hmem.1 c hc

/-- C5 witness: the amended theorem applied at a concrete text and token. -/
theorem claim_C5_witness :
    ("foo_bar" : String) ≠ "" ∧ isBm25TokenChar '_' = true := by
  have h := (claim_C5_amended "Foo_bar the a x").1 "foo_bar" (by decide)
  exact ⟨h.1, h.2 '_' (by decide)⟩

/-! ## Reciprocal rank fusion (`src/retrieval/CandidateFusion.ts`), claim C9 -/

/-- A ranked hit (`AnnResult` / `Bm25Hit`): id with score. -/
structure RankedHit where
  id : String
  score : Rat
  deriving Repr, DecidableEq

/-- The per-id accumulator of `reciprocalRankFusion`'s `scores` map; the
`sources` sub-map over the keys `ANN` and `BM25` is modelled by two
optional fields. -/
structure FusionAcc where
  value : Rat := 0
  ann : Option Rat := none
  bm25 : Option Rat := none
  deriving Repr, DecidableEq

/-- A `FusedCandidate`. -/
structure FusedCandidate where
  id : String
  fusedScore : Rat
  rank : Nat
  sourcesAnn : Option Rat
  sourcesBm25 : Option Rat
  deriving Repr, DecidableEq

/-- One `results.forEach((hit, index) => ...)` pass of
`reciprocalRankFusion`, carrying the running array index explicitly;
`setAnn` selects which `sources` key receives the raw score. -/
def fuseFold (k : Nat) (setAnn : Bool) : Nat → List RankedHit → JsMap FusionAcc → JsMap FusionAcc
  | _, [], m => m
  | idx, hit :: rest, m =>
      let fused := (JsMap.get? m hit.id).getD {}
      let fused' : FusionAcc :=
        { value := fused.value + 1 / ((k : Rat) + idx + 1),
          ann := if setAnn then some hit.score else fused.ann,
          bm25 := if setAnn then fused.bm25 else some hit.score }
      fuseFold k setAnn (idx + 1) rest (JsMap.set m hit.id fused')

/-- Stable insertion of `x` into a sorted list: `x` goes before the first
element `y` it may precede (`le x y`), matching the placement of JavaScript's
stable `Array.prototype.sort` (ties keep input order). -/
def jsSortInsert {α : Type} (le : α → α → Bool) (x : α) : List α → List α
  | [] => [x]
  | y :: rest => if le x y then x :: y :: rest else y :: jsSortInsert le x rest

/-- A stable sort modelling `Array.prototype.sort(cmp)` for a consistent
comparator, with `le a b` meaning `cmp(a, b) <= 0` (`a` may precede `b`). -/
def jsStableSort {α : Type} (le : α → α → Bool) : List α → List α
  | [] => []
  | x :: rest => jsSortInsert le x (jsStableSort le rest)

theorem jsSortInsert_perm {α : Type} (le : α → α → Bool) (x : α) (l : List α) :
    (jsSortInsert le x l).Perm (x :: l) := by
  induction l with
  | nil => exact List.Perm.refl _
  | cons y rest ih =>
      simp only [jsSortInsert]
      by_cases h : le x y
      · rw [if_pos h]
      · rw [if_neg h]
        exact (List.Perm.cons y ih).trans (List.Perm.swap x y rest)

theorem jsStableSort_perm {α : Type} (le : α → α → Bool) (l : List α) :
    (jsStableSort le l).Perm l := by
  induction l with
  | nil => exact List.Perm.refl _
  | cons x rest ih =>
      exact (jsSortInsert_perm le x (jsStableSort le rest)).trans (List.Perm.cons x ih)

theorem mem_jsSortInsert {α : Type} {le : α → α → Bool} {x z : α} {l : List α} :
    z ∈ jsSortInsert le x l ↔ z = x ∨ z ∈ l :=
  ⟨fun h => by
      rcases (jsSortInsert_perm le x l).subset h with h2
      exact List.mem_cons.mp h2,
   fun h => (jsSortInsert_perm le x l).symm.subset (List.mem_cons.mpr h)⟩

theorem pairwise_jsSortInsert {α : Type} (le : α → α → Bool)
    (htrans : ∀ a b c, le a b = true → le b c = true → le a c = true)
    (htot : ∀ a b, (le a b || le b a) = true)
    (x : α) (l : List α) (hl : List.Pairwise (fun a b => le a b = true) l) :
    List.Pairwise (fun a b => le a b = true) (jsSortInsert le x l) := by
  induction l with
  | nil => simp [jsSortInsert]
  | cons y rest ih =>
      simp only [jsSortInsert]
      rcases List.pairwise_cons.mp hl with ⟨hy, htl⟩
      by_cases h : le x y
      · rw [if_pos h]
        refine List.pairwise_cons.mpr ⟨?_, hl⟩
        intro z hz
        rcases List.mem_cons.mp hz with rfl | hz2
        · exact h
        · exact htrans x y z h (hy z hz2)
      · rw [if_neg h]
        refine List.pairwise_cons.mpr ⟨?_, ih htl⟩
        intro z hz
        rcases mem_jsSortInsert.mp hz with hzx | hz2
        · subst hzx
          have := htot z y
          simp only [Bool.or_eq_true] at this
          rcases this with h1 | h1
          · exact absurd h1 h
          · exact h1
        · exact hy z hz2

theorem pairwise_jsStableSort {α : Type} (le : α → α → Bool)
    (htrans : ∀ a b c, le a b = true → le b c = true → le a c = true)
    (htot : ∀ a b, (le a b || le b a) = true)
    (l : List α) :
    List.Pairwise (fun a b => le a b = true) (jsStableSort le l) := by
  induction l with
  | nil => exact List.Pairwise.nil
  | cons x rest ih =>
      exact pairwise_jsSortInsert le htrans htot x (jsStableSort le rest) ih

/-- Rank assignment: `fusedList.forEach((candidate, index) =>
candidate.rank = index + 1)`. -/
def assignRanks : Nat → List FusedCandidate → List FusedCandidate
  | _, [] => []
  | i, c :: rest => { c with rank := i + 1 } :: assignRanks (i + 1) rest

/-- `reciprocalRankFusion(annResults, bm25Results, topK, k = 60)`: accumulate
`1/(k + index + 1)` per list occurrence, sort by fused score descending
(JavaScript's stable sort), truncate to `topK` and assign 1-based ranks. -/
def reciprocalRankFusion (annResults bm25Results : List RankedHit)
    (topK : Nat) (k : Nat := 60) : List FusedCandidate :=
  let scores := fuseFold k false 0 bm25Results (fuseFold k true 0 annResults [])
  let fusedList : List FusedCandidate := scores.map (fun p =>
    { id := p.1, fusedScore := p.2.value, rank := 0,
      sourcesAnn := p.2.ann, sourcesBm25 := p.2.bm25 })
  let sorted := jsStableSort (fun a b => decide (b.fusedScore ≤ a.fusedScore)) fusedList
  assignRanks 0 (sorted.take topK)

/-- The 0-based index of an id in a ranked list's id sequence. -/
def idIndex (i : String) : List String → Option Nat
  | [] => none
  | x :: rest => if x = i then some 0 else (idIndex i rest).map (· + 1)

/-- The claimed RRF contribution of one ranked list to an id: `1/(k + r + 1)`
at the id's 0-based rank `r`, and `0` when the id is absent. -/
def rrfContribution (k : Nat) (results : List RankedHit) (i : String) : Rat :=
  match idIndex i (results.map (·.id)) with
  | none => 0
  | some r => 1 / ((k : Rat) + r + 1)

theorem idIndex_eq_none_iff (i : String) (l : List String) :
    idIndex i l = none ↔ i ∉ l := by
  induction l with
  | nil => simp [idIndex]
  | cons x rest ih =>
      simp only [idIndex]
      by_cases hx : x = i
      · simp [hx]
      · rw [if_neg hx]
        rw [Option.map_eq_none', ih]
        simp [List.mem_cons, show ¬ i = x from fun hc => hx hc.symm]

theorem fuseFold_value (k : Nat) (setAnn : Bool) (results : List RankedHit)
    (idx : Nat) (m : JsMap FusionAcc) (i : String)
    (hres : (results.map (·.id)).Nodup) :
    ((JsMap.get? (fuseFold k setAnn idx results m) i).getD {}).value =
      ((JsMap.get? m i).getD {}).value +
        (match idIndex i (results.map (·.id)) with
         | none => 0
         | some r => 1 / ((k : Rat) + (idx + r) + 1)) := by
  induction results generalizing idx m with
  | nil => simp [fuseFold, idIndex]
  | cons hit rest ih =>
      simp only [List.map_cons, List.nodup_cons] at hres
      obtain ⟨hhd, htl⟩ := hres
      simp only [fuseFold]
      by_cases hi : hit.id = i
      · subst hi
        rw [ih (idx + 1) _ htl]
        have hnone : idIndex hit.id (rest.map (·.id)) = none :=
          (idIndex_eq_none_iff _ _).mpr hhd
        rw [hnone]
        have hget : JsMap.get? (JsMap.set m hit.id
            { value := ((JsMap.get? m hit.id).getD {}).value + 1 / ((k : Rat) + idx + 1),
              ann := if setAnn then some hit.score else ((JsMap.get? m hit.id).getD {}).ann,
              bm25 := if setAnn then ((JsMap.get? m hit.id).getD {}).bm25 else some hit.score })
            hit.id = some
            { value := ((JsMap.get? m hit.id).getD {}).value + 1 / ((k : Rat) + idx + 1),
              ann := if setAnn then some hit.score else ((JsMap.get? m hit.id).getD {}).ann,
              bm25 := if setAnn then ((JsMap.get? m hit.id).getD {}).bm25 else some hit.score } := by
          rw [JsMap.get?_set]
          simp
        rw [hget]
        simp only [idIndex, if_pos rfl, Option.getD_some, add_zero]
        push_cast
        ring
      · rw [ih (idx + 1) _ htl]
        have hget : JsMap.get? (JsMap.set m hit.id
            { value := ((JsMap.get? m hit.id).getD {}).value + 1 / ((k : Rat) + idx + 1),
              ann := if setAnn then some hit.score else ((JsMap.get? m hit.id).getD {}).ann,
              bm25 := if setAnn then ((JsMap.get? m hit.id).getD {}).bm25 else some hit.score })
            i = JsMap.get? m i := by
          rw [JsMap.get?_set]
          rw [if_neg (fun hc => hi hc.symm)]
        rw [hget]
        simp only [idIndex]
        rw [if_neg hi]
        cases hx : idIndex i (rest.map (·.id)) with
        | none => simp
        | some r =>
            simp only [Option.map_some]
            congr 2
            push_cast
            ring

theorem fuseFold_nodupKeys (k : Nat) (setAnn : Bool) (idx : Nat)
    (results : List RankedHit) (m : JsMap FusionAcc)
    (hm : (JsMap.keysList m).Nodup) :
    (JsMap.keysList (fuseFold k setAnn idx results m)).Nodup := by
  induction results generalizing idx m with
  | nil => exact hm
  | cons hit rest ih =>
      exact ih (idx + 1) _ (JsMap.nodupKeys_set hit.id _ hm)

theorem mem_assignRanks_pair {c : FusedCandidate} {i : Nat} {l : List FusedCandidate}
    (hc : c ∈ assignRanks i l) :
    ∃ c' ∈ l, c.id = c'.id ∧ c.fusedScore = c'.fusedScore := by
  induction l generalizing i with
  | nil => simp [assignRanks] at hc
  | cons d rest ih =>
      simp only [assignRanks] at hc
      rcases List.mem_cons.mp hc with rfl | hc2
      · exact ⟨d, List.mem_cons_self _ _, rfl, rfl⟩
      · obtain ⟨c', hc', h1, h2⟩ := ih hc2
        exact ⟨c', List.mem_cons_of_mem _ hc', h1, h2⟩

theorem assignRanks_length (i : Nat) (l : List FusedCandidate) :
    (assignRanks i l).length = l.length := by
  induction l generalizing i with
  | nil => rfl
  | cons d rest ih => simp [assignRanks, ih]

theorem pairwise_assignRanks {i : Nat} {l : List FusedCandidate}
    (hl : List.Pairwise (fun a b => b.fusedScore ≤ a.fusedScore) l) :
    List.Pairwise (fun a b => b.fusedScore ≤ a.fusedScore) (assignRanks i l) := by
  induction l generalizing i with
  | nil => exact List.Pairwise.nil
  | cons d rest ih =>
      rcases List.pairwise_cons.mp hl with ⟨hd, htl⟩
      refine List.pairwise_cons.mpr ⟨?_, ih htl⟩
      intro y hy
      obtain ⟨y', hy', _, h2⟩ := mem_assignRanks_pair hy
      show y.fusedScore ≤ _
      rw [h2]
      exact hd y' hy'

/-- C9: `reciprocalRankFusion` (with the default constant k = 60, over
ranked lists whose ids are duplicate-free) assigns every returned candidate
the sum over both lists of `1/(60 + r + 1)` at its 0-based rank `r` in that
list (0 for a list not containing it); the output is sorted by fused score
descending and truncated to `topK`; and an id at rank 0 in both lists
obtains a strictly greater fused value than an id at rank 1 in both lists. -/
theorem claim_C9 (ann bm : List RankedHit) (topK : Nat)
    (hann : (ann.map (·.id)).Nodup) (hbm : (bm.map (·.id)).Nodup) :
    (∀ c ∈ reciprocalRankFusion ann bm topK 60,
        c.fusedScore = rrfContribution 60 ann c.id + rrfContribution 60 bm c.id) ∧
    List.Pairwise (fun a b => b.fusedScore ≤ a.fusedScore)
      (reciprocalRankFusion ann bm topK 60) ∧
    (reciprocalRankFusion ann bm topK 60).length ≤ topK ∧
    (∀ X Y : String,
      idIndex X (ann.map (·.id)) = some 0 → idIndex X (bm.map (·.id)) = some 0 →
      idIndex Y (ann.map (·.id)) = some 1 → idIndex Y (bm.map (·.id)) = some 1 →
      rrfContribution 60 ann X + rrfContribution 60 bm X >
        rrfContribution 60 ann Y + rrfContribution 60 bm Y) := by
  have hscore : ∀ i, ((JsMap.get? (fuseFold 60 false 0 bm (fuseFold 60 true 0 ann [])) i).getD {}).value
      = rrfContribution 60 ann i + rrfContribution 60 bm i := by
    intro i
    rw [fuseFold_value 60 false bm 0 _ i hbm]
    rw [fuseFold_value 60 true ann 0 [] i hann]
    have h0 : ((JsMap.get? ([] : JsMap FusionAcc) i).getD {}).value = 0 := rfl
    rw [h0]
    unfold rrfContribution
    cases ha : idIndex i (ann.map (·.id)) <;> cases hb : idIndex i (bm.map (·.id)) <;>
      simp [Nat.zero_add]
  have hnd : (JsMap.keysList
      (fuseFold 60 false 0 bm (fuseFold 60 true 0 ann []))).Nodup :=
    fuseFold_nodupKeys 60 false 0 bm _
      (fuseFold_nodupKeys 60 true 0 ann [] List.nodup_nil)
  have htrans : ∀ a b c : FusedCandidate,
      decide (b.fusedScore ≤ a.fusedScore) = true →
      decide (c.fusedScore ≤ b.fusedScore) = true →
      decide (c.fusedScore ≤ a.fusedScore) = true := by
    intro a b c hab hbc
    simp only [decide_eq_true_eq] at *
    exact le_trans hbc hab
  have htot : ∀ a b : FusedCandidate,
      (decide (b.fusedScore ≤ a.fusedScore) || decide (a.fusedScore ≤ b.fusedScore)) = true := by
    intro a b
    simp only [Bool.or_eq_true, decide_eq_true_eq]
    exact le_total _ _
  refine ⟨?_, ?_, ?_, ?_⟩
  · intro c hc
    simp only [reciprocalRankFusion] at hc
    obtain ⟨c', hc', hid, hfs⟩ := mem_assignRanks_pair hc
    have hc'2 : c' ∈ jsStableSort (fun a b => decide (b.fusedScore ≤ a.fusedScore))
        ((fuseFold 60 false 0 bm (fuseFold 60 true 0 ann [])).map (fun p =>
          ({ id := p.1, fusedScore := p.2.value, rank := 0,
             sourcesAnn := p.2.ann, sourcesBm25 := p.2.bm25 } : FusedCandidate))) :=
      (List.take_sublist _ _).subset hc'
    have hc'3 := (jsStableSort_perm _ _).subset hc'2
    obtain ⟨p, hp, hpc⟩ := List.mem_map.mp hc'3
    have hget : JsMap.get? (fuseFold 60 false 0 bm (fuseFold 60 true 0 ann [])) p.1 =
        some p.2 := JsMap.get?_eq_some_of_mem_nodup hnd hp
    have hv := hscore p.1
    rw [hget] at hv
    rw [hfs, hid, ← hpc]
    exact hv
  · simp only [reciprocalRankFusion]
    apply pairwise_assignRanks
    apply List.Pairwise.sublist (List.take_sublist _ _)
    have := pairwise_jsStableSort _ htrans htot
      ((fuseFold 60 false 0 bm (fuseFold 60 true 0 ann [])).map (fun p =>
        ({ id := p.1, fusedScore := p.2.value, rank := 0,
           sourcesAnn := p.2.ann, sourcesBm25 := p.2.bm25 } : FusedCandidate)))
    exact this.imp (fun h => of_decide_eq_true h)
  · simp only [reciprocalRankFusion]
    rw [assignRanks_length, List.length_take]
    exact min_le_left _ _
  · intro X Y haX hbX haY hbY
    unfold rrfContribution
    rw [haX, hbX, haY, hbY]
    norm_num

/-- A concrete ANN result list for the C9 witness. -/
def c9Ann : List RankedHit := [{ id := "x", score := 9/10 }, { id := "y", score := 8/10 }]

/-- A concrete BM25 result list for the C9 witness. -/
def c9Bm : List RankedHit := [{ id := "x", score := 5 }, { id := "y", score := 3 }]

/-- C9 witness: the RRF theorem applied at concrete ranked lists with `x` at
rank 0 and `y` at rank 1 in both. -/
theorem claim_C9_witness :
    ((c9Ann.map (·.id)).Nodup ∧ (c9Bm.map (·.id)).Nodup) ∧
    (reciprocalRankFusion c9Ann c9Bm 5 60).length ≤ 5 ∧
    rrfContribution 60 c9Ann "x" + rrfContribution 60 c9Bm "x" >
      rrfContribution 60 c9Ann "y" + rrfContribution 60 c9Bm "y" := by
  refine ⟨⟨by decide, by decide⟩, ?_, ?_⟩
  · exact (claim_C9 c9Ann c9Bm 5 (by decide) (by decide)).2.2.1
  · exact (claim_C9 c9Ann c9Bm 5 (by decide) (by decide)).2.2.2 "x" "y"
      (by decide) (by decide) (by decide) (by decide)

/-! ## Dependency-aware retriever (`DependencyAwareRetriever`),
claims C1, C3, C6, C10 -/

/-- `CandidateSourceScores`: a partial record over the keys `ANN`, `BM25`. -/
structure CandidateSourceScores where
  ann : Option Rat := none
  bm25 : Option Rat := none
  deriving Repr, DecidableEq

/-- `CandidateScoreBreakdown`. -/
structure CandidateScoreBreakdown where
  fused : Rat := 0
  semantic : Rat := 0
  lexical : Rat := 0
  structural : Rat := 0
  cross : Option Rat := none
  deriving Repr, DecidableEq

/-- `TargetCandidate` (a file-level candidate of the resolver). -/
structure TargetCandidate where
  path : String
  score : Rat := 0
  nodes : List GraphNode := []
  reasons : List String := []
  sourceScores : CandidateSourceScores := {}
  scoreBreakdown : CandidateScoreBreakdown := {}
  deriving Repr, DecidableEq

/-- `TargetResolution`. -/
structure TargetResolution where
  primary : Option TargetCandidate := none
  candidates : List TargetCandidate := []
  deriving Repr, DecidableEq

/-- The `tokens` part of `ContextTelemetry`. -/
structure ContextTelemetryTokens where
  budget : Int
  used : Nat
  saved : Int
  savingsPercent : Rat
  deriving Repr, DecidableEq

/-- The `targetResolution` part of `ContextTelemetry`. -/
structure ContextTelemetryTarget where
  primaryPath : Option String
  candidateCount : Nat
  sourceScores : CandidateSourceScores
  aggregateSourceScores : CandidateSourceScores
  deriving Repr, DecidableEq

/-- `ContextTelemetry`. -/
structure ContextTelemetry where
  targetResolution : ContextTelemetryTarget
  tokens : ContextTelemetryTokens
  deriving Repr, DecidableEq

/-- `BuildContextOptions`. -/
structure BuildContextOptions where
  candidateFilePaths : Option (List String) := none
  walkDepth : Option Nat := none
  relatedLimit : Option Nat := none
  breadthLimit : Option Nat := none
  deriving Repr, DecidableEq

/-- The four categorised node buckets passed between `deduplicateAndTag`,
`buildWithinBudget` and `formatContext`. -/
structure ContextBuckets where
  target : List GraphNode := []
  forward : List GraphNode := []
  backward : List GraphNode := []
  related : List GraphNode := []
  deriving Repr, DecidableEq

/-- `DependencyContext`. -/
structure DependencyContext where
  targetNodes : List GraphNode
  forwardDeps : List GraphNode
  backwardDeps : List GraphNode
  relatedByQuery : List GraphNode
  totalTokens : Nat
  tokensUsed : Nat
  formattedContext : String
  tokensSaved : Int
  savingsPercent : Rat
  searchType : String
  primaryFilePath : String
  candidateFilePaths : List String
  telemetry : ContextTelemetry
  deriving Repr, DecidableEq

/-- `TokenCounter.count`: `Math.ceil(text.length / 4)`. -/
def TokenCounter.count (text : String) : Nat := (text.length + 3) / 4

/-- JavaScript `Array.prototype.join(sep)`. -/
def joinWith (sep : String) : List String → String
  | [] => ""
  | [x] => x
  | x :: xs => x ++ sep ++ joinWith sep xs

/-- `private formatNode`. -/
def formatNode (node : GraphNode) : String :=
  "## " ++ node.type ++ ": " ++ node.name ++
  "\nFile: " ++ node.path ++
  "\nLines: " ++ toString node.startLine ++ "-" ++ toString node.endLine ++
  "\n\n```\n" ++ node.content ++ "\n```"

/-- `private formatContext`: the four labelled sections, joined by `'\n'`. -/
def formatContext (c : ContextBuckets) : String :=
  let sections : List String :=
    (if c.target.length > 0 then
      ["# TARGET CODE (being modified)\n", joinWith "\n\n" (c.target.map formatNode)]
     else []) ++
    (if c.backward.length > 0 then
      ["\n# DEPENDENTS (code that calls/imports the target - MUST update if signature changes)\n",
       joinWith "\n\n" (c.backward.map formatNode)]
     else []) ++
    (if c.forward.length > 0 then
      ["\n# DEPENDENCIES (code that target calls/imports)\n",
       joinWith "\n\n" (c.forward.map formatNode)]
     else []) ++
    (if c.related.length > 0 then
      ["\n# RELATED CONTEXT (similar or relevant code)\n",
       joinWith "\n\n" (c.related.map formatNode)]
     else [])
  joinWith "\n" sections

/-- `private estimateTokens`. -/
def estimateTokens (nodes : List GraphNode) : Nat :=
  TokenCounter.count (joinWith "\n\n" (nodes.map formatNode))

/-- `private clampTokenBudget`: `min(12000, max(6000, floor(maxTokens)))`;
the `Number.isFinite` fallback never fires in the rational model. -/
def clampTokenBudget (maxTokens : Rat) : Int :=
  min 12000 (max 6000 ⌊maxTokens⌋)

/-- One packing loop of `buildWithinBudget`: admit each node whose estimated
tokens keep the running count within `cap`, appending to the stage's list.
`0.8` and `0.95` of the budget are modelled as exact rationals. -/
def packStage (cap : Rat) (nodes : List GraphNode) (acc : List GraphNode × Nat) :
    List GraphNode × Nat :=
  nodes.foldl (fun acc node =>
    let nodeTokens := estimateTokens [node]
    if ((acc.2 + nodeTokens : Nat) : Rat) ≤ cap then
      (acc.1 ++ [node], acc.2 + nodeTokens)
    else acc) acc

/-- `private buildWithinBudget`: all target nodes unconditionally, then
backward within 80% of the budget, forward within 95%, related within 100%. -/
def buildWithinBudget (target forward backward related : List GraphNode)
    (maxTokens : Int) : ContextBuckets :=
  let currentTokens := estimateTokens target
  let bw := packStage ((maxTokens : Rat) * (8/10)) backward ([], currentTokens)
  let fw := packStage ((maxTokens : Rat) * (95/100)) forward ([], bw.2)
  let rel := packStage (maxTokens : Rat) related ([], fw.2)
  { target := target, forward := fw.1, backward := bw.1, related := rel.1 }

/-- The loop of `dedupeNodes`, carrying the `seen` id set. -/
def dedupeNodesGo (seen : List String) : List GraphNode → List GraphNode
  | [] => []
  | n :: rest =>
      if seen.contains n.id then dedupeNodesGo seen rest
      else n :: dedupeNodesGo (n.id :: seen) rest

/-- `private dedupeNodes` (keep the first node per id). -/
def dedupeNodes (nodes : List GraphNode) : List GraphNode :=
  dedupeNodesGo [] nodes

/-- `private limitByBreadth`: keep `limit` nodes by descending
`dependencyPriority`.  The priority `exported * 2 + 1 / ln(span + 1)` is a
floating-point computation and is supplied as the parameter `prio`. -/
def limitByBreadth (prio : GraphNode → Rat) (nodes : List GraphNode) (limit : Nat) :
    List GraphNode :=
  if nodes.length ≤ limit then nodes
  else
    ((jsStableSort (fun a b => decide (b.2 ≤ a.2))
        (nodes.map (fun n => (n, prio n)))).take limit).map (·.1)

/-- Fuel bound for the BFS loops: it strictly exceeds the number of loop
iterations the JavaScript `while` can perform (each iteration pops one queue
entry; entries are enqueued only from edges of the graph), so the fuel never
runs out. -/
def bfsFuel (g : CodeGraph) (queueLen : Nat) : Nat :=
  (g.nodes.length + g.edges.length + queueLen + 2) * (g.edges.length + 2) + 2

/-- The `while (queue.length > 0)` loop of `GraphWalker.bfs`. -/
def bfsAux (g : CodeGraph) (edgeTypes : List String) (maxDepth : Nat) :
    Nat → List (String × Nat) → JsSet → List GraphNode → List GraphNode
  | 0, _, _, acc => acc
  | _ + 1, [], _, acc => acc
  | fuel + 1, (currentId, depth) :: queue, visited, acc =>
      if visited.contains currentId || depth > maxDepth then
        bfsAux g edgeTypes maxDepth fuel queue visited acc
      else
        let visited1 := JsSet.add visited currentId
        match CodeGraph.getNode g currentId with
        | none => bfsAux g edgeTypes maxDepth fuel queue visited1 acc
        | some node =>
            let acc1 := acc ++ [node]
            if depth < maxDepth then
              let edges := (CodeGraph.getOutgoingEdges g currentId).filter
                (fun e => edgeTypes.contains e.type)
              let newEntries := (edges.filter (fun e => ¬ visited1.contains e.to_)).map
                (fun e => (e.to_, depth + 1))
              bfsAux g edgeTypes maxDepth fuel (queue ++ newEntries) visited1 acc1
            else
              bfsAux g edgeTypes maxDepth fuel queue visited1 acc1

/-- `GraphWalker.bfs(startNodeId, maxDepth, edgeTypes)`. -/
def GraphWalker.bfs (g : CodeGraph) (startNodeId : String) (maxDepth : Nat)
    (edgeTypes : List String) : List GraphNode :=
  bfsAux g edgeTypes maxDepth (bfsFuel g 1) [(startNodeId, 0)] [] []

/-- The `while` loop of `DependencyAwareRetriever.walkBackward` (reverse BFS
via a scan of all edges). -/
def walkBackwardAux (g : CodeGraph) (edgeTypes : List String) (maxDepth : Nat) :
    Nat → List (String × Nat) → JsSet → List GraphNode → List GraphNode
  | 0, _, _, acc => acc
  | _ + 1, [], _, acc => acc
  | fuel + 1, (currentId, depth) :: queue, visited, acc =>
      if visited.contains currentId || depth > maxDepth then
        walkBackwardAux g edgeTypes maxDepth fuel queue visited acc
      else
        let visited1 := JsSet.add visited currentId
        let acc1 :=
          match CodeGraph.getNode g currentId with
          | none => acc
          | some node => acc ++ [node]
        if depth < maxDepth then
          let incomingEdges := (CodeGraph.getAllEdges g).filter
            (fun e => e.to_ = currentId && edgeTypes.contains e.type)
          let newEntries := (incomingEdges.filter (fun e => ¬ visited1.contains e.from_)).map
            (fun e => (e.from_, depth + 1))
          walkBackwardAux g edgeTypes maxDepth fuel (queue ++ newEntries) visited1 acc1
        else
          walkBackwardAux g edgeTypes maxDepth fuel queue visited1 acc1

/-- `private walkBackward(nodeId, maxDepth, edgeTypes)`. -/
def walkBackward (g : CodeGraph) (nodeId : String) (maxDepth : Nat)
    (edgeTypes : List String) : List GraphNode :=
  walkBackwardAux g edgeTypes maxDepth (bfsFuel g 1) [(nodeId, 0)] [] []

/-- `private getForwardDependencies`. -/
def getForwardDependencies (g : CodeGraph) (prio : GraphNode → Rat)
    (nodes : List GraphNode) (maxDepth breadthLimit : Nat) : List GraphNode :=
  let allDeps := nodes.flatMap (fun node =>
    (GraphWalker.bfs g node.id maxDepth ["imports", "calls", "references"]).filter
      (fun dep => dep.id ≠ node.id && dep.type ≠ "file"))
  limitByBreadth prio (dedupeNodes allDeps) (max 1 breadthLimit)

/-- `private getBackwardDependencies`. -/
def getBackwardDependencies (g : CodeGraph) (prio : GraphNode → Rat)
    (nodes : List GraphNode) (maxDepth breadthLimit : Nat) : List GraphNode :=
  let allDependents := nodes.flatMap (fun node =>
    (walkBackward g node.id maxDepth ["imports", "calls", "references"]).filter
      (fun dep => dep.id ≠ node.id && dep.type ≠ "file"))
  limitByBreadth prio (dedupeNodes allDependents) (max 1 breadthLimit)

/-- `startsWith` on character lists. -/
def startsWithList : List Char → List Char → Bool
  | _, [] => true
  | [], _ :: _ => false
  | c :: cs, d :: ds => c = d && startsWithList cs ds

/-- Substring occurrence on character lists. -/
def containsList (s sub : List Char) : Bool :=
  match s with
  | [] => startsWithList [] sub
  | _ :: rest => startsWithList s sub || containsList rest sub

/-- JavaScript `String.prototype.includes`. -/
def jsIncludes (s sub : String) : Bool := containsList s.data sub.data

/-- First character class of the identifier regex `/[a-z_][a-z0-9_]*/gi`. -/
def isIdentStart (c : Char) : Bool := c.isLower || c.isUpper || c = '_'

/-- Continuation character class of the identifier regex. -/
def isIdentChar (c : Char) : Bool := isIdentStart c || c.isDigit

/-- The scan behind `query.match(/[a-z_][a-z0-9_]*/gi)`: left-to-right,
maximal munch, carrying the (reversed) identifier being built. -/
def extractIdentifiersGo (acc : List Char) : List Char → List String
  | [] => if acc.isEmpty then [] else [String.mk acc.reverse]
  | c :: rest =>
      if acc.isEmpty then
        if isIdentStart c then extractIdentifiersGo [c] rest
        else extractIdentifiersGo [] rest
      else
        if isIdentChar c then extractIdentifiersGo (c :: acc) rest
        else String.mk acc.reverse :: extractIdentifiersGo [] rest

/-- `private extractIdentifiers`: all identifier matches in the (lowercased)
query; the `Set` wrapper is modelled by the list, queried via `contains`. -/
def extractIdentifiers (query : String) : List String :=
  extractIdentifiersGo [] query.data

/-- The action keywords of `scoreNodeRelevance`. -/
def actionKeywords : List String :=
  ["fix", "refactor", "change", "update", "modify", "add"]

/-- `private scoreNodeRelevance`. -/
def scoreNodeRelevance (node : GraphNode) (queryLower : String)
    (identifiers : List String) : Int :=
  let nameLower := jsToLowerCase node.name
  (if identifiers.contains nameLower then 10 else 0) +
  (if jsIncludes queryLower nameLower || jsIncludes nameLower queryLower then 5 else 0) +
  (if jsIncludes queryLower node.type then 2 else 0) +
  (if actionKeywords.any (fun a => jsIncludes queryLower a) then 1 else 0)

/-- `private identifyTargetNodes`: throws when the file has no nodes,
otherwise scores the non-file nodes against the query and returns the top 3
scoring above 1, falling back to all functions and classes. -/
def identifyTargetNodes (g : CodeGraph) (query : String) (filePath : String) :
    Except String (List GraphNode) :=
  let fileNodes := CodeGraph.getNodesByPath g filePath
  if fileNodes.length = 0 then
    .error ("No nodes found for file: " ++ filePath)
  else
    let queryLower := jsToLowerCase query
    let mentionedIdentifiers := extractIdentifiers queryLower
    let scored := jsStableSort (fun a b => decide (b.2 ≤ a.2))
      (((fileNodes.filter (fun node => node.type ≠ "file")).map
          (fun node => (node, scoreNodeRelevance node queryLower mentionedIdentifiers))).filter
        (fun s => s.2 > 1))
    let targets :=
      if scored.length > 0 then (scored.take 3).map (·.1)
      else fileNodes.filter (fun n => n.type = "function" || n.type = "class")
    .ok targets

/-- The value-level effect of `n.metadata.category = cat` on a node object. -/
def tagNode (n : GraphNode) (cat : String) : GraphNode :=
  { n with metadata := { n.metadata with category := some cat } }

/-- The graph-level effect of `n.metadata.category = cat`: in the source the
tagged object is the one stored in the graph's node map, so the entry at its
id (when present) receives the category. -/
def tagNodeInGraph (g : CodeGraph) (id : String) (cat : String) : CodeGraph :=
  match JsMap.get? g.nodes id with
  | none => g
  | some stored =>
      let updated := { stored with metadata := { stored.metadata with category := some cat } }
      { g with nodes := JsMap.set g.nodes id updated }

/-- The graph-level effect of `node.embedding = emb`. -/
def writeEmbeddingInGraph (g : CodeGraph) (id : String) (emb : List Rat) : CodeGraph :=
  match JsMap.get? g.nodes id with
  | none => g
  | some stored =>
      let updated := { stored with embedding := some emb }
      { g with nodes := JsMap.set g.nodes id updated }

/-- One filter-with-tagging pass of `deduplicateAndTag` (the `cleanForward`,
`cleanBackward` and `cleanRelated` filters): survivors are tagged with `cat`
both as values and in the graph; nodes whose id is in `excluded` are
dropped untouched. -/
def tagFilterGo (cat : String) (excluded : List String) :
    CodeGraph → List GraphNode → List GraphNode → CodeGraph × List GraphNode
  | g, out, [] => (g, out)
  | g, out, n :: rest =>
      if excluded.contains n.id then tagFilterGo cat excluded g out rest
      else tagFilterGo cat excluded (tagNodeInGraph g n.id cat)
        (out ++ [tagNode n cat]) rest

/-- The tagging filter entry point (`out` starts empty). -/
def tagFilter (cat : String) (excluded : List String) (g : CodeGraph)
    (ns : List GraphNode) : CodeGraph × List GraphNode :=
  tagFilterGo cat excluded g [] ns

/-- One sibling step of the expansion loop of `deduplicateAndTag`. -/
def addSibling (acc2 : CodeGraph × List GraphNode) (sibling : GraphNode) :
    CodeGraph × List GraphNode :=
  if (acc2.2.map (·.id)).contains sibling.id then acc2
  else (tagNodeInGraph acc2.1 sibling.id "related", acc2.2 ++ [tagNode sibling "related"])

/-- The sibling-expansion loop of `deduplicateAndTag`: for every target node,
same-file non-file siblings not already categorised are tagged `related` and
appended. -/
def expandSiblingsGo (excluded : List String) :
    CodeGraph × List GraphNode → List GraphNode → CodeGraph × List GraphNode
  | acc, [] => acc
  | acc, node :: rest =>
      let siblings := (CodeGraph.getNodesByPath acc.1 node.path).filter (fun s =>
        s.id ≠ node.id && ¬ excluded.contains s.id && s.type ≠ "file")
      expandSiblingsGo excluded (siblings.foldl addSibling acc) rest

/-- The sibling-expansion entry point. -/
def expandSiblings (g : CodeGraph) (targets : List GraphNode)
    (excluded : List String) (related : List GraphNode) :
    CodeGraph × List GraphNode :=
  expandSiblingsGo excluded (g, related) targets

/-- `private deduplicateAndTag`: dedupe the four input lists, categorise each
node into exactly one of target > forward > backward > related (tagging
`metadata.category` on the shared node objects), append same-file exported
siblings of targets as related, and apply the breadth limit. -/
def deduplicateAndTag (g : CodeGraph) (prio : GraphNode → Rat)
    (target forward backward related : List GraphNode) (breadthLimit : Nat) :
    CodeGraph × ContextBuckets :=
  let uniqueTarget := dedupeNodes target
  let uniqueForward := dedupeNodes forward
  let uniqueBackward := dedupeNodes backward
  let uniqueRelated := dedupeNodes related
  let targetIds := uniqueTarget.map (·.id)
  let g1 := uniqueTarget.foldl (fun g n => tagNodeInGraph g n.id "target") g
  let taggedTarget := uniqueTarget.map (fun n => tagNode n "target")
  let fw := tagFilter "forward" targetIds g1 uniqueForward
  let cleanForwardIds := fw.2.map (·.id)
  let bw := tagFilter "backward" (targetIds ++ cleanForwardIds) fw.1 uniqueBackward
  let cleanBackwardIds := bw.2.map (·.id)
  let rel0 := tagFilter "related" (targetIds ++ cleanForwardIds ++ cleanBackwardIds)
    bw.1 uniqueRelated
  let rel := expandSiblings rel0.1 uniqueTarget
    (targetIds ++ cleanForwardIds ++ cleanBackwardIds) rel0.2
  (rel.1,
    { target := taggedTarget,
      forward := limitByBreadth prio fw.2 (max 1 breadthLimit),
      backward := limitByBreadth prio bw.2 (max 1 breadthLimit),
      related := limitByBreadth prio rel.2 (max 1 breadthLimit) })

/-- One scoring step of `rankByEmbedding`: reuse a present embedding, or
compute one, store it in the graph and in the node object, then append the
scored pair. -/
def rankFoldStep (embed : String → List Rat) (sim : List Rat → List Rat → Rat)
    (queryEmbedding : List Rat) (acc : CodeGraph × List (GraphNode × Rat))
    (node : GraphNode) : CodeGraph × List (GraphNode × Rat) :=
  match node.embedding with
  | some emb => (acc.1, acc.2 ++ [(node, sim queryEmbedding emb)])
  | none =>
      let emb := embed node.content
      let node1 := { node with embedding := some emb }
      (writeEmbeddingInGraph acc.1 node.id emb,
        acc.2 ++ [(node1, sim queryEmbedding emb)])

/-- `private rankByEmbedding`: scores every node against the query embedding
(computing and storing `node.embedding` for nodes that lack one — a mutation
of the shared graph objects), sorts descending, takes `topK`.  The embedder
and the floating-point cosine similarity are parameters. -/
def rankByEmbedding (embed : String → List Rat) (sim : List Rat → List Rat → Rat)
    (embeddingsEnabled : Bool) (g : CodeGraph) (nodes : List GraphNode)
    (queryEmbedding : List Rat) (topK : Nat) :
    CodeGraph × List GraphNode × List Rat :=
  if ¬ embeddingsEnabled then (g, [], [])
  else
    let folded := nodes.foldl (rankFoldStep embed sim queryEmbedding) (g, [])
    let top := (jsStableSort (fun a b => decide (b.2 ≤ a.2)) folded.2).take topK
    (folded.1, top.map (·.1), top.map (·.2))

/-- The loop of `dedupStrings`. -/
def dedupStringsGo (seen : List String) : List String → List String
  | [] => []
  | x :: rest =>
      if seen.contains x then dedupStringsGo seen rest
      else x :: dedupStringsGo (x :: seen) rest

/-- `Array.from(new Set(list))`: deduplicate keeping first occurrences. -/
def dedupStrings (l : List String) : List String := dedupStringsGo [] l

/-- `private combineSourceScores`: per-source totals over the candidates
(object keys visited in `ANN`, `BM25` order). -/
def combineSourceScores (candidates : List TargetCandidate) : CandidateSourceScores :=
  candidates.foldl (fun totals c =>
    let totals1 :=
      match c.sourceScores.ann with
      | none => totals
      | some v => { totals with ann := some (totals.ann.getD 0 + v) }
    match c.sourceScores.bm25 with
    | none => totals1
    | some v => { totals1 with bm25 := some (totals1.bm25.getD 0 + v) }) {}

/-- `private estimateFullContext`: three times the token count of the file's
concatenated node contents. -/
def estimateFullContext (g : CodeGraph) (filePath : String) : Nat :=
  TokenCounter.count (joinWith "\n" ((CodeGraph.getNodesByPath g filePath).map (·.content))) * 3

/-- The effectful collaborators of `DependencyAwareRetriever`, abstracted:
`resolve` is `TargetResolver.resolve` (query, `recentPaths`, `limit`);
`semanticCtx` is `getSemanticContext` (graph state first, since it may write
embeddings into graph nodes); `prio` is the floating-point
`dependencyPriority`. -/
structure RetrieverEnv where
  resolve : String → List String → Nat → TargetResolution
  semanticCtx : CodeGraph → String → List GraphNode → Nat → CodeGraph × List GraphNode
  prio : GraphNode → Rat

/-- The `fallbackPaths` of `buildContextForChange`: explicit candidate paths,
then the explicit target path, empty strings dropped (`filter(Boolean)`). -/
def fallbackPathsOf (targetFilePath : Option String) (options : BuildContextOptions) :
    List String :=
  ((options.candidateFilePaths.getD []) ++ targetFilePath.toList).filter (fun p => p ≠ "")

/-- The resolved primary file path of `buildContextForChange`:
`resolution.primary?.path ?? fallbackPaths[0]`. -/
def resolvedPrimaryPath (env : RetrieverEnv) (query : String)
    (targetFilePath : Option String) (options : BuildContextOptions) : Option String :=
  match (env.resolve query (fallbackPathsOf targetFilePath options) 5).primary with
  | some c => some c.path
  | none => (fallbackPathsOf targetFilePath options).head?


/-- Steps 1 and 2 of target-node discovery in `buildContextForChange`:
resolver-seeded nodes re-read from the graph, else `identifyTargetNodes`
(which raises when the file has no nodes). -/
def retrieverTargetStep (g : CodeGraph) (resolution : TargetResolution)
    (query primaryFilePath : String) : Except String (List GraphNode) :=
  let targetNodes0 :=
    match resolution.primary with
    | some c =>
        if c.nodes.length > 0 then c.nodes.filterMap (fun n => CodeGraph.getNode g n.id)
        else []
    | none => []
  if targetNodes0.length = 0 then identifyTargetNodes g query primaryFilePath
  else .ok targetNodes0

/-- The body of `buildContextForChange` after the primary path and the initial
target nodes have been determined: the final file-node fallback, dependency
walks, semantic/seeded related context, tagging, budget packing, formatting
and telemetry, returning the updated graph with the `DependencyContext`. -/
def buildContextCore (env : RetrieverEnv) (g : CodeGraph) (query : String)
    (targetFilePath : Option String) (maxTokens : Rat) (options : BuildContextOptions)
    (primaryFilePath : String) (targetNodes1 : List GraphNode) :
    CodeGraph × DependencyContext :=
  let tokenBudget := clampTokenBudget maxTokens
  let fallbackPaths := fallbackPathsOf targetFilePath options
  let walkDepth := options.walkDepth.getD 2
  let relatedLimit := options.relatedLimit.getD 5
  let breadthLimit := options.breadthLimit.getD 3
  let resolution := env.resolve query fallbackPaths 5
  let candidatePaths := dedupStrings
    ([primaryFilePath] ++ fallbackPaths ++ resolution.candidates.map (·.path))
  let targetNodes :=
    if targetNodes1.length = 0 then
      let fileNodes := CodeGraph.getNodesByPath g primaryFilePath
      let t2 := fileNodes.filter (fun node => node.type ≠ "file")
      if t2.length = 0 ∧ fileNodes.length > 0 then fileNodes.take 1 else t2
    else targetNodes1
  let forwardDeps := getForwardDependencies g env.prio targetNodes walkDepth breadthLimit
  let backwardDeps := getBackwardDependencies g env.prio targetNodes walkDepth breadthLimit
  let allExistingNodes := targetNodes ++ forwardDeps ++ backwardDeps
  let sem := env.semanticCtx g query allExistingNodes relatedLimit
  let seededRelated := ((resolution.candidates.drop 1).flatMap (·.nodes)).filterMap
    (fun n => CodeGraph.getNode sem.1 n.id)
  let relatedByQuery := sem.2 ++ seededRelated
  let dd := deduplicateAndTag sem.1 env.prio targetNodes forwardDeps backwardDeps
    relatedByQuery breadthLimit
  let finalContext := buildWithinBudget dd.2.target dd.2.forward dd.2.backward
    dd.2.related tokenBudget
  let formattedContext := formatContext finalContext
  let totalTokens := TokenCounter.count formattedContext
  let fullContextTokens := estimateFullContext dd.1 primaryFilePath
  let tokensSaved : Int := max 0 ((fullContextTokens : Int) - (totalTokens : Int))
  let savingsPercent : Rat :=
    if fullContextTokens > 0 then ((tokensSaved : Rat) / (fullContextTokens : Rat)) * 100
    else 0
  let telemetry : ContextTelemetry :=
    { targetResolution :=
        { primaryPath := resolution.primary.map (·.path),
          candidateCount := resolution.candidates.length,
          sourceScores := (resolution.primary.map (·.sourceScores)).getD {},
          aggregateSourceScores := combineSourceScores resolution.candidates },
      tokens :=
        { budget := tokenBudget, used := totalTokens, saved := tokensSaved,
          savingsPercent := savingsPercent } }
  (dd.1,
    { targetNodes := finalContext.target,
      forwardDeps := finalContext.forward,
      backwardDeps := finalContext.backward,
      relatedByQuery := finalContext.related,
      totalTokens := totalTokens,
      tokensUsed := totalTokens,
      formattedContext := formattedContext,
      tokensSaved := tokensSaved,
      savingsPercent := savingsPercent,
      searchType := "dependency-aware",
      primaryFilePath := primaryFilePath,
      candidateFilePaths := candidatePaths,
      telemetry := telemetry })

/-- `DependencyAwareRetriever.buildContextForChange(query, targetFilePath,
maxTokens, options)`: resolve the primary file path (raising when it is
missing or empty, `if (!primaryFilePath) throw`), determine target nodes
(possibly raising), then run the remaining pipeline.  Returns the built
`DependencyContext` together with the updated graph (the source mutates the
shared graph in place). -/
def buildContextForChange (env : RetrieverEnv) (g : CodeGraph) (query : String)
    (targetFilePath : Option String) (maxTokens : Rat)
    (options : BuildContextOptions) :
    Except String (CodeGraph × DependencyContext) :=
  match (resolvedPrimaryPath env query targetFilePath options).filter
      (fun p => decide (p ≠ "")) with
  | none => .error "Unable to determine target file for this request."
  | some primaryFilePath =>
      match retrieverTargetStep g
          (env.resolve query (fallbackPathsOf targetFilePath options) 5)
          query primaryFilePath with
      | .error e => .error e
      | .ok targetNodes1 =>
          .ok (buildContextCore env g query targetFilePath maxTokens options
            primaryFilePath targetNodes1)

/-- The primary file path recorded in a successfully built context is the one
`buildContextCore` was invoked with. -/
theorem buildContextCore_primaryFilePath (env : RetrieverEnv) (g : CodeGraph)
    (query : String) (targetFilePath : Option String) (maxTokens : Rat)
    (options : BuildContextOptions) (p : String) (t1 : List GraphNode) :
    (buildContextCore env g query targetFilePath maxTokens options p t1).2.primaryFilePath
      = p := rfl

/-- The telemetry budget recorded by `buildContextCore` is the clamped
requested budget. -/
theorem buildContextCore_budget (env : RetrieverEnv) (g : CodeGraph)
    (query : String) (targetFilePath : Option String) (maxTokens : Rat)
    (options : BuildContextOptions) (p : String) (t1 : List GraphNode) :
    (buildContextCore env g query targetFilePath maxTokens options p t1).2.telemetry.tokens.budget
      = clampTokenBudget maxTokens := rfl

/-- Case analysis of `buildContextForChange` on the resolved primary path and
the target-node step. -/
theorem buildContextForChange_ok_iff (env : RetrieverEnv) (g : CodeGraph)
    (query : String) (targetFilePath : Option String) (maxTokens : Rat)
    (options : BuildContextOptions) (out : CodeGraph × DependencyContext) :
    buildContextForChange env g query targetFilePath maxTokens options = .ok out ↔
      ∃ p t1, (resolvedPrimaryPath env query targetFilePath options).filter
          (fun p => decide (p ≠ "")) = some p ∧
        retrieverTargetStep g
          (env.resolve query (fallbackPathsOf targetFilePath options) 5) query p
          = .ok t1 ∧
        out = buildContextCore env g query targetFilePath maxTokens options p t1 := by
  unfold buildContextForChange
  cases hf : (resolvedPrimaryPath env query targetFilePath options).filter
      (fun p => decide (p ≠ "")) with
  | none =>
      simp only []
      constructor
      · intro h; exact Except.noConfusion h
      · rintro ⟨p, t1, hp, -, -⟩; exact Option.noConfusion hp
  | some p =>
      simp only []
      cases hs : retrieverTargetStep g
          (env.resolve query (fallbackPathsOf targetFilePath options) 5) query p with
      | error e =>
          simp only []
          constructor
          · intro h; exact Except.noConfusion h
          · rintro ⟨p', t1, hp', hs', -⟩
            rw [Option.some.injEq] at hp'
            subst hp'
            rw [hs] at hs'
            exact Except.noConfusion hs'
      | ok t1 =>
          simp only []
          constructor
          · intro h
            refine ⟨p, t1, rfl, hs, ?_⟩
            exact (Except.ok.injEq _ _ ▸ h).symm
          · rintro ⟨p', t1', hp', hs', hout⟩
            rw [Option.some.injEq] at hp'
            subst hp'
            rw [hs] at hs'
            rw [Except.ok.injEq] at hs'
            subst hs'
            rw [hout]

/-- A concrete function node used in the retriever scenarios. -/
def crNode : GraphNode :=
  { id := "n1", type := "function", name := "f", path := "b.ts",
    content := "function f() {}", startLine := 1, endLine := 1 }

/-- A one-node graph holding `crNode`. -/
def crGraph : CodeGraph := CodeGraph.upsertNode {} crNode

/-- A resolver candidate pointing at `crNode`'s file. -/
def crCandidate : TargetCandidate := { path := "b.ts", nodes := [crNode] }

/-- A retriever environment whose resolver always returns `crCandidate` as the
primary candidate. -/
def crEnv : RetrieverEnv :=
  { resolve := fun _ _ _ => { primary := some crCandidate, candidates := [crCandidate] },
    semanticCtx := fun g _ _ _ => (g, []),
    prio := fun _ => 0 }

/-- A retriever environment whose resolver finds nothing. -/
def crNoneEnv : RetrieverEnv :=
  { resolve := fun _ _ _ => {},
    semanticCtx := fun g _ _ _ => (g, []),
    prio := fun _ => 0 }

/-- A retriever environment whose resolver returns a primary candidate with an
empty path. -/
def crEmptyEnv : RetrieverEnv :=
  { resolve := fun _ _ _ => { primary := some { path := "" } },
    semanticCtx := fun g _ _ _ => (g, []),
    prio := fun _ => 0 }

/-- C1: counterexample.  The claimed precedence puts the explicit
`targetFilePath` argument first, but `buildContextForChange` computes
`resolution.primary?.path ?? fallbackPaths[0]`: with an explicit target file
`"a.ts"` and a resolver whose primary candidate is `"b.ts"`, the built context
reports primary file `"b.ts"`, not the explicit `"a.ts"`. -/
theorem claim_C1_counterexample :
    (buildContextForChange crEnv crGraph "change f" (some "a.ts") 8000 {}).toOption.map
        (fun r => r.2.primaryFilePath) = some "b.ts" ∧
    ("b.ts" : String) ≠ "a.ts" := by
  exact ⟨rfl, by decide⟩

/-- C1 (amended): in `buildContextForChange` the target file is resolved with
precedence resolver primary candidate first, then the first non-empty path in
explicit candidate paths followed by the explicit `targetFilePath`; every
successful call reports that path, and when it is missing the call fails with
the raised message (it also fails when the resolved path is empty). -/
theorem claim_C1_amended (env : RetrieverEnv) (g : CodeGraph) (query : String)
    (targetFilePath : Option String) (maxTokens : Rat) (options : BuildContextOptions) :
    (∀ out, buildContextForChange env g query targetFilePath maxTokens options = .ok out →
        resolvedPrimaryPath env query targetFilePath options = some out.2.primaryFilePath) ∧
    (∀ c, (env.resolve query (fallbackPathsOf targetFilePath options) 5).primary = some c →
        resolvedPrimaryPath env query targetFilePath options = some c.path) ∧
    ((env.resolve query (fallbackPathsOf targetFilePath options) 5).primary = none →
        resolvedPrimaryPath env query targetFilePath options =
          (fallbackPathsOf targetFilePath options).head?) ∧
    (resolvedPrimaryPath env query targetFilePath options = none →
        buildContextForChange env g query targetFilePath maxTokens options =
          .error "Unable to determine target file for this request.") ∧
    (resolvedPrimaryPath env query targetFilePath options = some "" →
        buildContextForChange env g query targetFilePath maxTokens options =
          .error "Unable to determine target file for this request.") := by
  refine ⟨?_, ?_, ?_, ?_, ?_⟩
  · intro out h
    obtain ⟨p, t1, hp, hs, hout⟩ :=
      (buildContextForChange_ok_iff env g query targetFilePath maxTokens options out).mp h
    rw [hout, buildContextCore_primaryFilePath]
    cases ho : resolvedPrimaryPath env query targetFilePath options with
    | none => rw [ho] at hp; exact Option.noConfusion hp
    | some q =>
        rw [ho] at hp
        by_cases hq : q = ""
        · rw [hq] at hp
          rw [show Option.filter (fun p => decide (p ≠ "")) (some "") = none from rfl] at hp
          exact Option.noConfusion hp
        · have hfq : Option.filter (fun p => decide (p ≠ "")) (some q) = some q := by
            simp [Option.filter, hq]
          rw [hfq] at hp
          exact hp
  · intro c h
    unfold resolvedPrimaryPath
    rw [h]
  · intro h
    unfold resolvedPrimaryPath
    rw [h]
  · intro h
    unfold buildContextForChange
    rw [h]
    rfl
  · intro h
    unfold buildContextForChange
    rw [h]
    rfl

/-- C1 (amended) at concrete inputs: the resolver primary wins on a successful
run, a resolver returning nothing falls back to the explicit paths, and a
missing or empty resolved path makes the call fail. -/
theorem claim_C1_witness :
    resolvedPrimaryPath crEnv "change f" (some "a.ts") {} = some "b.ts" ∧
    (buildContextForChange crEnv crGraph "change f" (some "a.ts") 8000 {}).toOption.elim
      False (fun r =>
        resolvedPrimaryPath crEnv "change f" (some "a.ts") {} = some r.2.primaryFilePath) ∧
    resolvedPrimaryPath crNoneEnv "change f" none {} = none ∧
    buildContextForChange crNoneEnv crGraph "change f" none 8000 {} =
      .error "Unable to determine target file for this request." ∧
    buildContextForChange crEmptyEnv crGraph "change f" none 8000 {} =
      .error "Unable to determine target file for this request." := by
  have hrun : buildContextForChange crEnv crGraph "change f" (some "a.ts") 8000 {} =
      Except.ok (buildContextCore crEnv crGraph "change f" (some "a.ts") 8000 {}
        "b.ts" [crNode]) := rfl
  refine ⟨(claim_C1_amended crEnv crGraph "change f" (some "a.ts") 8000 {}).2.1
      crCandidate rfl, ?_, ?_, ?_, ?_⟩
  · rw [hrun]
    exact (claim_C1_amended crEnv crGraph "change f" (some "a.ts") 8000 {}).1 _ hrun
  · exact ((claim_C1_amended crNoneEnv crGraph "change f" none 8000 {}).2.2.1 rfl).trans rfl
  · exact (claim_C1_amended crNoneEnv crGraph "change f" none 8000 {}).2.2.2.1 rfl
  · exact (claim_C1_amended crEmptyEnv crGraph "change f" none 8000 {}).2.2.2.2 rfl

/-- C6: for every requested `maxTokens`, the clamped budget lies in
`[6000, 12000]`; every successfully built context reports the clamped value as
`telemetry.tokens.budget`; and requesting 4000 clamps to 6000. -/
theorem claim_C6 (env : RetrieverEnv) (g : CodeGraph) (query : String)
    (targetFilePath : Option String) (maxTokens : Rat) (options : BuildContextOptions) :
    (6000 ≤ clampTokenBudget maxTokens ∧ clampTokenBudget maxTokens ≤ 12000) ∧
    (∀ out, buildContextForChange env g query targetFilePath maxTokens options = .ok out →
        out.2.telemetry.tokens.budget = clampTokenBudget maxTokens) ∧
    clampTokenBudget 4000 = 6000 := by
  refine ⟨⟨?_, ?_⟩, ?_, ?_⟩
  · exact le_min (by norm_num) (le_max_left _ _)
  · exact min_le_left _ _
  · intro out h
    obtain ⟨p, t1, hp, hs, hout⟩ :=
      (buildContextForChange_ok_iff env g query targetFilePath maxTokens options out).mp h
    rw [hout, buildContextCore_budget]
  · decide

/-- C6 at concrete inputs: a successful run with requested budget 4000 reports
budget 6000. -/
theorem claim_C6_witness :
    clampTokenBudget 4000 = 6000 ∧
    (buildContextForChange crEnv crGraph "change f" (some "a.ts") 4000 {}).toOption.elim
      False (fun r => r.2.telemetry.tokens.budget = clampTokenBudget 4000) := by
  have hrun : buildContextForChange crEnv crGraph "change f" (some "a.ts") 4000 {} =
      Except.ok (buildContextCore crEnv crGraph "change f" (some "a.ts") 4000 {}
        "b.ts" [crNode]) := rfl
  refine ⟨(claim_C6 crEnv crGraph "change f" (some "a.ts") 4000 {}).2.2, ?_⟩
  rw [hrun]
  exact (claim_C6 crEnv crGraph "change f" (some "a.ts") 4000 {}).2.1 _ hrun


set_option maxHeartbeats 1000000 in
/-- Generically, the reported `totalTokens` is the token count of the reported
formatted context. -/
theorem buildContextCore_totalTokens (env : RetrieverEnv) (g : CodeGraph)
    (query : String) (tfp : Option String) (mt : Rat) (opts : BuildContextOptions)
    (p : String) (t1 : List GraphNode) :
    (buildContextCore env g query tfp mt opts p t1).2.totalTokens =
      TokenCounter.count (buildContextCore env g query tfp mt opts p t1).2.formattedContext :=
  rfl

set_option maxHeartbeats 1000000 in
/-- Generically, the reported formatted context is `formatContext` of the four
reported node buckets. -/
theorem buildContextCore_formatted (env : RetrieverEnv) (g : CodeGraph)
    (query : String) (tfp : Option String) (mt : Rat) (opts : BuildContextOptions)
    (p : String) (t1 : List GraphNode) :
    (buildContextCore env g query tfp mt opts p t1).2.formattedContext =
      formatContext
        { target := (buildContextCore env g query tfp mt opts p t1).2.targetNodes,
          forward := (buildContextCore env g query tfp mt opts p t1).2.forwardDeps,
          backward := (buildContextCore env g query tfp mt opts p t1).2.backwardDeps,
          related := (buildContextCore env g query tfp mt opts p t1).2.relatedByQuery } :=
  rfl

/-- A function node whose content is long enough that its token estimate alone
exceeds the maximal budget. -/
def c3Node : GraphNode :=
  { id := "c3", type := "function", name := "f", path := "big.ts",
    content := String.mk (List.replicate 24200 'a'), startLine := 1, endLine := 2 }

/-- A one-node graph holding `c3Node`. -/
def c3Graph : CodeGraph := CodeGraph.upsertNode {} c3Node

/-- A retriever environment resolving every query to `c3Node`'s file. -/
def c3Env : RetrieverEnv :=
  { resolve := fun _ _ _ => { primary := some { path := "big.ts", nodes := [c3Node] } },
    semanticCtx := fun g _ _ _ => (g, []),
    prio := fun _ => 0 }

/-- `TokenCounter.count` of a 24280-character string. -/
theorem c3CountOfLen (s : String) (h : s.length = 24280) : TokenCounter.count s = 6070 := by
  unfold TokenCounter.count
  rw [h]

set_option maxHeartbeats 4000000 in
/-- C3: counterexample.  A context built by `buildContextForChange` with a
single oversized target node and the minimal legal budget 6000 reports 6070
formatted tokens: target nodes are packed unconditionally and the section
headers are not counted, so the token count of the formatted output exceeds
the budget. -/
theorem claim_C3_counterexample :
    clampTokenBudget 6000 = 6000 ∧
    ∃ r, buildContextForChange c3Env c3Graph "q" none 6000 {} = .ok r ∧
      r.2.telemetry.tokens.budget = 6000 ∧
      r.2.targetNodes = [tagNode c3Node "target"] ∧
      r.2.totalTokens = 6070 ∧ 6000 < 6070 := by
  have hclamp : clampTokenBudget 6000 = 6000 := by decide
  have hrun : buildContextForChange c3Env c3Graph "q" none 6000 {} =
      .ok (buildContextCore c3Env c3Graph "q" none 6000 {} "big.ts" [c3Node]) := rfl
  have htgt : (buildContextCore c3Env c3Graph "q" none 6000 {} "big.ts" [c3Node]).2.targetNodes
      = [tagNode c3Node "target"] := rfl
  have hfwd : (buildContextCore c3Env c3Graph "q" none 6000 {} "big.ts" [c3Node]).2.forwardDeps
      = [] := rfl
  have hbwd : (buildContextCore c3Env c3Graph "q" none 6000 {} "big.ts" [c3Node]).2.backwardDeps
      = [] := rfl
  have hrel : (buildContextCore c3Env c3Graph "q" none 6000 {} "big.ts"
      [c3Node]).2.relatedByQuery = [] := rfl
  have hfc : formatContext
        { target := [tagNode c3Node "target"], forward := [], backward := [], related := [] }
      = "# TARGET CODE (being modified)\n" ++ "\n" ++ formatNode (tagNode c3Node "target") :=
    rfl
  have hlen : ("# TARGET CODE (being modified)\n" ++ "\n"
      ++ formatNode (tagNode c3Node "target")).length = 24280 := by
    have hform : formatNode (tagNode c3Node "target") =
        ("## function: f\nFile: big.ts\nLines: 1-2\n\n```\n"
          ++ String.mk (List.replicate 24200 'a')) ++ "\n```" := rfl
    have hcontent : (String.mk (List.replicate 24200 'a')).length = 24200 := by
      show (List.replicate 24200 'a').length = 24200
      exact List.length_replicate 24200 'a'
    have hfn : (formatNode (tagNode c3Node "target")).length = 24248 := by
      rw [hform, String.length_append, String.length_append, hcontent]
      decide
    rw [String.length_append, String.length_append, hfn]
    decide
  have hts : (buildContextCore c3Env c3Graph "q" none 6000 {} "big.ts" [c3Node]).2.totalTokens
      = TokenCounter.count (formatContext
        { target := [tagNode c3Node "target"], forward := [], backward := [], related := [] }) := by
    rw [buildContextCore_totalTokens, buildContextCore_formatted, htgt, hfwd, hbwd, hrel]
  have hct : TokenCounter.count (formatContext
      { target := [tagNode c3Node "target"], forward := [], backward := [], related := [] })
      = 6070 := by
    rw [hfc]
    exact c3CountOfLen _ hlen
  refine ⟨hclamp, buildContextCore c3Env c3Graph "q" none 6000 {} "big.ts" [c3Node],
    hrun, ?_, htgt, hts.trans hct, by norm_num⟩
  rw [buildContextCore_budget, hclamp]

/-- The packer's internal token accounting of a bucket assignment: the
estimate of the target block plus the per-node estimates of every admitted
backward, forward and related node (the quantity `buildWithinBudget` tracks in
`currentTokens`). -/
def packEstimate (c : ContextBuckets) : Rat :=
  (estimateTokens c.target : Rat) +
  (((c.backward ++ c.forward ++ c.related).map (fun n => (estimateTokens [n] : Rat))).sum)

/-- One packing loop appends a sublist of its stage nodes, adds exactly the
admitted nodes' estimates to the running count, and never lets the count
grow beyond `max` of its starting value and the stage cap. -/
theorem packStage_spec (cap : Rat) (nodes : List GraphNode) :
    ∀ (l0 : List GraphNode) (t0 : Nat),
      ∃ added : List GraphNode,
        (packStage cap nodes (l0, t0)).1 = l0 ++ added ∧
        ((packStage cap nodes (l0, t0)).2 : Rat) =
          (t0 : Rat) + (added.map (fun n => (estimateTokens [n] : Rat))).sum ∧
        ((packStage cap nodes (l0, t0)).2 : Rat) ≤ max (t0 : Rat) cap := by
  induction nodes with
  | nil =>
      intro l0 t0
      exact ⟨[], by simp [packStage], by simp [packStage], by simp [packStage]⟩
  | cons n rest ih =>
      intro l0 t0
      have hstep : packStage cap (n :: rest) (l0, t0) =
          if ((t0 + estimateTokens [n] : Nat) : Rat) ≤ cap then
            packStage cap rest (l0 ++ [n], t0 + estimateTokens [n])
          else packStage cap rest (l0, t0) := by
        by_cases hc : ((t0 + estimateTokens [n] : Nat) : Rat) ≤ cap
        · rw [if_pos hc]
          unfold packStage
          rw [List.foldl_cons]
          congr 1
          simp only [if_pos hc]
        · rw [if_neg hc]
          unfold packStage
          rw [List.foldl_cons]
          congr 1
          simp only [if_neg hc]
      by_cases hc : ((t0 + estimateTokens [n] : Nat) : Rat) ≤ cap
      · rw [hstep, if_pos hc]
        obtain ⟨added, h1, h2, h3⟩ := ih (l0 ++ [n]) (t0 + estimateTokens [n])
        refine ⟨n :: added, ?_, ?_, ?_⟩
        · rw [h1, List.append_assoc]
          rfl
        · rw [h2]
          simp only [List.map_cons, List.sum_cons]
          push_cast
          ring
        · refine h3.trans ?_
          rw [max_eq_right hc]
          exact le_max_right _ _
      · rw [hstep, if_neg hc]
        exact ih l0 t0

/-- C3 (amended): for a non-negative budget, every target node is present in
the packed context unconditionally, and the packer's internal token estimate
(`packEstimate`) never exceeds `max` of the target block's own estimate and
the budget; the token count of the full formatted output, however, can exceed
the budget (see the counterexample). -/
theorem claim_C3_amended (target forward backward related : List GraphNode)
    (maxTokens : Int) (hM : 0 ≤ maxTokens) :
    (buildWithinBudget target forward backward related maxTokens).target = target ∧
    packEstimate (buildWithinBudget target forward backward related maxTokens)
      ≤ max ((estimateTokens target : Rat)) ((maxTokens : Rat)) := by
  obtain ⟨addB, hB1, hB2, hB3⟩ :=
    packStage_spec ((maxTokens : Rat) * (8/10)) backward [] (estimateTokens target)
  obtain ⟨addF, hF1, hF2, hF3⟩ :=
    packStage_spec ((maxTokens : Rat) * (95/100)) forward []
      ((packStage ((maxTokens : Rat) * (8/10)) backward ([], estimateTokens target)).2)
  obtain ⟨addR, hR1, hR2, hR3⟩ :=
    packStage_spec ((maxTokens : Rat)) related []
      ((packStage ((maxTokens : Rat) * (95/100)) forward ([],
        (packStage ((maxTokens : Rat) * (8/10)) backward ([], estimateTokens target)).2)).2)
  have hbb : buildWithinBudget target forward backward related maxTokens =
      { target := target,
        forward := (packStage ((maxTokens : Rat) * (95/100)) forward ([],
          (packStage ((maxTokens : Rat) * (8/10)) backward ([], estimateTokens target)).2)).1,
        backward := (packStage ((maxTokens : Rat) * (8/10)) backward
          ([], estimateTokens target)).1,
        related := (packStage ((maxTokens : Rat)) related ([],
          (packStage ((maxTokens : Rat) * (95/100)) forward ([],
            (packStage ((maxTokens : Rat) * (8/10)) backward
              ([], estimateTokens target)).2)).2)).1 } := rfl
  refine ⟨by rw [hbb], ?_⟩
  rw [hbb]
  unfold packEstimate
  dsimp only
  rw [hB1, hF1, hR1]
  simp only [List.nil_append, List.map_append, List.sum_append]
  have hM' : (0 : Rat) ≤ (maxTokens : Rat) := by exact_mod_cast hM
  have h08 : (maxTokens : Rat) * (8/10) ≤ (maxTokens : Rat) := by nlinarith
  have h095 : (maxTokens : Rat) * (95/100) ≤ (maxTokens : Rat) := by nlinarith
  have hbw2 : ((packStage ((maxTokens : Rat) * (8/10)) backward
      ([], estimateTokens target)).2 : Rat)
      ≤ max ((estimateTokens target : Nat) : Rat) ((maxTokens : Rat)) :=
    hB3.trans (max_le (le_max_left _ _) (h08.trans (le_max_right _ _)))
  have hfw2 : ((packStage ((maxTokens : Rat) * (95/100)) forward ([],
      (packStage ((maxTokens : Rat) * (8/10)) backward ([], estimateTokens target)).2)).2 : Rat)
      ≤ max ((estimateTokens target : Nat) : Rat) ((maxTokens : Rat)) :=
    hF3.trans (max_le hbw2 (h095.trans (le_max_right _ _)))
  have hrel2 : ((packStage ((maxTokens : Rat)) related ([],
      (packStage ((maxTokens : Rat) * (95/100)) forward ([],
        (packStage ((maxTokens : Rat) * (8/10)) backward
          ([], estimateTokens target)).2)).2)).2 : Rat)
      ≤ max ((estimateTokens target : Nat) : Rat) ((maxTokens : Rat)) :=
    hR3.trans (max_le hfw2 (le_max_right _ _))
  linarith [hB2, hF2, hR2, hrel2]

/-- C3 (amended) at concrete inputs: with one small target node, one candidate
related node and budget 6000 the target is kept and the packer estimate is
bounded. -/
theorem claim_C3_witness :
    (buildWithinBudget [crNode] [] [] [c3Node] 6000).target = [crNode] ∧
    packEstimate (buildWithinBudget [crNode] [] [] [c3Node] 6000)
      ≤ max ((estimateTokens [crNode] : Rat)) (((6000 : Int) : Rat)) :=
  claim_C3_amended [crNode] [] [] [c3Node] 6000 (by decide)

/-- JavaScript `String.prototype.trim` (strip whitespace from both ends). -/
def jsTrim (s : String) : String :=
  String.mk (((s.data.dropWhile Char.isWhitespace).reverse.dropWhile Char.isWhitespace).reverse)

/-- `new Set(list)` (insertion-order set of strings). -/
def jsSetOfList (l : List String) : JsSet := l.foldl JsSet.add []

/-- `GroundTruth`. -/
structure GroundTruth where
  relevantPaths : List String
  deriving Repr, DecidableEq

/-- `EvaluationAgentConfig` (thresholds are JavaScript numbers, modelled as
rationals). -/
structure EvaluationAgentConfig where
  precisionThreshold : Rat
  recallThreshold : Rat
  maxK : Option Nat := none
  coverageThreshold : Option Rat := none
  deriving Repr, DecidableEq

/-- `EvaluationMetrics`. -/
structure EvaluationMetrics where
  precisionAtK : Rat
  recallAtK : Rat
  f1 : Rat
  coverage : Rat
  candidateCount : Nat
  deriving Repr, DecidableEq

/-- `EvaluationDecision`.  The `notes` field (display-only strings produced
with floating-point `toFixed` formatting) is omitted; `actions` are the
action-union strings. -/
structure EvaluationDecision where
  metrics : EvaluationMetrics
  pass : Bool
  actions : List String
  deriving Repr, DecidableEq

/-- `EvaluationSample`. -/
structure EvaluationSample where
  query : String
  resolution : TargetResolution
  context : DependencyContext
  groundTruth : GroundTruth
  iteration : Nat
  deriving Repr, DecidableEq

/-- The `truth` set of `EvaluationAgent.evaluate`. -/
def evalTruth (gt : GroundTruth) : JsSet :=
  jsSetOfList (gt.relevantPaths.map (fun p => jsTrim p))

/-- The `k` of `EvaluationAgent.evaluate`:
`Math.max(1, Math.min(maxK ?? candidates.length, candidates.length))`. -/
def evalK (config : EvaluationAgentConfig) (candidates : List TargetCandidate) : Nat :=
  max 1 (min (config.maxK.getD candidates.length) candidates.length)

/-- The `hits` loop of `EvaluationAgent.evaluate`: one increment per top-K
candidate whose path is in the truth set. -/
def evalHits (truth : JsSet) (topK : List TargetCandidate) : Nat :=
  (topK.filter (fun c => truth.contains c.path)).length

/-- `EvaluationAgent.evaluate(sample)` for an agent constructed with
`config`. -/
def EvaluationAgent.evaluate (config : EvaluationAgentConfig)
    (sample : EvaluationSample) : EvaluationDecision :=
  let candidates := sample.resolution.candidates
  let truth := evalTruth sample.groundTruth
  let k := evalK config candidates
  let topK := candidates.take k
  let hits := evalHits truth topK
  let precisionAtK : Rat := if k = 0 then 0 else (hits : Rat) / (k : Rat)
  let recallAtK : Rat := if truth.length = 0 then 1 else (hits : Rat) / (truth.length : Rat)
  let f1 : Rat :=
    if precisionAtK + recallAtK = 0 then 0
    else (2 * precisionAtK * recallAtK) / (precisionAtK + recallAtK)
  let coverage : Rat :=
    if sample.context.telemetry.tokens.budget = 0 then 0
    else (sample.context.telemetry.tokens.used : Rat) /
      ((sample.context.telemetry.tokens.budget : Int) : Rat)
  let metrics : EvaluationMetrics :=
    { precisionAtK := precisionAtK, recallAtK := recallAtK, f1 := f1,
      coverage := coverage, candidateCount := candidates.length }
  let actions1 :=
    if precisionAtK < config.precisionThreshold then
      ["enable_cross_encoder", "increase_walk_depth", "expand_related"]
    else []
  let actions2 := actions1 ++
    (if precisionAtK < min (4/10 : Rat) config.precisionThreshold then
      ["increase_token_budget"] else [])
  let actions3 := actions2 ++
    (if recallAtK < config.recallThreshold then
      ["increase_walk_depth", "expand_related"] else [])
  let actions4 := actions3 ++
    (if coverage > config.coverageThreshold.getD (85/100 : Rat) then
      ["increase_token_budget"] else [])
  let pass := decide (config.precisionThreshold ≤ precisionAtK) &&
    decide (config.recallThreshold ≤ recallAtK)
  { metrics := metrics, pass := pass, actions := dedupStrings actions4 }

/-- The reported precision is `hits / k` (with the vacuous `k = 0` guard of
the source). -/
theorem evaluate_precisionAtK (config : EvaluationAgentConfig)
    (sample : EvaluationSample) :
    (EvaluationAgent.evaluate config sample).metrics.precisionAtK =
      if evalK config sample.resolution.candidates = 0 then 0
      else ((evalHits (evalTruth sample.groundTruth)
          (sample.resolution.candidates.take (evalK config sample.resolution.candidates))) : Rat) /
        ((evalK config sample.resolution.candidates) : Rat) := rfl

/-- The reported recall is `hits / |truth|`, or `1` for an empty truth set. -/
theorem evaluate_recallAtK (config : EvaluationAgentConfig)
    (sample : EvaluationSample) :
    (EvaluationAgent.evaluate config sample).metrics.recallAtK =
      if (evalTruth sample.groundTruth).length = 0 then 1
      else ((evalHits (evalTruth sample.groundTruth)
          (sample.resolution.candidates.take (evalK config sample.resolution.candidates))) : Rat) /
        (((evalTruth sample.groundTruth).length) : Rat) := rfl

/-- The reported coverage is `used / budget`, or `0` for a zero budget. -/
theorem evaluate_coverage (config : EvaluationAgentConfig)
    (sample : EvaluationSample) :
    (EvaluationAgent.evaluate config sample).metrics.coverage =
      if sample.context.telemetry.tokens.budget = 0 then 0
      else ((sample.context.telemetry.tokens.used : Nat) : Rat) /
        ((sample.context.telemetry.tokens.budget : Int) : Rat) := rfl

/-- The pass flag is the conjunction of the two threshold tests. -/
theorem evaluate_pass (config : EvaluationAgentConfig) (sample : EvaluationSample) :
    (EvaluationAgent.evaluate config sample).pass =
      (decide (config.precisionThreshold ≤
          (EvaluationAgent.evaluate config sample).metrics.precisionAtK) &&
        decide (config.recallThreshold ≤
          (EvaluationAgent.evaluate config sample).metrics.recallAtK)) := rfl

/-- A minimal `DependencyContext` with a configurable token budget, used by
the evaluation scenarios. -/
def c7Ctx (budget : Int) : DependencyContext :=
  { targetNodes := [], forwardDeps := [], backwardDeps := [], relatedByQuery := [],
    totalTokens := 0, tokensUsed := 0, formattedContext := "", tokensSaved := 0,
    savingsPercent := 0, searchType := "dependency-aware", primaryFilePath := "a",
    candidateFilePaths := ["a"],
    telemetry :=
      { targetResolution :=
          { primaryPath := some "a", candidateCount := 1, sourceScores := {},
            aggregateSourceScores := {} },
        tokens := { budget := budget, used := 0, saved := 0, savingsPercent := 0 } } }

/-- An evaluation config with thresholds one half. -/
def c7Cfg : EvaluationAgentConfig := { precisionThreshold := 1/2, recallThreshold := 1/2 }

/-- A sample whose candidate list repeats the single ground-truth path. -/
def c7Sample : EvaluationSample :=
  { query := "q",
    resolution := { candidates := [{ path := "a" }, { path := "a" }] },
    context := c7Ctx 6000,
    groundTruth := { relevantPaths := ["a"] },
    iteration := 1 }

/-- C7: counterexample.  Hits are counted once per top-K candidate, so two
candidates with the same ground-truth path yield `recallAtK = 2 > 1`: the
reported recall is not confined to `[0, 1]`. -/
theorem claim_C7_counterexample :
    (EvaluationAgent.evaluate c7Cfg c7Sample).metrics.recallAtK = 2 ∧
    ¬ ((2 : Rat) ≤ 1) := by
  have h1 : (evalTruth c7Sample.groundTruth).length = 1 := by decide
  have h3 : evalHits (evalTruth c7Sample.groundTruth)
      (c7Sample.resolution.candidates.take (evalK c7Cfg c7Sample.resolution.candidates)) = 2 := by
    decide
  constructor
  · rw [evaluate_recallAtK, h1, h3]
    norm_num
  · norm_num

/-- C7 (amended): precision always lies in `[0, 1]` and recall is
non-negative, recall is `1` for an empty ground-truth set, coverage is `0` for
a zero budget, and pass holds iff both thresholds are met; recall is bounded
by `1` only when the top-K candidate paths are duplicate-free (the hit count
is per candidate, so duplicated paths can push recall above `1`). -/
theorem claim_C7_amended (config : EvaluationAgentConfig) (sample : EvaluationSample) :
    (0 ≤ (EvaluationAgent.evaluate config sample).metrics.precisionAtK ∧
      (EvaluationAgent.evaluate config sample).metrics.precisionAtK ≤ 1) ∧
    (sample.groundTruth.relevantPaths = [] →
      (EvaluationAgent.evaluate config sample).metrics.recallAtK = 1) ∧
    (sample.context.telemetry.tokens.budget = 0 →
      (EvaluationAgent.evaluate config sample).metrics.coverage = 0) ∧
    ((EvaluationAgent.evaluate config sample).pass = true ↔
      config.precisionThreshold ≤
          (EvaluationAgent.evaluate config sample).metrics.precisionAtK ∧
        config.recallThreshold ≤
          (EvaluationAgent.evaluate config sample).metrics.recallAtK) ∧
    (0 ≤ (EvaluationAgent.evaluate config sample).metrics.recallAtK) ∧
    (((sample.resolution.candidates.take
          (evalK config sample.resolution.candidates)).map (·.path)).Nodup →
      (EvaluationAgent.evaluate config sample).metrics.recallAtK ≤ 1) := by
  refine ⟨⟨?_, ?_⟩, ?_, ?_, ?_, ?_, ?_⟩
  · rw [evaluate_precisionAtK]
    split
    · exact le_refl 0
    · positivity
  · rw [evaluate_precisionAtK]
    split
    · norm_num
    · rename_i hk
      rw [div_le_one (by positivity)]
      have hle : evalHits (evalTruth sample.groundTruth)
          (sample.resolution.candidates.take (evalK config sample.resolution.candidates))
          ≤ evalK config sample.resolution.candidates := by
        unfold evalHits
        calc ((sample.resolution.candidates.take
                (evalK config sample.resolution.candidates)).filter
              (fun c => (evalTruth sample.groundTruth).contains c.path)).length
            ≤ (sample.resolution.candidates.take
                (evalK config sample.resolution.candidates)).length :=
              List.length_filter_le _ _
          _ ≤ evalK config sample.resolution.candidates := by
              rw [List.length_take]
              exact min_le_left _ _
      exact_mod_cast hle
  · intro h
    rw [evaluate_recallAtK]
    have ht : evalTruth sample.groundTruth = [] := by
      unfold evalTruth jsSetOfList
      rw [h]
      rfl
    rw [ht]
    rfl
  · intro h
    rw [evaluate_coverage, if_pos h]
  · rw [evaluate_pass]
    simp only [Bool.and_eq_true, decide_eq_true_eq]
  · rw [evaluate_recallAtK]
    split
    · norm_num
    · positivity
  · intro hnd
    rw [evaluate_recallAtK]
    split
    · exact le_refl 1
    · rename_i ht
      rw [div_le_one (by positivity)]
      have hle : evalHits (evalTruth sample.groundTruth)
          (sample.resolution.candidates.take (evalK config sample.resolution.candidates))
          ≤ (evalTruth sample.groundTruth).length := by
        unfold evalHits
        have hmap : ((sample.resolution.candidates.take
              (evalK config sample.resolution.candidates)).filter
                (fun c => (evalTruth sample.groundTruth).contains c.path)).length
            = (((sample.resolution.candidates.take
                (evalK config sample.resolution.candidates)).filter
                  (fun c => (evalTruth sample.groundTruth).contains c.path)).map (·.path)).length := by
          rw [List.length_map]
        rw [hmap]
        have hsubl : (((sample.resolution.candidates.take
              (evalK config sample.resolution.candidates)).filter
                (fun c => (evalTruth sample.groundTruth).contains c.path)).map (·.path)).Sublist
            ((sample.resolution.candidates.take
              (evalK config sample.resolution.candidates)).map (·.path)) :=
          List.Sublist.map _ (List.filter_sublist _)
        have hnd' : (((sample.resolution.candidates.take
              (evalK config sample.resolution.candidates)).filter
                (fun c => (evalTruth sample.groundTruth).contains c.path)).map (·.path)).Nodup :=
          hnd.sublist hsubl
        have hsubset : ∀ x ∈ (((sample.resolution.candidates.take
              (evalK config sample.resolution.candidates)).filter
                (fun c => (evalTruth sample.groundTruth).contains c.path)).map (·.path)),
            x ∈ evalTruth sample.groundTruth := by
          intro x hx
          obtain ⟨c, hc, rfl⟩ := List.mem_map.mp hx
          have hcf := List.of_mem_filter hc
          exact List.mem_of_elem_eq_true hcf
        exact (hnd'.subperm hsubset).length_le
      exact_mod_cast hle

/-- A duplicate-free sample with empty ground truth and zero budget. -/
def c7SampleW : EvaluationSample :=
  { query := "q",
    resolution := { candidates := [{ path := "a" }] },
    context := c7Ctx 0,
    groundTruth := { relevantPaths := [] },
    iteration := 1 }

/-- C7 (amended) at concrete inputs: empty ground truth gives recall 1, zero
budget gives coverage 0, duplicate-free top-K paths keep recall at most 1, and
precision lies in `[0, 1]`. -/
theorem claim_C7_witness :
    (EvaluationAgent.evaluate c7Cfg c7SampleW).metrics.recallAtK = 1 ∧
    (EvaluationAgent.evaluate c7Cfg c7SampleW).metrics.coverage = 0 ∧
    (EvaluationAgent.evaluate c7Cfg c7SampleW).metrics.recallAtK ≤ 1 ∧
    (0 ≤ (EvaluationAgent.evaluate c7Cfg c7SampleW).metrics.precisionAtK ∧
      (EvaluationAgent.evaluate c7Cfg c7SampleW).metrics.precisionAtK ≤ 1) :=
  ⟨(claim_C7_amended c7Cfg c7SampleW).2.1 rfl,
    (claim_C7_amended c7Cfg c7SampleW).2.2.1 rfl,
    (claim_C7_amended c7Cfg c7SampleW).2.2.2.2.2 (by decide),
    (claim_C7_amended c7Cfg c7SampleW).1⟩

/-- One `LangGraphTrace` entry (node name and status; timestamps are
wall-clock effects and are not modelled). -/
structure TraceEntry where
  node : String
  status : String
  deriving Repr, DecidableEq

/-- `LangGraphTrace.record(node, fn)`: append an `ok` entry and return the
result, or append an `error` entry and rethrow. -/
def traceRecord {α : Type} (node : String) (entries : List TraceEntry)
    (x : Except String α) : List TraceEntry × Except String α :=
  match x with
  | .ok a => (entries ++ [{ node := node, status := "ok" }], .ok a)
  | .error e => (entries ++ [{ node := node, status := "error" }], .error e)

/-- The retrieval components produced by `deps.buildComponents`, abstracted to
the three operations the pipeline invokes. -/
structure PipelineComponents where
  resolve : String → List String → Nat → Except String TargetResolution
  initRetriever : Except String Unit
  buildContext : String → Option String → Rat → BuildContextOptions →
    Except String DependencyContext

/-- The pipeline's effectful dependencies: the graph manager's `getGraph` and
`initialize`, and the component factory. -/
structure PipelineEnv where
  getGraph : Except String CodeGraph
  initGraph : Except String CodeGraph
  buildComponents : CodeGraph → Bool → Except String PipelineComponents

/-- `ResolvedConfig` (defaults applied in the constructor). -/
structure ResolvedConfig where
  initialTokenBudget : Rat := 6000
  tokenBudgetStep : Rat := 2000
  initialWalkDepth : Nat := 2
  walkDepthStep : Nat := 1
  maxWalkDepth : Nat := 5
  initialRelatedLimit : Nat := 5
  relatedLimitStep : Nat := 2
  initialBreadthLimit : Nat := 3
  maxBreadthLimit : Nat := 6
  maxIterations : Nat := 2
  seedLimit : Nat := 5
  deriving Repr, DecidableEq

/-- `InternalState`. -/
structure InternalState where
  tokenBudget : Rat
  walkDepth : Nat
  relatedLimit : Nat
  breadthLimit : Nat
  useCrossEncoder : Bool
  deriving Repr, DecidableEq

/-- `LangGraphPipelineInput`. -/
structure LangGraphPipelineInput where
  query : String
  groundTruth : GroundTruth
  targetFilePath : Option String := none
  candidateFilePaths : Option (List String) := none
  deriving Repr, DecidableEq

/-- `LangGraphPipelineResult`. -/
structure LangGraphPipelineResult where
  context : Option DependencyContext
  resolution : Option TargetResolution
  evaluation : Option EvaluationDecision
  iterations : Nat
  trace : List TraceEntry
  actionsTaken : List String
  deriving Repr, DecidableEq

/-- `private applyActions`. -/
def applyActions (cfg : ResolvedConfig) (st : InternalState) (actions : List String) :
    InternalState :=
  actions.foldl (fun st action =>
    if action = "increase_token_budget" then
      { st with tokenBudget := min 12000 (st.tokenBudget + cfg.tokenBudgetStep) }
    else if action = "increase_walk_depth" then
      { st with walkDepth := min cfg.maxWalkDepth (st.walkDepth + cfg.walkDepthStep) }
    else if action = "expand_related" then
      { st with
          relatedLimit := st.relatedLimit + cfg.relatedLimitStep
          breadthLimit := min cfg.maxBreadthLimit (st.breadthLimit + 1) }
    else if action = "enable_cross_encoder" then
      { st with useCrossEncoder := true }
    else st) st

/-- `private ensureGraph`: `getGraph`, falling back to `initialize`, recorded
as `graph.load`. -/
def ensureGraph (env : PipelineEnv) (entries : List TraceEntry) :
    List TraceEntry × Except String CodeGraph :=
  traceRecord "graph.load" entries
    (match env.getGraph with
     | .ok g => .ok g
     | .error _ => env.initGraph)

/-- The `while (iteration < maxIterations)` loop of `LangGraphPipeline.run`,
by recursion on the remaining iteration count.  The defensive null checks of
the source (`if (!activeResolution)` etc.) are unreachable in the typed model
and are not represented.  `deps.evaluationAgent` is the `EvaluationAgent`
embedded above. -/
def runLoop (env : PipelineEnv) (agentCfg : EvaluationAgentConfig)
    (cfg : ResolvedConfig) (input : LangGraphPipelineInput) (graph : CodeGraph) :
    Nat → Nat → Option DependencyContext → Option TargetResolution →
    Option EvaluationDecision → List String → List String → InternalState →
    List TraceEntry → Except String LangGraphPipelineResult
  | 0, it, ctx?, res?, ev?, acts, _, _, entries =>
      .ok { context := ctx?, resolution := res?, evaluation := ev?, iterations := it,
            trace := entries, actionsTaken := acts }
  | rem + 1, it, _, _, _, acts, cands, st, entries =>
      let iteration := it + 1
      let r1 := traceRecord "components.build" entries
        (env.buildComponents graph st.useCrossEncoder)
      match r1.2 with
      | .error e => .error e
      | .ok components =>
          let r2 := traceRecord "retriever.initialize" r1.1 components.initRetriever
          match r2.2 with
          | .error e => .error e
          | .ok _ =>
              let r3 := traceRecord "target.resolve" r2.1
                (components.resolve input.query cands cfg.seedLimit)
              match r3.2 with
              | .error e => .error e
              | .ok resolved =>
                  let primaryFilePath :=
                    input.targetFilePath.orElse (fun _ => resolved.primary.map (·.path))
                  let r4 := traceRecord "context.build" r3.1
                    (components.buildContext input.query primaryFilePath st.tokenBudget
                      { candidateFilePaths := some cands,
                        walkDepth := some st.walkDepth,
                        relatedLimit := some st.relatedLimit,
                        breadthLimit := some st.breadthLimit })
                  match r4.2 with
                  | .error e => .error e
                  | .ok builtContext =>
                      let decision := EvaluationAgent.evaluate agentCfg
                        { query := input.query, resolution := resolved,
                          context := builtContext, groundTruth := input.groundTruth,
                          iteration := iteration }
                      let entries5 := (traceRecord "agent.evaluate" r4.1
                        (Except.ok decision)).1
                      let acts1 := acts ++ decision.actions
                      let cands1 := dedupStrings (cands ++ resolved.candidates.map (·.path))
                      if decision.pass || decision.actions.length == 0 then
                        .ok { context := some builtContext, resolution := some resolved,
                              evaluation := some decision, iterations := iteration,
                              trace := entries5, actionsTaken := acts1 }
                      else
                        runLoop env agentCfg cfg input graph rem iteration
                          (some builtContext) (some resolved) (some decision) acts1 cands1
                          (applyActions cfg st decision.actions) entries5

/-- `LangGraphPipeline.run(input)`. -/
def LangGraphPipeline.run (env : PipelineEnv) (agentCfg : EvaluationAgentConfig)
    (cfg : ResolvedConfig) (input : LangGraphPipelineInput) :
    Except String LangGraphPipelineResult :=
  let r0 := ensureGraph env []
  match r0.2 with
  | .error e => .error e
  | .ok graph =>
      runLoop env agentCfg cfg input graph cfg.maxIterations 0 none none none []
        (input.candidateFilePaths.getD [])
        { tokenBudget := cfg.initialTokenBudget, walkDepth := cfg.initialWalkDepth,
          relatedLimit := cfg.initialRelatedLimit, breadthLimit := cfg.initialBreadthLimit,
          useCrossEncoder := false }
        r0.1

/-- Recording a successful stage appends one `ok` entry. -/
theorem traceRecord_ok {α : Type} (node : String) (entries : List TraceEntry) (a : α) :
    traceRecord node entries (Except.ok a) =
      (entries ++ [{ node := node, status := "ok" }], Except.ok a) := rfl

/-- C8: when every stage of the first iteration succeeds and its evaluation
passes, `LangGraphPipeline.run` returns after one iteration, and the trace
records exactly `graph.load`, `components.build`, `retriever.initialize`,
`target.resolve`, `context.build`, `agent.evaluate` in that order, all `ok`. -/
theorem claim_C8 (env : PipelineEnv) (agentCfg : EvaluationAgentConfig)
    (cfg : ResolvedConfig) (input : LangGraphPipelineInput) (g : CodeGraph)
    (comps : PipelineComponents) (resolved : TargetResolution) (ctx : DependencyContext)
    (hg : env.getGraph = .ok g)
    (hc : env.buildComponents g false = .ok comps)
    (hi : comps.initRetriever = .ok ())
    (hr : comps.resolve input.query (input.candidateFilePaths.getD []) cfg.seedLimit
      = .ok resolved)
    (hb : comps.buildContext input.query
        (input.targetFilePath.orElse (fun _ => resolved.primary.map (·.path)))
        cfg.initialTokenBudget
        { candidateFilePaths := some (input.candidateFilePaths.getD []),
          walkDepth := some cfg.initialWalkDepth,
          relatedLimit := some cfg.initialRelatedLimit,
          breadthLimit := some cfg.initialBreadthLimit } = .ok ctx)
    (hpass : (EvaluationAgent.evaluate agentCfg
        { query := input.query, resolution := resolved, context := ctx,
          groundTruth := input.groundTruth, iteration := 1 }).pass = true)
    (hiter : 1 ≤ cfg.maxIterations) :
    ∃ out, LangGraphPipeline.run env agentCfg cfg input = .ok out ∧
      out.iterations = 1 ∧
      out.trace.map (·.node) = ["graph.load", "components.build", "retriever.initialize",
        "target.resolve", "context.build", "agent.evaluate"] ∧
      out.trace.map (·.status) = ["ok", "ok", "ok", "ok", "ok", "ok"] := by
  obtain ⟨rem, hrem⟩ : ∃ rem, cfg.maxIterations = rem + 1 :=
    ⟨cfg.maxIterations - 1, (Nat.succ_pred_eq_of_pos hiter).symm⟩
  have hload : ensureGraph env [] =
      ([{ node := "graph.load", status := "ok" }], Except.ok g) := by
    unfold ensureGraph
    rw [hg]
    rfl
  unfold LangGraphPipeline.run
  rw [hload]
  rw [hrem]
  unfold runLoop
  rw [hc, traceRecord_ok]
  simp only []
  rw [hi, traceRecord_ok]
  simp only []
  rw [hr, traceRecord_ok]
  simp only []
  rw [hb, traceRecord_ok]
  simp only []
  rw [traceRecord_ok]
  rw [hpass]
  simp only [Bool.true_or, if_true]
  exact ⟨_, rfl, rfl, rfl, rfl⟩

/-- A resolution with one candidate file `a`. -/
def c8Resolved : TargetResolution :=
  { primary := some { path := "a" }, candidates := [{ path := "a" }] }

/-- Pipeline components whose stages always succeed. -/
def c8Comps : PipelineComponents :=
  { resolve := fun _ _ _ => .ok c8Resolved,
    initRetriever := .ok (),
    buildContext := fun _ _ _ _ => .ok (c7Ctx 6000) }

/-- A pipeline environment whose graph loads instantly. -/
def c8Env : PipelineEnv :=
  { getGraph := .ok {}, initGraph := .ok {}, buildComponents := fun _ _ => .ok c8Comps }

/-- An evaluation config that always passes (thresholds zero). -/
def c8AgentCfg : EvaluationAgentConfig := { precisionThreshold := 0, recallThreshold := 0 }

/-- A pipeline input with empty ground truth. -/
def c8Input : LangGraphPipelineInput := { query := "q", groundTruth := { relevantPaths := [] } }

/-- C8 at concrete inputs: a run whose first evaluation passes stops after one
iteration with the six trace nodes in order. -/
theorem claim_C8_witness :
    ∃ out, LangGraphPipeline.run c8Env c8AgentCfg {} c8Input = .ok out ∧
      out.iterations = 1 ∧
      out.trace.map (·.node) = ["graph.load", "components.build", "retriever.initialize",
        "target.resolve", "context.build", "agent.evaluate"] ∧
      out.trace.map (·.status) = ["ok", "ok", "ok", "ok", "ok", "ok"] := by
  have hpass : (EvaluationAgent.evaluate c8AgentCfg
      { query := c8Input.query, resolution := c8Resolved, context := c7Ctx 6000,
        groundTruth := c8Input.groundTruth, iteration := 1 }).pass = true := by
    rw [evaluate_pass]
    have h1 : (0 : Rat) ≤ (EvaluationAgent.evaluate c8AgentCfg
        { query := c8Input.query, resolution := c8Resolved, context := c7Ctx 6000,
          groundTruth := c8Input.groundTruth, iteration := 1 }).metrics.precisionAtK := by
      rw [evaluate_precisionAtK]
      split
      · norm_num
      · positivity
    have h2 : (0 : Rat) ≤ (EvaluationAgent.evaluate c8AgentCfg
        { query := c8Input.query, resolution := c8Resolved, context := c7Ctx 6000,
          groundTruth := c8Input.groundTruth, iteration := 1 }).metrics.recallAtK := by
      rw [evaluate_recallAtK]
      split
      · norm_num
      · positivity
    have h1' : c8AgentCfg.precisionThreshold ≤ (EvaluationAgent.evaluate c8AgentCfg
        { query := c8Input.query, resolution := c8Resolved, context := c7Ctx 6000,
          groundTruth := c8Input.groundTruth, iteration := 1 }).metrics.precisionAtK := h1
    have h2' : c8AgentCfg.recallThreshold ≤ (EvaluationAgent.evaluate c8AgentCfg
        { query := c8Input.query, resolution := c8Resolved, context := c7Ctx 6000,
          groundTruth := c8Input.groundTruth, iteration := 1 }).metrics.recallAtK := h2
    rw [decide_eq_true h1', decide_eq_true h2']
    rfl
  exact claim_C8 c8Env c8AgentCfg {} c8Input {} c8Comps c8Resolved (c7Ctx 6000)
    rfl rfl rfl rfl rfl hpass (by decide)

/-- The node stored under `id` carries category `c`. -/
def CatAt (g : CodeGraph) (id : String) (c : String) : Prop :=
  ∃ v, JsMap.get? g.nodes id = some v ∧ v.metadata.category = some c

/-- The node stored under `id` carries embedding `e`. -/
def EmbAt (g : CodeGraph) (id : String) (e : List Rat) : Prop :=
  ∃ v, JsMap.get? g.nodes id = some v ∧ v.embedding = some e

/-- Lookup after a category tag: the tagged entry, others unchanged. -/
theorem get?_tagNodeInGraph (g : CodeGraph) (i c j : String) :
    JsMap.get? (tagNodeInGraph g i c).nodes j =
      if j = i then (JsMap.get? g.nodes j).map (fun v => tagNode v c)
      else JsMap.get? g.nodes j := by
  unfold tagNodeInGraph
  cases hg : JsMap.get? g.nodes i with
  | none =>
      by_cases hj : j = i
      · rw [if_pos hj, hj, hg]
        rfl
      · rw [if_neg hj]
  | some stored =>
      dsimp only
      rw [JsMap.get?_set]
      by_cases hj : j = i
      · rw [if_pos hj, if_pos hj, hj, hg]
        rfl
      · rw [if_neg hj, if_neg hj]

/-- Lookup after an embedding write: the written entry, others unchanged. -/
theorem get?_writeEmbeddingInGraph (g : CodeGraph) (i : String) (e : List Rat) (j : String) :
    JsMap.get? (writeEmbeddingInGraph g i e).nodes j =
      if j = i then (JsMap.get? g.nodes j).map (fun v => { v with embedding := some e })
      else JsMap.get? g.nodes j := by
  unfold writeEmbeddingInGraph
  cases hg : JsMap.get? g.nodes i with
  | none =>
      by_cases hj : j = i
      · rw [if_pos hj, hj, hg]
        rfl
      · rw [if_neg hj]
  | some stored =>
      dsimp only
      rw [JsMap.get?_set]
      by_cases hj : j = i
      · rw [if_pos hj, if_pos hj, hj, hg]
        rfl
      · rw [if_neg hj, if_neg hj]

/-- Tagging keeps the key set. -/
theorem hasKey_tagNodeInGraph (g : CodeGraph) (i c j : String) :
    JsMap.hasKey (tagNodeInGraph g i c).nodes j = JsMap.hasKey g.nodes j := by
  unfold JsMap.hasKey
  rw [get?_tagNodeInGraph]
  by_cases hj : j = i
  · rw [if_pos hj]
    cases JsMap.get? g.nodes j <;> rfl
  · rw [if_neg hj]

/-- Writing an embedding keeps the key set. -/
theorem hasKey_writeEmbeddingInGraph (g : CodeGraph) (i : String) (e : List Rat) (j : String) :
    JsMap.hasKey (writeEmbeddingInGraph g i e).nodes j = JsMap.hasKey g.nodes j := by
  unfold JsMap.hasKey
  rw [get?_writeEmbeddingInGraph]
  by_cases hj : j = i
  · rw [if_pos hj]
    cases JsMap.get? g.nodes j <;> rfl
  · rw [if_neg hj]

/-- Tagging a present node establishes its category. -/
theorem catAt_tag_self (g : CodeGraph) (i c : String)
    (h : JsMap.hasKey g.nodes i = true) : CatAt (tagNodeInGraph g i c) i c := by
  unfold JsMap.hasKey at h
  rw [Option.isSome_iff_exists] at h
  obtain ⟨v, hv⟩ := h
  refine ⟨tagNode v c, ?_, rfl⟩
  rw [get?_tagNodeInGraph, if_pos rfl, hv]
  rfl

/-- A category survives a tag at another id, or any tag of the same
category. -/
theorem catAt_tag_preserve (g : CodeGraph) (id c j c' : String)
    (h : CatAt g id c) (hcase : id ≠ j ∨ c' = c) :
    CatAt (tagNodeInGraph g j c') id c := by
  obtain ⟨v, hv, hc⟩ := h
  by_cases hj : id = j
  · rcases hcase with hne | hcc
    · exact absurd hj hne
    · subst hcc
      refine ⟨tagNode v c', ?_, rfl⟩
      rw [get?_tagNodeInGraph, if_pos hj, hv]
      rfl
  · exact ⟨v, by rw [get?_tagNodeInGraph, if_neg hj]; exact hv, hc⟩

/-- An embedding write at a present id establishes the embedding. -/
theorem embAt_write_self (g : CodeGraph) (i : String) (e : List Rat)
    (h : JsMap.hasKey g.nodes i = true) : EmbAt (writeEmbeddingInGraph g i e) i e := by
  unfold JsMap.hasKey at h
  rw [Option.isSome_iff_exists] at h
  obtain ⟨v, hv⟩ := h
  refine ⟨{ v with embedding := some e }, ?_, rfl⟩
  rw [get?_writeEmbeddingInGraph, if_pos rfl, hv]
  rfl

/-- An embedding survives a write at another id. -/
theorem embAt_write_preserve (g : CodeGraph) (id : String) (e : List Rat)
    (j : String) (e' : List Rat) (h : EmbAt g id e) (hne : id ≠ j) :
    EmbAt (writeEmbeddingInGraph g j e') id e := by
  obtain ⟨v, hv, he⟩ := h
  exact ⟨v, by rw [get?_writeEmbeddingInGraph, if_neg hne]; exact hv, he⟩

/-- The target-tagging fold of `deduplicateAndTag`: keys are preserved,
categories of the same kind (or at untouched ids) survive, and every listed
node present in the graph ends up categorised. -/
theorem foldTag_spec (c : String) (L : List GraphNode) :
    ∀ g : CodeGraph,
      (∀ j, JsMap.hasKey (L.foldl (fun g n => tagNodeInGraph g n.id c) g).nodes j
        = JsMap.hasKey g.nodes j) ∧
      (∀ id c0, CatAt g id c0 → (c0 = c ∨ ∀ n ∈ L, n.id ≠ id) →
        CatAt (L.foldl (fun g n => tagNodeInGraph g n.id c) g) id c0) ∧
      (∀ n ∈ L, JsMap.hasKey g.nodes n.id = true →
        CatAt (L.foldl (fun g n => tagNodeInGraph g n.id c) g) n.id c) := by
  induction L with
  | nil =>
      intro g
      refine ⟨fun j => rfl, fun id c0 h _ => h, ?_⟩
      intro n hn
      exact absurd hn (List.not_mem_nil n)
  | cons m rest ih =>
      intro g
      rw [List.foldl_cons]
      refine ⟨?_, ?_, ?_⟩
      · intro j
        rw [(ih (tagNodeInGraph g m.id c)).1 j, hasKey_tagNodeInGraph]
      · intro id c0 h hcase
        refine (ih (tagNodeInGraph g m.id c)).2.1 id c0 ?_ ?_
        · refine catAt_tag_preserve g id c0 m.id c h ?_
          rcases hcase with hc | hall
          · exact Or.inr hc.symm
          · exact Or.inl fun he => hall m (List.mem_cons_self m rest) (he ▸ rfl)
        · rcases hcase with hc | hall
          · exact Or.inl hc
          · exact Or.inr fun n hn => hall n (List.mem_cons_of_mem m hn)
      · intro n hn hkey
        rcases List.mem_cons.mp hn with rfl | hrest
        · refine (ih (tagNodeInGraph g n.id c)).2.1 n.id c ?_ (Or.inl rfl)
          exact catAt_tag_self g n.id c hkey
        · refine (ih (tagNodeInGraph g m.id c)).2.2 n hrest ?_
          rw [hasKey_tagNodeInGraph]
          exact hkey

/-- One step of the tagging filter. -/
theorem tagFilterGo_cons (cat : String) (excluded : List String) (g : CodeGraph)
    (out : List GraphNode) (m : GraphNode) (rest : List GraphNode) :
    tagFilterGo cat excluded g out (m :: rest) =
      if excluded.contains m.id then tagFilterGo cat excluded g out rest
      else tagFilterGo cat excluded (tagNodeInGraph g m.id cat)
        (out ++ [tagNode m cat]) rest := by
  simp only [tagFilterGo]

/-- The tagging filter: keys are preserved; categories at excluded ids and
same-kind categories survive; every emitted node present in the graph is
categorised in the graph; emitted node objects carry the category. -/
theorem tagFilterGo_spec (cat : String) (excluded : List String) (ns : List GraphNode) :
    ∀ (g : CodeGraph) (out : List GraphNode),
      (∀ j, JsMap.hasKey (tagFilterGo cat excluded g out ns).1.nodes j
        = JsMap.hasKey g.nodes j) ∧
      (∀ id c0, id ∈ excluded → CatAt g id c0 →
        CatAt (tagFilterGo cat excluded g out ns).1 id c0) ∧
      (∀ id c0, c0 = cat → CatAt g id c0 →
        CatAt (tagFilterGo cat excluded g out ns).1 id c0) ∧
      ((∀ n ∈ out, JsMap.hasKey g.nodes n.id = true → CatAt g n.id cat) →
        ∀ n ∈ (tagFilterGo cat excluded g out ns).2,
          JsMap.hasKey g.nodes n.id = true →
          CatAt (tagFilterGo cat excluded g out ns).1 n.id cat) ∧
      ((∀ n ∈ out, n.metadata.category = some cat) →
        ∀ n ∈ (tagFilterGo cat excluded g out ns).2, n.metadata.category = some cat) := by
  induction ns with
  | nil =>
      intro g out
      exact ⟨fun j => rfl, fun id c0 _ h => h, fun id c0 _ h => h,
        fun h n hn hk => h n hn hk, fun h n hn => h n hn⟩
  | cons m rest ih =>
      intro g out
      rw [tagFilterGo_cons]
      by_cases hm : excluded.contains m.id
      · rw [if_pos hm]
        exact ih g out
      · rw [if_neg hm]
        refine ⟨?_, ?_, ?_, ?_, ?_⟩
        · intro j
          rw [(ih (tagNodeInGraph g m.id cat) (out ++ [tagNode m cat])).1 j,
            hasKey_tagNodeInGraph]
        · intro id c0 hid h
          refine (ih _ _).2.1 id c0 hid ?_
          refine catAt_tag_preserve g id c0 m.id cat h (Or.inl ?_)
          intro he
          exact hm (he ▸ List.elem_eq_true_of_mem hid)
        · intro id c0 hc0 h
          exact (ih _ _).2.2.1 id c0 hc0
            (catAt_tag_preserve g id c0 m.id cat h (Or.inr hc0.symm))
        · intro hout n hn hkey
          have hout' : ∀ n ∈ out ++ [tagNode m cat],
              JsMap.hasKey (tagNodeInGraph g m.id cat).nodes n.id = true →
              CatAt (tagNodeInGraph g m.id cat) n.id cat := by
            intro p hp hpk
            rcases List.mem_append.mp hp with hpo | hps
            · rw [hasKey_tagNodeInGraph] at hpk
              exact catAt_tag_preserve g p.id cat m.id cat (hout p hpo hpk) (Or.inr rfl)
            · rcases List.mem_singleton.mp hps with rfl
              rw [hasKey_tagNodeInGraph] at hpk
              exact catAt_tag_self g m.id cat hpk
          refine (ih _ _).2.2.2.1 hout' n hn ?_
          rw [hasKey_tagNodeInGraph]
          exact hkey
        · intro hout n hn
          refine (ih _ _).2.2.2.2 ?_ n hn
          intro p hp
          rcases List.mem_append.mp hp with hpo | hps
          · exact hout p hpo
          · rcases List.mem_singleton.mp hps with rfl
            rfl

/-- The per-sibling fold of the expansion loop: keys are preserved, categories
at excluded ids (never tagged, as all siblings passed the exclusion filter)
and `related` categories survive, appended nodes present in the graph are
categorised `related` in the graph, and appended node objects carry
`related`. -/
theorem sibFold_spec (excluded : List String) (SL : List GraphNode) :
    ∀ acc : CodeGraph × List GraphNode,
      (∀ s ∈ SL, excluded.contains s.id = false) →
      (∀ j, JsMap.hasKey (SL.foldl addSibling acc).1.nodes j
        = JsMap.hasKey acc.1.nodes j) ∧
      (∀ id c0, id ∈ excluded → CatAt acc.1 id c0 →
        CatAt (SL.foldl addSibling acc).1 id c0) ∧
      (∀ id c0, c0 = "related" → CatAt acc.1 id c0 →
        CatAt (SL.foldl addSibling acc).1 id c0) ∧
      ((∀ n ∈ acc.2, JsMap.hasKey acc.1.nodes n.id = true → CatAt acc.1 n.id "related") →
        ∀ n ∈ (SL.foldl addSibling acc).2,
          JsMap.hasKey acc.1.nodes n.id = true →
          CatAt (SL.foldl addSibling acc).1 n.id "related") ∧
      ((∀ n ∈ acc.2, n.metadata.category = some "related") →
        ∀ n ∈ (SL.foldl addSibling acc).2, n.metadata.category = some "related") := by
  induction SL with
  | nil =>
      intro acc _
      exact ⟨fun j => rfl, fun id c0 _ h => h, fun id c0 _ h => h,
        fun h n hn hk => h n hn hk, fun h n hn => h n hn⟩
  | cons s rest ih =>
      intro acc hSL
      have hs : excluded.contains s.id = false := hSL s (List.mem_cons_self s rest)
      have hrest : ∀ p ∈ rest, excluded.contains p.id = false :=
        fun p hp => hSL p (List.mem_cons_of_mem s hp)
      rw [List.foldl_cons]
      by_cases hdup : (acc.2.map (·.id)).contains s.id
      · rw [show addSibling acc s = acc from by unfold addSibling; rw [if_pos hdup]]
        exact ih acc hrest
      · rw [show addSibling acc s =
            (tagNodeInGraph acc.1 s.id "related", acc.2 ++ [tagNode s "related"]) from by
          unfold addSibling; rw [if_neg hdup]]
        obtain ⟨ih1, ih2, ih3, ih4, ih5⟩ :=
          ih (tagNodeInGraph acc.1 s.id "related", acc.2 ++ [tagNode s "related"]) hrest
        refine ⟨?_, ?_, ?_, ?_, ?_⟩
        · intro j
          rw [ih1 j]
          exact hasKey_tagNodeInGraph acc.1 s.id "related" j
        · intro id c0 hid h
          refine ih2 id c0 hid ?_
          refine catAt_tag_preserve acc.1 id c0 s.id "related" h (Or.inl ?_)
          intro he
          have hc : excluded.contains s.id = true := he ▸ List.elem_eq_true_of_mem hid
          rw [hs] at hc
          exact Bool.noConfusion hc
        · intro id c0 hc0 h
          exact ih3 id c0 hc0
            (catAt_tag_preserve acc.1 id c0 s.id "related" h (Or.inr hc0.symm))
        · intro hout n hn hkey
          have hout' : ∀ n ∈ acc.2 ++ [tagNode s "related"],
              JsMap.hasKey (tagNodeInGraph acc.1 s.id "related").nodes n.id = true →
              CatAt (tagNodeInGraph acc.1 s.id "related") n.id "related" := by
            intro p hp hpk
            rcases List.mem_append.mp hp with hpo | hps
            · rw [hasKey_tagNodeInGraph] at hpk
              exact catAt_tag_preserve acc.1 p.id "related" s.id "related"
                (hout p hpo hpk) (Or.inr rfl)
            · rcases List.mem_singleton.mp hps with rfl
              rw [hasKey_tagNodeInGraph] at hpk
              exact catAt_tag_self acc.1 s.id "related" hpk
          refine ih4 hout' n hn ?_
          rw [hasKey_tagNodeInGraph]
          exact hkey
        · intro hout n hn
          refine ih5 ?_ n hn
          intro p hp
          rcases List.mem_append.mp hp with hpo | hps
          · exact hout p hpo
          · rcases List.mem_singleton.mp hps with rfl
            rfl

/-- One step of the sibling-expansion loop. -/
theorem expandSiblingsGo_cons (excluded : List String) (acc : CodeGraph × List GraphNode)
    (node : GraphNode) (rest : List GraphNode) :
    expandSiblingsGo excluded acc (node :: rest) =
      expandSiblingsGo excluded
        (((CodeGraph.getNodesByPath acc.1 node.path).filter (fun s =>
          s.id ≠ node.id && ¬ excluded.contains s.id && s.type ≠ "file")).foldl
            addSibling acc) rest := by
  simp only [expandSiblingsGo]

/-- Every sibling admitted by the expansion filter has an id outside the
exclusion list. -/
theorem sibling_not_excluded (excluded : List String) (g : CodeGraph)
    (node : GraphNode) :
    ∀ s ∈ (CodeGraph.getNodesByPath g node.path).filter (fun s =>
      s.id ≠ node.id && ¬ excluded.contains s.id && s.type ≠ "file"),
      excluded.contains s.id = false := by
  intro s hs
  have h := List.of_mem_filter hs
  simp only [Bool.and_eq_true, decide_eq_true_eq] at h
  cases hb : excluded.contains s.id with
  | false => rfl
  | true => exact absurd hb h.1.2

/-- The sibling-expansion loop: keys are preserved, categories at excluded ids
and `related` categories survive, emitted nodes present in the graph are
categorised `related` in the graph, and emitted node objects carry
`related`. -/
theorem expandSiblingsGo_spec (excluded : List String) (targets : List GraphNode) :
    ∀ acc : CodeGraph × List GraphNode,
      (∀ j, JsMap.hasKey (expandSiblingsGo excluded acc targets).1.nodes j
        = JsMap.hasKey acc.1.nodes j) ∧
      (∀ id c0, id ∈ excluded → CatAt acc.1 id c0 →
        CatAt (expandSiblingsGo excluded acc targets).1 id c0) ∧
      (∀ id c0, c0 = "related" → CatAt acc.1 id c0 →
        CatAt (expandSiblingsGo excluded acc targets).1 id c0) ∧
      ((∀ n ∈ acc.2, JsMap.hasKey acc.1.nodes n.id = true → CatAt acc.1 n.id "related") →
        ∀ n ∈ (expandSiblingsGo excluded acc targets).2,
          JsMap.hasKey acc.1.nodes n.id = true →
          CatAt (expandSiblingsGo excluded acc targets).1 n.id "related") ∧
      ((∀ n ∈ acc.2, n.metadata.category = some "related") →
        ∀ n ∈ (expandSiblingsGo excluded acc targets).2,
          n.metadata.category = some "related") := by
  induction targets with
  | nil =>
      intro acc
      exact ⟨fun j => rfl, fun id c0 _ h => h, fun id c0 _ h => h,
        fun h n hn hk => h n hn hk, fun h n hn => h n hn⟩
  | cons node rest ih =>
      intro acc
      rw [expandSiblingsGo_cons]
      obtain ⟨s1, s2, s3, s4, s5⟩ := sibFold_spec excluded
        ((CodeGraph.getNodesByPath acc.1 node.path).filter (fun s =>
          s.id ≠ node.id && ¬ excluded.contains s.id && s.type ≠ "file")) acc
        (sibling_not_excluded excluded acc.1 node)
      obtain ⟨ih1, ih2, ih3, ih4, ih5⟩ := ih
        (((CodeGraph.getNodesByPath acc.1 node.path).filter (fun s =>
          s.id ≠ node.id && ¬ excluded.contains s.id && s.type ≠ "file")).foldl
            addSibling acc)
      refine ⟨?_, ?_, ?_, ?_, ?_⟩
      · intro j
        rw [ih1 j, s1 j]
      · intro id c0 hid h
        exact ih2 id c0 hid (s2 id c0 hid h)
      · intro id c0 hc0 h
        exact ih3 id c0 hc0 (s3 id c0 hc0 h)
      · intro hout n hn hkey
        refine ih4 ?_ n hn ?_
        · intro p hp hpk
          rw [s1 p.id] at hpk
          exact s4 hout p hp hpk
        · rw [s1 n.id]
          exact hkey
      · intro hout n hn
        exact ih5 (s5 hout) n hn

/-- The breadth limiter only selects from its input. -/
theorem limitByBreadth_subset (prio : GraphNode → Rat) (nodes : List GraphNode)
    (limit : Nat) : ∀ n ∈ limitByBreadth prio nodes limit, n ∈ nodes := by
  intro n hn
  unfold limitByBreadth at hn
  split at hn
  · exact hn
  · obtain ⟨p, hp, hpe⟩ := List.mem_map.mp hn
    have hp' := List.mem_of_mem_take hp
    have hperm := jsStableSort_perm (fun a b => decide (b.2 ≤ a.2))
      (nodes.map (fun n => (n, prio n)))
    have hpm : p ∈ nodes.map (fun n => (n, prio n)) := hperm.mem_iff.mp hp'
    obtain ⟨m, hm, hme⟩ := List.mem_map.mp hpm
    rw [← hpe, ← hme]
    exact hm

/-- The target ids of `deduplicateAndTag`. -/
def dtTIds (target : List GraphNode) : List String := (dedupeNodes target).map (·.id)

/-- The graph after the target-tagging fold of `deduplicateAndTag`. -/
def dtG1 (g : CodeGraph) (target : List GraphNode) : CodeGraph :=
  (dedupeNodes target).foldl (fun g n => tagNodeInGraph g n.id "target") g

/-- The forward stage of `deduplicateAndTag`. -/
def dtFw (g : CodeGraph) (target forward : List GraphNode) :
    CodeGraph × List GraphNode :=
  tagFilterGo "forward" (dtTIds target) (dtG1 g target) [] (dedupeNodes forward)

/-- The backward stage of `deduplicateAndTag`. -/
def dtBw (g : CodeGraph) (target forward backward : List GraphNode) :
    CodeGraph × List GraphNode :=
  tagFilterGo "backward" (dtTIds target ++ (dtFw g target forward).2.map (·.id))
    (dtFw g target forward).1 [] (dedupeNodes backward)

/-- The exclusion list of the related stage of `deduplicateAndTag`. -/
def dtExcl3 (g : CodeGraph) (target forward backward : List GraphNode) : List String :=
  dtTIds target ++ (dtFw g target forward).2.map (·.id)
    ++ (dtBw g target forward backward).2.map (·.id)

/-- The related stage of `deduplicateAndTag`. -/
def dtRel0 (g : CodeGraph) (target forward backward related : List GraphNode) :
    CodeGraph × List GraphNode :=
  tagFilterGo "related" (dtExcl3 g target forward backward)
    (dtBw g target forward backward).1 [] (dedupeNodes related)

/-- The sibling-expansion stage of `deduplicateAndTag`. -/
def dtRel (g : CodeGraph) (target forward backward related : List GraphNode) :
    CodeGraph × List GraphNode :=
  expandSiblingsGo (dtExcl3 g target forward backward)
    (dtRel0 g target forward backward related) (dedupeNodes target)

/-- The graph returned by `deduplicateAndTag` is the sibling-stage graph. -/
theorem deduplicateAndTag_graph (g : CodeGraph) (prio : GraphNode → Rat)
    (target forward backward related : List GraphNode) (bl : Nat) :
    (deduplicateAndTag g prio target forward backward related bl).1
      = (dtRel g target forward backward related).1 := rfl

/-- The returned target bucket. -/
theorem deduplicateAndTag_target (g : CodeGraph) (prio : GraphNode → Rat)
    (target forward backward related : List GraphNode) (bl : Nat) :
    (deduplicateAndTag g prio target forward backward related bl).2.target
      = (dedupeNodes target).map (fun n => tagNode n "target") := rfl

/-- The returned forward bucket. -/
theorem deduplicateAndTag_forward (g : CodeGraph) (prio : GraphNode → Rat)
    (target forward backward related : List GraphNode) (bl : Nat) :
    (deduplicateAndTag g prio target forward backward related bl).2.forward
      = limitByBreadth prio (dtFw g target forward).2 (max 1 bl) := rfl

/-- The returned backward bucket. -/
theorem deduplicateAndTag_backward (g : CodeGraph) (prio : GraphNode → Rat)
    (target forward backward related : List GraphNode) (bl : Nat) :
    (deduplicateAndTag g prio target forward backward related bl).2.backward
      = limitByBreadth prio (dtBw g target forward backward).2 (max 1 bl) := rfl

/-- The returned related bucket. -/
theorem deduplicateAndTag_related (g : CodeGraph) (prio : GraphNode → Rat)
    (target forward backward related : List GraphNode) (bl : Nat) :
    (deduplicateAndTag g prio target forward backward related bl).2.related
      = limitByBreadth prio (dtRel g target forward backward related).2 (max 1 bl) := rfl

/-- Key sets are preserved by every tagging stage. -/
theorem dt_hasKey (g : CodeGraph) (target forward backward related : List GraphNode) :
    (∀ j, JsMap.hasKey (dtG1 g target).nodes j = JsMap.hasKey g.nodes j) ∧
    (∀ j, JsMap.hasKey (dtFw g target forward).1.nodes j = JsMap.hasKey g.nodes j) ∧
    (∀ j, JsMap.hasKey (dtBw g target forward backward).1.nodes j
      = JsMap.hasKey g.nodes j) ∧
    (∀ j, JsMap.hasKey (dtRel0 g target forward backward related).1.nodes j
      = JsMap.hasKey g.nodes j) ∧
    (∀ j, JsMap.hasKey (dtRel g target forward backward related).1.nodes j
      = JsMap.hasKey g.nodes j) := by
  have h1 : ∀ j, JsMap.hasKey (dtG1 g target).nodes j = JsMap.hasKey g.nodes j :=
    (foldTag_spec "target" (dedupeNodes target) g).1
  have h2 : ∀ j, JsMap.hasKey (dtFw g target forward).1.nodes j
      = JsMap.hasKey g.nodes j := fun j =>
    ((tagFilterGo_spec "forward" (dtTIds target) (dedupeNodes forward)
      (dtG1 g target) []).1 j).trans (h1 j)
  have h3 : ∀ j, JsMap.hasKey (dtBw g target forward backward).1.nodes j
      = JsMap.hasKey g.nodes j := fun j =>
    ((tagFilterGo_spec "backward" (dtTIds target ++ (dtFw g target forward).2.map (·.id))
      (dedupeNodes backward) (dtFw g target forward).1 []).1 j).trans (h2 j)
  have h4 : ∀ j, JsMap.hasKey (dtRel0 g target forward backward related).1.nodes j
      = JsMap.hasKey g.nodes j := fun j =>
    ((tagFilterGo_spec "related" (dtExcl3 g target forward backward)
      (dedupeNodes related) (dtBw g target forward backward).1 []).1 j).trans (h3 j)
  have h5 : ∀ j, JsMap.hasKey (dtRel g target forward backward related).1.nodes j
      = JsMap.hasKey g.nodes j := fun j =>
    ((expandSiblingsGo_spec (dtExcl3 g target forward backward) (dedupeNodes target)
      (dtRel0 g target forward backward related)).1 j).trans (h4 j)
  exact ⟨h1, h2, h3, h4, h5⟩

/-- `deduplicateAndTag` categorises every bucket node, both on the returned
node objects and on the entries of the returned graph (for nodes present in
the input graph), with the bucket's category. -/
theorem deduplicateAndTag_spec (g : CodeGraph) (prio : GraphNode → Rat)
    (target forward backward related : List GraphNode) (bl : Nat) :
    (∀ n ∈ (deduplicateAndTag g prio target forward backward related bl).2.target,
      n.metadata.category = some "target") ∧
    (∀ n ∈ (deduplicateAndTag g prio target forward backward related bl).2.forward,
      n.metadata.category = some "forward") ∧
    (∀ n ∈ (deduplicateAndTag g prio target forward backward related bl).2.backward,
      n.metadata.category = some "backward") ∧
    (∀ n ∈ (deduplicateAndTag g prio target forward backward related bl).2.related,
      n.metadata.category = some "related") ∧
    (∀ n ∈ (deduplicateAndTag g prio target forward backward related bl).2.target,
      JsMap.hasKey g.nodes n.id = true →
      CatAt (deduplicateAndTag g prio target forward backward related bl).1 n.id "target") ∧
    (∀ n ∈ (deduplicateAndTag g prio target forward backward related bl).2.forward,
      JsMap.hasKey g.nodes n.id = true →
      CatAt (deduplicateAndTag g prio target forward backward related bl).1 n.id "forward") ∧
    (∀ n ∈ (deduplicateAndTag g prio target forward backward related bl).2.backward,
      JsMap.hasKey g.nodes n.id = true →
      CatAt (deduplicateAndTag g prio target forward backward related bl).1 n.id "backward") ∧
    (∀ n ∈ (deduplicateAndTag g prio target forward backward related bl).2.related,
      JsMap.hasKey g.nodes n.id = true →
      CatAt (deduplicateAndTag g prio target forward backward related bl).1 n.id "related") := by
  obtain ⟨hk1, hk2, hk3, hk4, hk5⟩ := dt_hasKey g target forward backward related
  obtain ⟨f1, f2, f3, f4, f5⟩ := tagFilterGo_spec "forward" (dtTIds target)
    (dedupeNodes forward) (dtG1 g target) []
  obtain ⟨b1, b2, b3, b4, b5⟩ := tagFilterGo_spec "backward"
    (dtTIds target ++ (dtFw g target forward).2.map (·.id))
    (dedupeNodes backward) (dtFw g target forward).1 []
  obtain ⟨r1, r2, r3, r4, r5⟩ := tagFilterGo_spec "related"
    (dtExcl3 g target forward backward)
    (dedupeNodes related) (dtBw g target forward backward).1 []
  obtain ⟨e1, e2, e3, e4, e5⟩ := expandSiblingsGo_spec
    (dtExcl3 g target forward backward) (dedupeNodes target)
    (dtRel0 g target forward backward related)
  refine ⟨?_, ?_, ?_, ?_, ?_, ?_, ?_, ?_⟩
  · rw [deduplicateAndTag_target]
    intro n hn
    obtain ⟨m, _, rfl⟩ := List.mem_map.mp hn
    rfl
  · rw [deduplicateAndTag_forward]
    intro n hn
    exact f5 (fun p hp => absurd hp (List.not_mem_nil p)) n
      (limitByBreadth_subset prio (dtFw g target forward).2 (max 1 bl) n hn)
  · rw [deduplicateAndTag_backward]
    intro n hn
    exact b5 (fun p hp => absurd hp (List.not_mem_nil p)) n
      (limitByBreadth_subset prio (dtBw g target forward backward).2 (max 1 bl) n hn)
  · rw [deduplicateAndTag_related]
    intro n hn
    refine e5 ?_ n
      (limitByBreadth_subset prio (dtRel g target forward backward related).2 (max 1 bl) n hn)
    exact r5 (fun p hp => absurd hp (List.not_mem_nil p))
  · rw [deduplicateAndTag_target, deduplicateAndTag_graph]
    intro n hn hkey
    obtain ⟨m, hm, rfl⟩ := List.mem_map.mp hn
    have hid : (tagNode m "target").id = m.id := rfl
    rw [hid] at hkey ⊢
    have hmem : m.id ∈ dtTIds target := List.mem_map.mpr ⟨m, hm, rfl⟩
    have hcat1 : CatAt (dtG1 g target) m.id "target" :=
      (foldTag_spec "target" (dedupeNodes target) g).2.2 m hm hkey
    have hcat2 : CatAt (dtFw g target forward).1 m.id "target" :=
      f2 m.id "target" hmem hcat1
    have hcat3 : CatAt (dtBw g target forward backward).1 m.id "target" :=
      b2 m.id "target" (List.mem_append_left _ hmem) hcat2
    have hmem3 : m.id ∈ dtExcl3 g target forward backward :=
      List.mem_append_left _ (List.mem_append_left _ hmem)
    have hcat4 : CatAt (dtRel0 g target forward backward related).1 m.id "target" :=
      r2 m.id "target" hmem3 hcat3
    exact e2 m.id "target" hmem3 hcat4
  · rw [deduplicateAndTag_forward, deduplicateAndTag_graph]
    intro n hn hkey
    have hn' := limitByBreadth_subset prio (dtFw g target forward).2 (max 1 bl) n hn
    have hcat2 : CatAt (dtFw g target forward).1 n.id "forward" := by
      refine f4 (fun p hp => absurd hp (List.not_mem_nil p)) n hn' ?_
      rw [hk1]
      exact hkey
    have hmem : n.id ∈ dtTIds target ++ (dtFw g target forward).2.map (·.id) :=
      List.mem_append_right _ (List.mem_map.mpr ⟨n, hn', rfl⟩)
    have hcat3 : CatAt (dtBw g target forward backward).1 n.id "forward" :=
      b2 n.id "forward" hmem hcat2
    have hmem3 : n.id ∈ dtExcl3 g target forward backward :=
      List.mem_append_left _ hmem
    have hcat4 : CatAt (dtRel0 g target forward backward related).1 n.id "forward" :=
      r2 n.id "forward" hmem3 hcat3
    exact e2 n.id "forward" hmem3 hcat4
  · rw [deduplicateAndTag_backward, deduplicateAndTag_graph]
    intro n hn hkey
    have hn' := limitByBreadth_subset prio (dtBw g target forward backward).2 (max 1 bl) n hn
    have hcat3 : CatAt (dtBw g target forward backward).1 n.id "backward" := by
      refine b4 (fun p hp => absurd hp (List.not_mem_nil p)) n hn' ?_
      rw [hk2]
      exact hkey
    have hmem3 : n.id ∈ dtExcl3 g target forward backward :=
      List.mem_append_right _ (List.mem_map.mpr ⟨n, hn', rfl⟩)
    have hcat4 : CatAt (dtRel0 g target forward backward related).1 n.id "backward" :=
      r2 n.id "backward" hmem3 hcat3
    exact e2 n.id "backward" hmem3 hcat4
  · rw [deduplicateAndTag_related, deduplicateAndTag_graph]
    intro n hn hkey
    have hn' := limitByBreadth_subset prio
      (dtRel g target forward backward related).2 (max 1 bl) n hn
    refine e4 ?_ n hn' ?_
    · intro p hp hpk
      refine r4 (fun q hq => absurd hq (List.not_mem_nil q)) p hp ?_
      rw [hk3]
      rw [hk4] at hpk
      exact hpk
    · rw [hk4]
      exact hkey

/-- A scoring step with a present embedding leaves the graph unchanged. -/
theorem rankFoldStep_some (embed : String → List Rat) (sim : List Rat → List Rat → Rat)
    (qe : List Rat) (acc : CodeGraph × List (GraphNode × Rat)) (m : GraphNode)
    (emb : List Rat) (hm : m.embedding = some emb) :
    rankFoldStep embed sim qe acc m = (acc.1, acc.2 ++ [(m, sim qe emb)]) := by
  unfold rankFoldStep
  rw [hm]

/-- A scoring step with a missing embedding computes and stores one. -/
theorem rankFoldStep_none (embed : String → List Rat) (sim : List Rat → List Rat → Rat)
    (qe : List Rat) (acc : CodeGraph × List (GraphNode × Rat)) (m : GraphNode)
    (hm : m.embedding = none) :
    rankFoldStep embed sim qe acc m =
      (writeEmbeddingInGraph acc.1 m.id (embed m.content),
        acc.2 ++ [({ m with embedding := some (embed m.content) },
          sim qe (embed m.content))]) := by
  unfold rankFoldStep
  rw [hm]

/-- A scoring step keeps the key set. -/
theorem rankFoldStep_hasKey (embed : String → List Rat) (sim : List Rat → List Rat → Rat)
    (qe : List Rat) (acc : CodeGraph × List (GraphNode × Rat)) (m : GraphNode) (j : String) :
    JsMap.hasKey (rankFoldStep embed sim qe acc m).1.nodes j
      = JsMap.hasKey acc.1.nodes j := by
  cases hm : m.embedding with
  | none =>
      rw [rankFoldStep_none embed sim qe acc m hm]
      exact hasKey_writeEmbeddingInGraph acc.1 m.id (embed m.content) j
  | some emb => rw [rankFoldStep_some embed sim qe acc m emb hm]

/-- The scoring fold keeps the key set. -/
theorem rankFold_hasKey (embed : String → List Rat) (sim : List Rat → List Rat → Rat)
    (qe : List Rat) (nodes : List GraphNode) :
    ∀ (acc : CodeGraph × List (GraphNode × Rat)) (j : String),
      JsMap.hasKey ((nodes.foldl (rankFoldStep embed sim qe) acc)).1.nodes j
        = JsMap.hasKey acc.1.nodes j := by
  induction nodes with
  | nil => intro acc j; rfl
  | cons m rest ih =>
      intro acc j
      rw [List.foldl_cons, ih (rankFoldStep embed sim qe acc m) j,
        rankFoldStep_hasKey]

/-- A stored embedding survives the scoring fold when no folded node shares
its id. -/
theorem rankFold_preserve (embed : String → List Rat) (sim : List Rat → List Rat → Rat)
    (qe : List Rat) (nodes : List GraphNode) :
    ∀ (acc : CodeGraph × List (GraphNode × Rat)) (id : String) (e : List Rat),
      (∀ x ∈ nodes, x.id ≠ id) → EmbAt acc.1 id e →
      EmbAt ((nodes.foldl (rankFoldStep embed sim qe) acc)).1 id e := by
  induction nodes with
  | nil => intro acc id e _ h; exact h
  | cons m rest ih =>
      intro acc id e hne h
      rw [List.foldl_cons]
      refine ih (rankFoldStep embed sim qe acc m) id e
        (fun x hx => hne x (List.mem_cons_of_mem m hx)) ?_
      cases hm : m.embedding with
      | none =>
          rw [rankFoldStep_none embed sim qe acc m hm]
          exact embAt_write_preserve acc.1 id e m.id (embed m.content) h
            (fun he => hne m (List.mem_cons_self m rest) he.symm)
      | some emb =>
          rw [rankFoldStep_some embed sim qe acc m emb hm]
          exact h

/-- Every folded node lacking an embedding and present in the graph receives
the freshly computed embedding, persisting to the end of the fold when ids
are duplicate-free. -/
theorem rankFold_emb (embed : String → List Rat) (sim : List Rat → List Rat → Rat)
    (qe : List Rat) (nodes : List GraphNode) :
    ∀ acc : CodeGraph × List (GraphNode × Rat),
      (nodes.map (·.id)).Nodup →
      ∀ n ∈ nodes, n.embedding = none → JsMap.hasKey acc.1.nodes n.id = true →
        EmbAt ((nodes.foldl (rankFoldStep embed sim qe) acc)).1 n.id (embed n.content) := by
  induction nodes with
  | nil => intro acc _ n hn; exact absurd hn (List.not_mem_nil n)
  | cons m rest ih =>
      intro acc hnd n hn hne hkey
      rw [List.map_cons, List.nodup_cons] at hnd
      rw [List.foldl_cons]
      rcases List.mem_cons.mp hn with rfl | hrest
      · refine rankFold_preserve embed sim qe rest
          (rankFoldStep embed sim qe acc n) n.id (embed n.content) ?_ ?_
        · intro x hx he
          exact hnd.1 (he ▸ List.mem_map.mpr ⟨x, hx, rfl⟩)
        · rw [rankFoldStep_none embed sim qe acc n hne]
          exact embAt_write_self acc.1 n.id (embed n.content) hkey
      · refine ih (rankFoldStep embed sim qe acc m) hnd.2 n hrest hne ?_
        rw [rankFoldStep_hasKey]
        exact hkey

/-- With embeddings enabled the graph returned by `rankByEmbedding` is the
fold's graph. -/
theorem rankByEmbedding_graph (embed : String → List Rat)
    (sim : List Rat → List Rat → Rat) (g : CodeGraph) (nodes : List GraphNode)
    (qe : List Rat) (topK : Nat) :
    (rankByEmbedding embed sim true g nodes qe topK).1
      = ((nodes.foldl (rankFoldStep embed sim qe) (g, []))).1 := rfl

/-- A concrete uncategorised node without an embedding. -/
def c10Node : GraphNode :=
  { id := "m", type := "function", name := "h", path := "p.ts",
    content := "x", startLine := 1, endLine := 1 }

/-- A one-node graph holding `c10Node`. -/
def c10Graph : CodeGraph := CodeGraph.upsertNode {} c10Node

/-- C10: `deduplicateAndTag` overwrites `metadata.category` with the bucket
category (`target`/`forward`/`backward`/`related`) both on the returned node
objects and on the entries of the returned graph, `rankByEmbedding` writes a
freshly computed embedding into the graph entry of every considered node that
lacks one (duplicate-free ids), and the updated graph differs from the input
graph: `buildContextForChange` is not read-only on the shared graph. -/
theorem claim_C10 (g : CodeGraph) (prio : GraphNode → Rat)
    (target forward backward related : List GraphNode) (bl : Nat)
    (embed : String → List Rat) (sim : List Rat → List Rat → Rat)
    (nodes : List GraphNode) (queryEmbedding : List Rat) (topK : Nat) :
    ((∀ n ∈ (deduplicateAndTag g prio target forward backward related bl).2.target,
        n.metadata.category = some "target") ∧
      (∀ n ∈ (deduplicateAndTag g prio target forward backward related bl).2.forward,
        n.metadata.category = some "forward") ∧
      (∀ n ∈ (deduplicateAndTag g prio target forward backward related bl).2.backward,
        n.metadata.category = some "backward") ∧
      (∀ n ∈ (deduplicateAndTag g prio target forward backward related bl).2.related,
        n.metadata.category = some "related") ∧
      (∀ n ∈ (deduplicateAndTag g prio target forward backward related bl).2.target,
        JsMap.hasKey g.nodes n.id = true →
        CatAt (deduplicateAndTag g prio target forward backward related bl).1 n.id "target") ∧
      (∀ n ∈ (deduplicateAndTag g prio target forward backward related bl).2.forward,
        JsMap.hasKey g.nodes n.id = true →
        CatAt (deduplicateAndTag g prio target forward backward related bl).1 n.id "forward") ∧
      (∀ n ∈ (deduplicateAndTag g prio target forward backward related bl).2.backward,
        JsMap.hasKey g.nodes n.id = true →
        CatAt (deduplicateAndTag g prio target forward backward related bl).1 n.id "backward") ∧
      (∀ n ∈ (deduplicateAndTag g prio target forward backward related bl).2.related,
        JsMap.hasKey g.nodes n.id = true →
        CatAt (deduplicateAndTag g prio target forward backward related bl).1 n.id "related")) ∧
    ((nodes.map (·.id)).Nodup →
      ∀ n ∈ nodes, n.embedding = none → JsMap.hasKey g.nodes n.id = true →
        EmbAt (rankByEmbedding embed sim true g nodes queryEmbedding topK).1 n.id
          (embed n.content)) ∧
    (deduplicateAndTag c10Graph (fun _ => 0) [c10Node] [] [] [] 3).1 ≠ c10Graph := by
  refine ⟨deduplicateAndTag_spec g prio target forward backward related bl, ?_, ?_⟩
  · intro hnd n hn hne hkey
    rw [rankByEmbedding_graph]
    exact rankFold_emb embed sim queryEmbedding nodes (g, []) hnd n hn hne hkey
  · decide

/-- C10 at concrete inputs: tagging a stored node updates both the returned
node object and the graph entry, a missing embedding is computed and stored,
and the returned graph differs from the input graph. -/
theorem claim_C10_witness :
    CatAt (deduplicateAndTag c10Graph (fun _ => 0) [c10Node] [] [] [] 3).1 "m" "target" ∧
    (tagNode c10Node "target").metadata.category = some "target" ∧
    EmbAt (rankByEmbedding (fun _ => [(1 : Rat)]) (fun _ _ => 0) true c10Graph
      [c10Node] [] 5).1 "m" [(1 : Rat)] ∧
    (deduplicateAndTag c10Graph (fun _ => 0) [c10Node] [] [] [] 3).1 ≠ c10Graph := by
  have h := claim_C10 c10Graph (fun _ => 0) [c10Node] [] [] [] 3
    (fun _ => [(1 : Rat)]) (fun _ _ => 0) [c10Node] [] 5
  refine ⟨?_, ?_, ?_, h.2.2⟩
  · exact h.1.2.2.2.2.1 (tagNode c10Node "target") (by decide) (by decide)
  · exact h.1.1 (tagNode c10Node "target") (by decide)
  · exact h.2.1 (by decide) c10Node (by decide) rfl (by decide)
